import Mathlib

/-!
Mython interpreter: lexer and runtime

A shallow embedding of `lexer.cpp`, `runtime.cpp` and `statement.cpp`.

Conventions used by the embedding.

* `std::string` is a `List Char` in the lexer (a C++ `char` is read as the character
  with the same code) and a `String` in the runtime.
* `size_t` is a natural number below `2 ^ 64`; subtraction and addition on it wrap.
* `int` is a signed 32-bit integer; arithmetic on runtime numbers wraps to that range.
  Counters bounded by the length of a line (`indent`, `comment`) are kept as natural
  numbers: lines are taken to be shorter than `2 ^ 31` characters.
* A computation ends in one of four ways, see `Res`: it returns, it throws a C++
  exception, it runs into undefined behaviour (null dereference, integer division
  by zero), or it never ends. Loops that the source does not bound are given fuel and
  `Res.loop` stands for "the fuel ran out".
-/

namespace Mython

/-- Outcome of running a piece of the program. -/
inductive Res (ε α : Type) where
  | ok (a : α)
  | raise (e : ε)
  | undefined
  | loop
  deriving DecidableEq

/-- Largest value of `int`. -/
def INT_MAX : Int := 2147483647

/-- Smallest value of `int`. -/
def INT_MIN : Int := -2147483648

/-- The `int` that a two's complement machine keeps of an integer. -/
def wrapInt (x : Int) : Int := (x - INT_MIN) % 4294967296 + INT_MIN

/-- Sequencing of computations: the first outcome that is not a return ends the run. -/
def Res.bind {ε α β : Type} (r : Res ε α) (f : α → Res ε β) : Res ε β :=
  match r with
  | .ok a => f a
  | .raise e => .raise e
  | .undefined => .undefined
  | .loop => .loop

/-! ## Tokens (`lexer.h`) -/

namespace parse

/-- The variant `parse::Token`. -/
inductive Token where
  | Number (value : Int)
  | Id (value : List Char)
  | Char (value : Char)
  | String (value : List Char)
  | Class | Return | If | Else | Def | Newline | Print | Indent | Dedent
  | And | Or | Not | Eq | NotEq | LessOrEq | GreaterOrEq | None | True | False | Eof
  deriving DecidableEq

/-- Exceptions that leave the lexer: `LexerError` and the `std::out_of_range` thrown by
`at`, `substr` and `stoi`. -/
inductive LexExn where
  | LexerError (msg : String)
  | out_of_range
  deriving DecidableEq

abbrev LexRes (α : Type) := Res LexExn α

/-- Number of values of `size_t`. -/
def SIZE_T : Nat := 2 ^ 64

/-- The constant `std::string::npos`. -/
def npos : Nat := SIZE_T - 1

/-- Subtraction on `size_t`. -/
def subSize (a b : Nat) : Nat := (a + SIZE_T - b % SIZE_T) % SIZE_T

/-- Addition on `size_t`. -/
def addSize (a b : Nat) : Nat := (a + b) % SIZE_T

/-- The character `\`. -/
def BACKSLASH : Char := Char.ofNat 92

/-- The character `'`. -/
def SQUOTE : Char := Char.ofNat 39

/-- The character `"`. -/
def DQUOTE : Char := Char.ofNat 34

/-- Line feed. -/
def LF : Char := Char.ofNat 10

/-- Carriage return. -/
def CR : Char := Char.ofNat 13

/-- Horizontal tab. -/
def TAB : Char := Char.ofNat 9

/-- `std::string::at`. -/
def strAt (s : List Char) (i : Nat) : LexRes Char :=
  match s.get? i with
  | some c => .ok c
  | none => .raise .out_of_range

/-- `std::string::substr(pos, count)`. -/
def substr (s : List Char) (pos count : Nat) : LexRes (List Char) :=
  if pos > s.length then .raise .out_of_range else .ok ((s.drop pos).take count)

/-- Search of `std::string::find(ch, pos)` through a suffix whose head has index `i`. -/
def findFrom (ch : Char) : List Char → Nat → Nat
  | [], _ => npos
  | c :: cs, i => if c = ch then i else findFrom ch cs (i + 1)

/-- `std::string::find(ch, pos)`. -/
def find (s : List Char) (ch : Char) (pos : Nat) : Nat :=
  findFrom ch (s.drop pos) pos

/-- Loop of `Lexer::FindComment_` over the rest of the line; `i` is the index of its
head. -/
def FindComment_.go : List Char → Nat → Bool → Bool → Int
  | [], _, _, _ => -1
  | c :: cs, i, single_quote, double_quote =>
    if c = SQUOTE ∧ double_quote = false then
      FindComment_.go cs (i + 1) (!single_quote) double_quote
    else if c = DQUOTE ∧ single_quote = false then
      FindComment_.go cs (i + 1) single_quote (!double_quote)
    else if c = '#' ∧ single_quote = false ∧ double_quote = false then
      (i : Int)
    else
      FindComment_.go cs (i + 1) single_quote double_quote

/-- `Lexer::FindComment_`. -/
def FindComment_ (word : List Char) : Int :=
  FindComment_.go word 0 false false

/-- `Lexer::IsVariableChar_`. -/
def IsVariableChar_ (c : Char) : Bool :=
  if ('a' ≤ c ∧ c ≤ 'z') ∨ ('A' ≤ c ∧ c ≤ 'Z') ∨ ('0' ≤ c ∧ c ≤ '9') ∨ c = '_' then true
  else false

/-- `Lexer::IsDigit_`. -/
def IsDigit_ (c : Char) : Bool :=
  if '0' ≤ c ∧ c ≤ '9' then true else false

/-- `Lexer::IsVariableName_`. -/
def IsVariableName_ (word : List Char) : LexRes Bool :=
  match word with
  | [] => .raise .out_of_range
  | c :: cs =>
    if ¬ (IsVariableChar_ c = true ∧ ¬ IsDigit_ c = true) then .ok false
    else .ok (cs.all IsVariableChar_)

/-- `Lexer::IsNumber_`. -/
def IsNumber_ (word : List Char) : Bool :=
  word.all IsDigit_

/-- `Lexer::IsOperationChar_`. -/
def IsOperationChar_ (c : Char) : Bool :=
  if c = '.' ∨ c = ',' ∨ c = '(' ∨ c = ')' ∨
     c = '>' ∨ c = '<' ∨ c = ':' ∨ c = '=' ∨
     c = '+' ∨ c = '-' ∨ c = '*' ∨ c = '/' ∨
     c = '!' ∨ c = '?' then true
  else false

/-- `Lexer::IsOperatinString_`. -/
def IsOperatinString_ (word : List Char) : Bool :=
  word.all IsOperationChar_

/-- `Lexer::IsLineEmpty_`. -/
def IsLineEmpty_ (word : List Char) : Bool :=
  if word.length = 0 then true else word.all (fun c => decide (c = ' '))

/-- Loop of `Lexer::EscSeqHandler_` over the rest of the word. -/
def EscSeqHandler_.go : List Char → List Char → LexRes (List Char)
  | [], result_str => .ok result_str
  | c :: rest, result_str =>
    if c = BACKSLASH then
      match rest with
      | [] => .raise (.LexerError "String parsing error")
      | escaped_char :: rest2 =>
        if escaped_char = 'n' then EscSeqHandler_.go rest2 (result_str ++ [LF])
        else if escaped_char = 't' then EscSeqHandler_.go rest2 (result_str ++ [TAB])
        else if escaped_char = 'r' then EscSeqHandler_.go rest2 (result_str ++ [CR])
        else if escaped_char = DQUOTE then EscSeqHandler_.go rest2 (result_str ++ [DQUOTE])
        else if escaped_char = SQUOTE then EscSeqHandler_.go rest2 (result_str ++ [SQUOTE])
        else if escaped_char = BACKSLASH then
          EscSeqHandler_.go rest2 (result_str ++ [BACKSLASH])
        else
          .raise (.LexerError ("Unrecognized escape sequence \\".push escaped_char))
    else if c = LF ∨ c = CR then .raise (.LexerError "Unexpected end of line")
    else EscSeqHandler_.go rest (result_str ++ [c])

/-- `Lexer::EscSeqHandler_`. -/
def EscSeqHandler_ (word : List Char) : LexRes (List Char) :=
  EscSeqHandler_.go word []

/-- `Lexer::KeyWordToToken_`. -/
def KeyWordToToken_ (word : List Char) : Option Token :=
  if word = "class".toList then some .Class
  else if word = "return".toList then some .Return
  else if word = "if".toList then some .If
  else if word = "else".toList then some .Else
  else if word = "def".toList then some .Def
  else if word = "print".toList then some .Print
  else if word = "and".toList then some .And
  else if word = "or".toList then some .Or
  else if word = "None".toList then some .None
  else if word = "True".toList then some .True
  else if word = "False".toList then some .False
  else if word = "not".toList then some .Not
  else none

/-- `Lexer::OperationToToken_`. -/
def OperationToToken_ (word : List Char) : Option Token :=
  if word = "!=".toList then some .NotEq
  else if word = "==".toList then some .Eq
  else if word = ">=".toList then some .GreaterOrEq
  else if word = "<=".toList then some .LessOrEq
  else none

/-- Value of a word of decimal digits. -/
def digitsValue (word : List Char) : Nat :=
  word.foldl (fun acc c => 10 * acc + (c.toNat - '0'.toNat)) 0

/-- `std::stoi` on a word of decimal digits: the value, or `std::out_of_range` when it
does not fit an `int`. -/
def stoi (word : List Char) : LexRes Int :=
  if (digitsValue word : Int) > INT_MAX then .raise .out_of_range
  else .ok (digitsValue word : Int)

/-- `Lexer::AppendTokensList_`; the token buffer is passed in and returned. -/
def AppendTokensList_ (tokens_list_ : List Token) (word : List Char) :
    LexRes (List Token) :=
  match KeyWordToToken_ word with
  | some keyword_token => .ok (tokens_list_ ++ [keyword_token])
  | none =>
    match OperationToToken_ word with
    | some operation_token => .ok (tokens_list_ ++ [operation_token])
    | none =>
      if IsOperatinString_ word = true then .ok (tokens_list_ ++ word.map Token.Char)
      else if IsNumber_ word = true then
        match stoi word with
        | .ok v => .ok (tokens_list_ ++ [Token.Number v])
        | .raise e => .raise e
        | .undefined => .undefined
        | .loop => .loop
      else
        match IsVariableName_ word with
        | .ok true => .ok (tokens_list_ ++ [Token.Id word])
        | .ok false =>
          match strAt word 0 with
          | .ok c0 =>
            if c0 = SQUOTE ∨ c0 = DQUOTE then
              match substr word 1 (subSize word.length 2) with
              | .ok inner =>
                match EscSeqHandler_ inner with
                | .ok value => .ok (tokens_list_ ++ [Token.String value])
                | .raise e => .raise e
                | .undefined => .undefined
                | .loop => .loop
              | .raise e => .raise e
              | .undefined => .undefined
              | .loop => .loop
            else .raise (.LexerError "invalid input")
          | .raise e => .raise e
          | .undefined => .undefined
          | .loop => .loop
        | .raise e => .raise e
        | .undefined => .undefined
        | .loop => .loop

/-- The loops `while (line_iter < line_len && P(c) && c != ' ')` that collect a word:
the characters collected from the rest of the line. -/
def accumulate (P : Char → Bool) : List Char → List Char
  | [] => []
  | c :: cs => if P c = true ∧ c ≠ ' ' then c :: accumulate P cs else []

/-- The `while (1)` loop that looks for the closing quote: `begin` is where the next
`find` starts. Every round moves `begin` past one more quote, so `line.length + 1`
rounds are always enough. -/
def closingQuote (line : List Char) (quote : Char) : Nat → Nat → LexRes Nat
  | 0, _ => .loop
  | rounds + 1, begin =>
    let pos := find line quote begin
    if pos = npos then .ok pos
    else
      match strAt line (pos - 1), strAt line pos with
      | .ok before, .ok here =>
        if before ≠ BACKSLASH ∧ here = quote then .ok pos
        else closingQuote line quote rounds (pos + 1)
      | .raise e, _ => .raise e
      | _, .raise e => .raise e
      | _, _ => .undefined

/-- One round of the loop `while (line_iter < line_len)` of `Lexer::ParseInputStream_`:
the new `line_iter` and the new token buffer. -/
def scanStep (line : List Char) (line_iter : Nat) (tokens_list_ : List Token) :
    LexRes (Nat × List Token) :=
  match strAt line line_iter with
  | .raise e => .raise e
  | .undefined => .undefined
  | .loop => .loop
  | .ok c =>
    if c = ' ' then .ok (line_iter + 1, tokens_list_)
    else if c = BACKSLASH then
      let pushed := tokens_list_ ++ [Token.Char BACKSLASH]
      if line_iter < line.length - 1 then
        match strAt line (line_iter + 1) with
        | .ok escaped_char =>
          if escaped_char = 'n' ∨ escaped_char = 't' ∨ escaped_char = 'r' ∨
              escaped_char = DQUOTE ∨ escaped_char = BACKSLASH then
            .ok (line_iter + 2, pushed ++ [Token.Char escaped_char])
          else .ok (line_iter + 1, pushed)
        | .raise e => .raise e
        | .undefined => .undefined
        | .loop => .loop
      else .ok (line_iter + 1, pushed)
    else if IsOperationChar_ c = true then
      let tmp_string := accumulate IsOperationChar_ (line.drop line_iter)
      match AppendTokensList_ tokens_list_ tmp_string with
      | .ok toks => .ok (line_iter + tmp_string.length, toks)
      | .raise e => .raise e
      | .undefined => .undefined
      | .loop => .loop
    else if IsVariableChar_ c = true then
      let tmp_string :=
        accumulate (fun x => IsVariableChar_ x || IsDigit_ x) (line.drop line_iter)
      match AppendTokensList_ tokens_list_ tmp_string with
      | .ok toks => .ok (line_iter + tmp_string.length, toks)
      | .raise e => .raise e
      | .undefined => .undefined
      | .loop => .loop
    else if c = SQUOTE ∨ c = DQUOTE then
      match closingQuote line c (line.length + 1) (line_iter + 1) with
      | .ok pos =>
        let count := addSize (subSize pos line_iter) 1
        match substr line line_iter count with
        | .ok tmp_string =>
          match AppendTokensList_ tokens_list_ tmp_string with
          | .ok toks => .ok (addSize line_iter count, toks)
          | .raise e => .raise e
          | .undefined => .undefined
          | .loop => .loop
        | .raise e => .raise e
        | .undefined => .undefined
        | .loop => .loop
      | .raise e => .raise e
      | .undefined => .undefined
      | .loop => .loop
    else if IsDigit_ c = true then
      let tmp_string := accumulate IsDigit_ (line.drop line_iter)
      match AppendTokensList_ tokens_list_ tmp_string with
      | .ok toks => .ok (line_iter + tmp_string.length, toks)
      | .raise e => .raise e
      | .undefined => .undefined
      | .loop => .loop
    else .ok (line_iter, tokens_list_)

/-- The loop `while (line_iter < line_len)` of `Lexer::ParseInputStream_`. The source
gives no bound on the number of rounds; `fuel` is the number of rounds allowed. -/
def scanLoop (line : List Char) : Nat → Nat → List Token → LexRes (List Token)
  | 0, line_iter, tokens_list_ =>
    if line_iter < line.length then .loop else .ok tokens_list_
  | fuel + 1, line_iter, tokens_list_ =>
    if line_iter < line.length then
      match scanStep line line_iter tokens_list_ with
      | .ok (i, toks) => scanLoop line fuel i toks
      | .raise e => .raise e
      | .undefined => .undefined
      | .loop => .loop
    else .ok tokens_list_

/-- The loop `while (line.at(line_iter) == ' ')`: the number of leading spaces, counted
from `n` over the rest of the line. -/
def leadingSpaces : List Char → Nat → LexRes Nat
  | [], _ => .raise .out_of_range
  | c :: cs, n => if c = ' ' then leadingSpaces cs (n + 1) else .ok n

/-- The lines that successive calls of `getline` deliver from a stream holding `text`. -/
def getlines : List Char → List (List Char)
  | [] => []
  | c :: cs =>
    if c = LF then [] :: getlines cs
    else
      match getlines cs with
      | [] => [[c]]
      | l :: ls => (c :: l) :: ls

/-- The members of `parse::Lexer`. The stream `input_` is the list of lines that
`getline` will still deliver. `previous_indent_` is an `int` that is never negative.
The member `tmp_string` is a scratch variable written before every read and is left
out. -/
structure Lexer where
  tokens_list_ : List Token
  input_ : List (List Char)
  current_token_ : Nat
  eof : Bool
  previous_indent_ : Nat
  deriving DecidableEq

/-- The tokens of the indentation step: `abs(indent - previous_indent_)` times `Indent`
or `Dedent`. -/
def indentTokens (indent previous_indent_ : Nat) : List Token :=
  if indent ≠ previous_indent_ then
    if indent > previous_indent_ then List.replicate (indent - previous_indent_) Token.Indent
    else List.replicate (previous_indent_ - indent) Token.Dedent
  else []

/-- The comment step of `Lexer::ParseInputStream_`: the line cut at the position that
`FindComment_` returns, when it is not `-1`. -/
def stripComment (line : List Char) : List Char :=
  let comment := FindComment_ line
  if comment ≠ -1 then line.take comment.toNat else line

/-- `Lexer::ParseInputStream_`, by recursion on the lines left in the stream. -/
def ParseInputStream_ (fuel : Nat) : List (List Char) → Lexer → LexRes (Bool × Lexer)
  | [], lx =>
    if lx.eof = false then
      .ok (true, { lx with
        input_ := []
        eof := true
        tokens_list_ :=
          lx.tokens_list_ ++ List.replicate lx.previous_indent_ Token.Dedent ++ [Token.Eof] })
    else .ok (false, { lx with input_ := [] })
  | line0 :: rest, lx =>
    let line := stripComment line0
    if IsLineEmpty_ line = true then ParseInputStream_ fuel rest lx
    else
      match leadingSpaces line 0 with
      | .ok spaces =>
        let indent := spaces / 2
        let toks := lx.tokens_list_ ++ indentTokens indent lx.previous_indent_
        match scanLoop line fuel spaces toks with
        | .ok toks2 =>
          .ok (true, { lx with
            input_ := rest
            previous_indent_ := indent
            tokens_list_ := toks2 ++ [Token.Newline] })
        | .raise e => .raise e
        | .undefined => .undefined
        | .loop => .loop
      | .raise e => .raise e
      | .undefined => .undefined
      | .loop => .loop

/-- `Lexer::Lexer`: the lexer over a stream holding `text`. -/
def Lexer.new (fuel : Nat) (text : List Char) : LexRes Lexer :=
  match ParseInputStream_ fuel (getlines text)
      { tokens_list_ := [], input_ := getlines text, current_token_ := 0, eof := false,
        previous_indent_ := 0 } with
  | .ok (_, lx) => .ok lx
  | .raise e => .raise e
  | .undefined => .undefined
  | .loop => .loop

/-- `std::vector::at` on the token buffer. -/
def tokenAt (tokens_list_ : List Token) (i : Nat) : LexRes Token :=
  match tokens_list_.get? i with
  | some t => .ok t
  | none => .raise .out_of_range

/-- `Lexer::CurrentToken`. -/
def CurrentToken (lx : Lexer) : LexRes Token :=
  tokenAt lx.tokens_list_ lx.current_token_

/-- `Lexer::NextToken`: the token returned and the lexer afterwards. -/
def NextToken (fuel : Nat) (lx : Lexer) : LexRes (Token × Lexer) :=
  let lx1 := { lx with current_token_ := lx.current_token_ + 1 }
  if lx1.current_token_ ≥ lx1.tokens_list_.length then
    match ParseInputStream_ fuel lx1.input_ lx1 with
    | .ok (false, lx2) =>
      match lx2.tokens_list_.getLast? with
      | some t => .ok (t, { lx2 with current_token_ := lx2.current_token_ - 1 })
      | none => .undefined
    | .ok (true, lx2) =>
      match tokenAt lx2.tokens_list_ lx2.current_token_ with
      | .ok t => .ok (t, lx2)
      | .raise e => .raise e
      | .undefined => .undefined
      | .loop => .loop
    | .raise e => .raise e
    | .undefined => .undefined
    | .loop => .loop
  else
    match tokenAt lx1.tokens_list_ lx1.current_token_ with
    | .ok t => .ok (t, lx1)
    | .raise e => .raise e
    | .undefined => .undefined
    | .loop => .loop

/-- Repeated calls of `NextToken`, at most `n` of them, up to the first one that returns
`Eof`: the tokens returned. -/
def drain (fuel : Nat) : Nat → Lexer → LexRes (List Token)
  | 0, _ => .loop
  | n + 1, lx =>
    match NextToken fuel lx with
    | .ok (t, lx2) =>
      if t = Token.Eof then .ok [t]
      else
        match drain fuel n lx2 with
        | .ok ts => .ok (t :: ts)
        | .raise e => .raise e
        | .undefined => .undefined
        | .loop => .loop
    | .raise e => .raise e
    | .undefined => .undefined
    | .loop => .loop

/-- The complete token sequence of a text as a client sees it: `CurrentToken` after
construction, then the results of `NextToken` up to and including `Eof`. -/
def tokenStream (fuel n : Nat) (text : List Char) : LexRes (List Token) :=
  match Lexer.new fuel text with
  | .ok lx =>
    match CurrentToken lx with
    | .ok t =>
      if t = Token.Eof then .ok [t]
      else
        match drain fuel n lx with
        | .ok ts => .ok (t :: ts)
        | .raise e => .raise e
        | .undefined => .undefined
        | .loop => .loop
    | .raise e => .raise e
    | .undefined => .undefined
    | .loop => .loop
  | .raise e => .raise e
  | .undefined => .undefined
  | .loop => .loop

/-- `k` further calls of `NextToken`: the tokens returned and the lexer afterwards. -/
def callNextToken (fuel : Nat) : Nat → Lexer → LexRes (List Token × Lexer)
  | 0, lx => .ok ([], lx)
  | k + 1, lx =>
    match NextToken fuel lx with
    | .ok (t, lx2) =>
      match callNextToken fuel k lx2 with
      | .ok (ts, lx3) => .ok (t :: ts, lx3)
      | .raise e => .raise e
      | .undefined => .undefined
      | .loop => .loop
    | .raise e => .raise e
    | .undefined => .undefined
    | .loop => .loop

/-- The lexer states a client can observe: the state after construction and the states
after further calls of `NextToken`. -/
inductive Reachable : Lexer → Prop where
  | new (fuel : Nat) (text : List Char) (lx : Lexer) :
      Lexer.new fuel text = .ok lx → Reachable lx
  | next (fuel : Nat) (t : Token) (lx lx2 : Lexer) :
      Reachable lx → NextToken fuel lx = .ok (t, lx2) → Reachable lx2

/-- Indentation level of a line: its leading spaces divided by two. -/
def level (line : List Char) : Nat :=
  (line.takeWhile (fun c => decide (c = ' '))).length / 2

/-- Indentation level of the last line that is not blank after comment stripping, and
`0` when there is no such line. -/
def lastLevel (lines : List (List Char)) : Nat :=
  match (lines.filter (fun l => !IsLineEmpty_ (stripComment l))).getLast? with
  | some l => level (stripComment l)
  | none => 0

/-- Length of the run of `Dedent` tokens directly before the last token of a sequence. -/
def trailingDedents (ts : List Token) : Nat :=
  (ts.dropLast.reverse.takeWhile (fun t => decide (t = Token.Dedent))).length

end parse

end Mython

namespace Mython
namespace parse

/-! ## Notions used to state the properties of the lexer -/

/-- The tokens that the layout of the text produces, as opposed to the words of a line. -/
def Token.isLayout : Token → Bool
  | .Indent | .Dedent | .Eof | .Newline => true
  | _ => false

/-- A token that the words of a line can produce: no layout token, and an `Id` only with
a payload that `KeyWordToToken_` does not know. -/
def Token.isWord (t : Token) : Prop :=
  t.isLayout = false ∧ ∀ v, t = Token.Id v → KeyWordToToken_ v = none

/-- A token sequence whose `Id` tokens carry no keyword. -/
def IdInv (ts : List Token) : Prop :=
  ∀ v, Token.Id v ∈ ts → KeyWordToToken_ v = none

/-- A token sequence that is empty or ends with `Newline`. -/
def EndsNewline (ts : List Token) : Prop :=
  ∀ t, ts.getLast? = some t → t = Token.Newline

/-- What holds of the token buffer of a lexer over the lines `all`: before the end of the
stream it has no `Eof`, it ends with `Newline`, and its `Indent` tokens exceed its
`Dedent` tokens by the current level, which is that of the last line read that is not
blank; after the end it is such a buffer closed by the pending `Dedent` tokens and
`Eof`. -/
def BufInv (all : List (List Char)) (lx : Lexer) : Prop :=
  (lx.eof = false →
    (∃ done, all = done ++ lx.input_ ∧ lx.previous_indent_ = lastLevel done) ∧
    Token.Eof ∉ lx.tokens_list_ ∧ EndsNewline lx.tokens_list_ ∧
    lx.tokens_list_.count Token.Indent =
      lx.tokens_list_.count Token.Dedent + lx.previous_indent_) ∧
  (lx.eof = true → lx.input_ = [] ∧
    ∃ pre, lx.tokens_list_ =
        pre ++ List.replicate (lastLevel all) Token.Dedent ++ [Token.Eof] ∧
      Token.Eof ∉ pre ∧ EndsNewline pre ∧
      pre.count Token.Indent = pre.count Token.Dedent + lastLevel all)

/-- A line that `ParseInputStream_` skips: blank after comment stripping. -/
def blankLine (l : List Char) : Bool := IsLineEmpty_ (stripComment l)

/-- The escaped form of one character of a string value. -/
def escapeChar (c : Char) : List Char :=
  if c = LF then [BACKSLASH, 'n']
  else if c = TAB then [BACKSLASH, 't']
  else if c = CR then [BACKSLASH, 'r']
  else if c = DQUOTE then [BACKSLASH, DQUOTE]
  else if c = SQUOTE then [BACKSLASH, SQUOTE]
  else if c = BACKSLASH then [BACKSLASH, BACKSLASH]
  else [c]

/-- The source text of the string literal with value `s` between quotes `quote`. -/
def literal (quote : Char) (s : List Char) : List Char :=
  quote :: (s.flatMap escapeChar ++ [quote])

/-- The letters that may follow a backslash in a string literal. -/
def escapeLetters : List Char := ['n', 't', 'r', DQUOTE, SQUOTE, BACKSLASH]

/-- Texts without a fault: sequences of ordinary characters (no backslash, line feed or
carriage return) and of two-character escapes. -/
inductive WellEscaped : List Char → Prop where
  | nil : WellEscaped []
  | plain (c : Char) (rest : List Char) :
      c ≠ BACKSLASH → c ≠ LF → c ≠ CR → WellEscaped rest → WellEscaped (c :: rest)
  | escape (e : Char) (rest : List Char) :
      e ∈ escapeLetters → WellEscaped rest → WellEscaped (BACKSLASH :: e :: rest)

/-- The reserved words of the language and their tokens. -/
def reservedWords : List (String × Token) :=
  [("class", Token.Class), ("return", Token.Return), ("if", Token.If), ("else", Token.Else),
   ("def", Token.Def), ("print", Token.Print), ("and", Token.And), ("or", Token.Or),
   ("not", Token.Not), ("None", Token.None), ("True", Token.True), ("False", Token.False)]

/-- Letters `A-Z` and `a-z`. -/
def isLetter (c : Char) : Bool :=
  decide (('a' ≤ c ∧ c ≤ 'z') ∨ ('A' ≤ c ∧ c ≤ 'Z'))

/-- Words of the shape `[A-Za-z_][A-Za-z0-9_]*`. -/
def isIdentifier : List Char → Bool
  | [] => false
  | c :: cs =>
    (isLetter c || decide (c = '_')) &&
      cs.all (fun x => isLetter x || decide ('0' ≤ x ∧ x ≤ '9') || decide (x = '_'))

/-- The maximal run of operator characters of a line that starts at index `i`. -/
def operatorRun (line : List Char) (i : Nat) : List Char :=
  (line.drop i).takeWhile IsOperationChar_

/-- The maximal run of letters, digits and underscores of a line that starts at index
`i`. -/
def wordRun (line : List Char) (i : Nat) : List Char :=
  (line.drop i).takeWhile IsVariableChar_

/-- The maximal run of decimal digits of a line that starts at index `i`. -/
def digitRun (line : List Char) (i : Nat) : List Char :=
  (line.drop i).takeWhile IsDigit_

end parse
end Mython

namespace Mython

/-! ## Runtime values and statements (`runtime.cpp`, `statement.cpp`)

The classes are declared in `runtime.h` and `statement.h`; their members are taken from
the uses in the two `.cpp` files.

Every `Closure&` of the source is an address into `State.heap`. A cell of the heap is a
`ClassInstance` (its class and its `closure_`) or a closure that is a local variable of
`ClassInstance::Call` or belongs to the caller (no class). Numbers, strings, booleans and
classes are immutable and are kept by value; an `ObjectHolder` of a `ClassInstance` is the
address of its cell, so `Own` and `Share` holders of one instance are equal.
Signed overflow of `+`, `-` and `*` wraps; integer division by zero, and `INT_MIN / -1`,
have no result. `Comparison::Execute` passes both executions as arguments of one call,
which leaves their order to the compiler; the left one is taken first. -/

namespace runtime

/-- Modelled from the spec: the `Comparator` of `statement.h`, a function object; the
values are the six comparators of `runtime.cpp`. -/
inductive Comparator where
  | Equal | NotEqual | Less | Greater | LessOrEqual | GreaterOrEqual
  deriving DecidableEq

mutual
/-- The nodes of `statement.cpp`. `Print` keeps `args_`, `name_` and the `argument_` of
its one-argument constructor. `FieldAssignment` keeps the `dotted_ids_` of its
`VariableValue`. `NewInstance` keeps the address of the instance made by its
constructor. `ClassDefinition` keeps the class its holder refers to, if it is one. -/
inductive Statement where
  | Assignment (var_ : String) (rv_ : Statement)
  | VariableValue (dotted_ids_ : List String)
  | Print (args_ : List Statement) (name_ : String) (argument_ : Option Statement)
  | MethodCall (object_ : Statement) (method_ : String) (args_ : List Statement)
  | Stringify (statement_ : Statement)
  | Add (lhs_ rhs_ : Statement)
  | Sub (lhs_ rhs_ : Statement)
  | Mult (lhs_ rhs_ : Statement)
  | Div (lhs_ rhs_ : Statement)
  | Compound (args_ : List Statement)
  | Return (statement_ : Statement)
  | ClassDefinition (cls_ : Option Class)
  | FieldAssignment (object_ : List String) (field_name_ : String) (rv_ : Statement)
  | IfElse (condition_ if_body_ : Statement) (else_body_ : Option Statement)
  | Or (lhs_ rhs_ : Statement)
  | And (lhs_ rhs_ : Statement)
  | Not (statement_ : Statement)
  | Comparison (cmp_ : Comparator) (lhs_ rhs_ : Statement)
  | NewInstance (obj_ : Nat) (args_ : List Statement)
  | MethodBody (body_ : Statement)
/-- The members of `runtime::Class`. -/
inductive Class where
  | mk (name_ : String) (methods_ : List Method) (parent_ : Option Class)
/-- The members of `runtime::Method`. -/
inductive Method where
  | mk (name : String) (formal_params : List String) (body : Statement)
end

/-- Member `name_`, also `Class::GetName`. -/
def Class.name_ : Class → String
  | .mk n _ _ => n

/-- Member `methods_`. -/
def Class.methods_ : Class → List Method
  | .mk _ ms _ => ms

/-- Member `parent_`. -/
def Class.parent_ : Class → Option Class
  | .mk _ _ p => p

/-- Member `name`. -/
def Method.name : Method → String
  | .mk n _ _ => n

/-- Member `formal_params`. -/
def Method.formal_params : Method → List String
  | .mk _ ps _ => ps

/-- Member `body`. -/
def Method.body : Method → Statement
  | .mk _ _ b => b

/-- Modelled from the spec: the value classes of `runtime.h` that an `ObjectHolder` can
refer to, as `TryAs` tells them apart. -/
inductive Object where
  | Number (value : Int)
  | String (value : String)
  | Bool (value : Bool)
  | Class (cls : Class)
  | ClassInstance (addr : Nat)

/-- Modelled from the spec: the `ObjectHolder` of `runtime.h`, empty or referring to an
object. -/
abbrev ObjectHolder := Option Object

/-- Modelled from the spec: the `Closure` of `runtime.h`, a map from names to holders,
kept as the list of its entries. -/
abbrev Closure := List (String × ObjectHolder)

/-- `Closure::count`. -/
def Closure.count (closure : Closure) (key : String) : Bool :=
  closure.any (fun entry => decide (entry.1 = key))

/-- The holder stored under a key, if the key is present. -/
def Closure.find? : Closure → String → Option ObjectHolder
  | [], _ => none
  | (k, v) :: rest, key => if k = key then some v else Closure.find? rest key

/-- The assignment `closure[key] = value`. -/
def Closure.set : Closure → String → ObjectHolder → Closure
  | [], key, value => [(key, value)]
  | (k, v) :: rest, key, value =>
    if k = key then (k, value) :: rest else (k, v) :: Closure.set rest key value

/-- The read `closure[key]`: the holder found and the closure afterwards, which has an
empty holder under the key when the key was absent. -/
def Closure.index (closure : Closure) (key : String) : ObjectHolder × Closure :=
  match Closure.find? closure key with
  | some v => (v, closure)
  | none => (none, Closure.set closure key none)

/-- A cell of the heap: a `ClassInstance` with its class `cls_` and its `closure_`, or a
closure that belongs to no instance. -/
structure Cell where
  cls_ : Option Class
  closure_ : Closure

/-- The memory of a run and the text written to the output stream of the `Context`. -/
structure State where
  heap : List Cell
  output : String

/-- The closure at an address. -/
def State.closure? (st : State) (addr : Nat) : Option Closure :=
  match st.heap.get? addr with
  | some cell => some cell.closure_
  | none => none

/-- The class of the instance at an address. -/
def State.class? (st : State) (addr : Nat) : Option Class :=
  match st.heap.get? addr with
  | some cell => cell.cls_
  | none => none

/-- The state with a new closure at an address. -/
def State.setClosure (st : State) (addr : Nat) (closure : Closure) : State :=
  match st.heap.get? addr with
  | some cell => { st with heap := st.heap.set addr { cell with closure_ := closure } }
  | none => st

/-- The state with a new cell, and the address of that cell. -/
def State.alloc (st : State) (cell : Cell) : Nat × State :=
  (st.heap.length, { st with heap := st.heap ++ [cell] })

/-- The state after writing a text to the output stream. -/
def State.write (st : State) (text : String) : State :=
  { st with output := st.output ++ text }

/-- What a statement can throw: `std::runtime_error`, the `std::out_of_range` of `at`,
and the `ObjectThrow` of `Return`. -/
inductive Exn where
  | runtime_error (msg : String)
  | out_of_range
  | ObjectThrow (obj : ObjectHolder)

/-- Outcome of a computation of the runtime: a value and the state after it, or an
exception and the state at the throw. -/
abbrev ExecRes (α : Type) := Res (Exn × State) (α × State)

/-- The type of `Statement::Execute`, without its fuel: the statement, the address of the
closure, the state. -/
abbrev Exec := Statement → Nat → State → ExecRes ObjectHolder

/-- The parameter count that `GetMethod` and `HasMethod` compare with the argument count:
`formal_params.size()`, less one when the first formal parameter is `self`. -/
def formalParamsSize (method : Method) : Nat :=
  if method.formal_params.length ≠ 0 ∧ method.formal_params.head? = some "self" then
    method.formal_params.length - 1
  else method.formal_params.length

/-- `Class::GetMethod(name, args_count)`. -/
def Class.GetMethod : Class → String → Nat → Option Method
  | .mk _ methods_ parent_, name, args_count =>
    match methods_.find? (fun method =>
        decide (method.name = name) && decide (formalParamsSize method = args_count)) with
    | some method => some method
    | none =>
      match parent_ with
      | some cls => Class.GetMethod cls name args_count
      | none => none

/-- `Class::GetMethod(name)`. -/
def Class.GetMethodByName : Class → String → Option Method
  | .mk _ methods_ parent_, name =>
    match methods_.find? (fun method => decide (method.name = name)) with
    | some method => some method
    | none =>
      match parent_ with
      | some cls => Class.GetMethodByName cls name
      | none => none

/-- `Class::HasMethod`. -/
def Class.HasMethod : Class → String → Nat → Bool
  | .mk _ methods_ parent_, name, argument_count =>
    if methods_.any (fun method =>
        decide (method.name = name) && decide (formalParamsSize method = argument_count)) then
      true
    else
      match parent_ with
      | some cls => Class.HasMethod cls name argument_count
      | none => false

/-- The loop of `ClassInstance::Call` that binds `formal_params.at(i)` to
`actual_args.at(i)` for every index of `actual_args`; `none` when `at` throws. -/
def bindArgs : List String → List ObjectHolder → Closure → Option Closure
  | _, [], closure => some closure
  | [], _ :: _, _ => none
  | param :: params, arg :: args, closure => bindArgs params args (Closure.set closure param arg)

/-- `ClassInstance::Call` on the instance at `addr`. -/
def Call (exec : Exec) (addr : Nat) (name : String) (actual_args : List ObjectHolder)
    (st : State) : ExecRes ObjectHolder :=
  match st.class? addr with
  | none => .undefined
  | some cls_ =>
    if cls_.HasMethod name actual_args.length = false then
      .raise (.runtime_error "Method does not exist", st)
    else
      match cls_.GetMethod name actual_args.length with
      | none => .raise (.runtime_error "Method does not exist", st)
      | some method =>
        match bindArgs method.formal_params actual_args [] with
        | none => .raise (.out_of_range, st)
        | some bound =>
          let closure :=
            if Closure.count bound "self" = false then
              Closure.set bound "self" (some (Object.ClassInstance addr))
            else bound
          let (frame, st1) := st.alloc { cls_ := none, closure_ := closure }
          exec method.body frame st1

/-- Text that `os << this` writes for the instance at an address; the source leaves it to
the implementation. -/
def pointerText (addr : Nat) : String :=
  "0x" ++ String.mk (Nat.toDigits 16 addr)

/-- Modelled from the spec: `Print` of a `Number`, declared in `runtime.h`, which writes
the number in decimal. -/
def printNumber (value : Int) : String := toString value

/-- Modelled from the spec: `Print` of a `String`, declared in `runtime.h`, which writes
the characters of the string. -/
def printString (value : String) : String := value

/-- `Object::Print`: the text written to the stream `os`, and the state after the
statements that printing runs; `Bool::Print`, `Class::Print` and `ClassInstance::Print`
are in `runtime.cpp`. `depth` bounds the chain of instances whose `__str__` returns an
instance. -/
def PrintObject (exec : Exec) : Nat → Object → State → ExecRes String
  | _, .Number value, st => .ok (printNumber value, st)
  | _, .String value, st => .ok (printString value, st)
  | _, .Bool value, st => .ok (if value then "True" else "False", st)
  | _, .Class cls, st => .ok ("Class " ++ cls.name_, st)
  | 0, .ClassInstance _, _ => .loop
  | depth + 1, .ClassInstance addr, st =>
    match st.class? addr with
    | none => .undefined
    | some cls_ =>
      match cls_.GetMethodByName "__str__" with
      | some method_str =>
        (exec method_str.body addr st).bind fun (holder, st1) =>
          match holder with
          | some obj => PrintObject exec depth obj st1
          | none => .ok ("", st1)
      | none => .ok (pointerText addr, st)

/-- `runtime::IsTrue`. -/
def IsTrue (object : ObjectHolder) : Bool :=
  match object with
  | some (.Number value) => decide (value ≠ 0)
  | some (.Bool value) => value
  | some (.String value) => decide (value.length ≠ 0)
  | _ => false

/-- The result of a call that `Equal` and `Less` read with `TryAs<Bool>()->GetValue()`. -/
def boolOfCall (r : ExecRes ObjectHolder) : ExecRes Bool :=
  r.bind fun (holder, st1) =>
    match holder with
    | some (.Bool value) => .ok (value, st1)
    | _ => .undefined

/-- `runtime::Equal`. -/
def Equal (exec : Exec) (lhs rhs : ObjectHolder) (st : State) : ExecRes Bool :=
  match lhs, rhs with
  | none, none => .ok (true, st)
  | some (.Number l), some (.Number r) => .ok (decide (l = r), st)
  | some (.String l), some (.String r) => .ok (decide (l = r), st)
  | some (.Bool l), some (.Bool r) => .ok (decide (l = r), st)
  | some (.ClassInstance addr), _ =>
    match st.class? addr with
    | none => .undefined
    | some cls_ =>
      if cls_.HasMethod "__eq__" 1 = true then boolOfCall (Call exec addr "__eq__" [rhs] st)
      else .raise (.runtime_error "Can not compare objects for equality", st)
  | _, _ => .raise (.runtime_error "Can not compare objects for equality", st)

/-- `runtime::Less`. -/
def Less (exec : Exec) (lhs rhs : ObjectHolder) (st : State) : ExecRes Bool :=
  match lhs, rhs with
  | some (.Number l), some (.Number r) => .ok (decide (l < r), st)
  | some (.String l), some (.String r) => .ok (decide (l < r), st)
  | some (.Bool l), some (.Bool r) => .ok (decide (l < r), st)
  | some (.ClassInstance addr), _ =>
    match st.class? addr with
    | none => .undefined
    | some cls_ =>
      if cls_.HasMethod "__lt__" 1 = true then boolOfCall (Call exec addr "__lt__" [rhs] st)
      else .raise (.runtime_error "Cannot compare objects for less", st)
  | _, _ => .raise (.runtime_error "Cannot compare objects for less", st)

/-- `runtime::NotEqual`. -/
def NotEqual (exec : Exec) (lhs rhs : ObjectHolder) (st : State) : ExecRes Bool :=
  (Equal exec lhs rhs st).bind fun (eq, st1) => .ok (!eq, st1)

/-- `runtime::Greater`. -/
def Greater (exec : Exec) (lhs rhs : ObjectHolder) (st : State) : ExecRes Bool :=
  (Less exec lhs rhs st).bind fun (lt, st1) =>
    if lt = true then .ok (false, st1)
    else (Equal exec lhs rhs st1).bind fun (eq, st2) => .ok (!eq, st2)

/-- `runtime::LessOrEqual`. -/
def LessOrEqual (exec : Exec) (lhs rhs : ObjectHolder) (st : State) : ExecRes Bool :=
  (Less exec lhs rhs st).bind fun (lt, st1) =>
    if lt = true then .ok (true, st1)
    else Equal exec lhs rhs st1

/-- `runtime::GreaterOrEqual`. -/
def GreaterOrEqual (exec : Exec) (lhs rhs : ObjectHolder) (st : State) : ExecRes Bool :=
  (Less exec lhs rhs st).bind fun (lt, st1) => .ok (!lt, st1)

/-- The call `cmp_(lhs, rhs, context)` of a `Comparison` node. -/
def Comparator.apply (cmp_ : Comparator) (exec : Exec) (lhs rhs : ObjectHolder)
    (st : State) : ExecRes Bool :=
  match cmp_ with
  | .Equal => runtime.Equal exec lhs rhs st
  | .NotEqual => runtime.NotEqual exec lhs rhs st
  | .Less => runtime.Less exec lhs rhs st
  | .Greater => runtime.Greater exec lhs rhs st
  | .LessOrEqual => runtime.LessOrEqual exec lhs rhs st
  | .GreaterOrEqual => runtime.GreaterOrEqual exec lhs rhs st

end runtime

namespace ast

open runtime

/-- The loops that execute the statements of `args_` in order and collect the results. -/
def executeArgs (exec : Exec) : List Statement → Nat → State → ExecRes (List ObjectHolder)
  | [], _, st => .ok ([], st)
  | arg :: rest, closure, st =>
    (exec arg closure st).bind fun (obj, st1) =>
      (executeArgs exec rest closure st1).bind fun (objs, st2) => .ok (obj :: objs, st2)

/-- The loop of `VariableValue::Execute` over `dotted_ids_`, from the closure at the
address `closure_`. -/
def VariableValue.walk (st : State) : List String → Nat → ExecRes ObjectHolder
  | [], _ => .raise (.out_of_range, st)
  | [last], closure_ =>
    match st.closure? closure_ with
    | none => .undefined
    | some cl =>
      match Closure.find? cl last with
      | none => .raise (.runtime_error "Unknown variable", st)
      | some obj => .ok (obj, st)
  | id :: next :: rest, closure_ =>
    match st.closure? closure_ with
    | none => .undefined
    | some cl =>
      match Closure.find? cl id with
      | none =>
        if id = "self" then VariableValue.walk st (next :: rest) closure_
        else .raise (.runtime_error (id ++ ": unknown variable"), st)
      | some (some (.ClassInstance addr)) => VariableValue.walk st (next :: rest) addr
      | some _ => .raise (.runtime_error "Undefined class field", st)

/-- The loop of `Print::Execute` over `args_`. -/
def Print.loop (exec : Exec) (depth : Nat) : List Statement → Nat → State → ExecRes Unit
  | [], _, st => .ok ((), st)
  | arg :: rest, closure, st =>
    (exec arg closure st).bind fun (obj, st1) =>
      (match obj with
        | some o => (PrintObject exec depth o st1).bind fun (text, st2) =>
            .ok ((), st2.write text)
        | none => .ok ((), st1.write "None")).bind fun (_, st3) =>
      Print.loop exec depth rest closure
        (st3.write (if rest.length ≠ 0 then " " else "\n"))

/-- The loop of `Compound::Execute`. -/
def Compound.loop (exec : Exec) : List Statement → Nat → State → ExecRes Unit
  | [], _, st => .ok ((), st)
  | arg :: rest, closure, st =>
    (exec arg closure st).bind fun (_, st1) => Compound.loop exec rest closure st1

/-- The arithmetic of `Sub`, `Mult` and `Div` on two numbers; `none` where the division
of the machine has no result. -/
def divInt (l r : Int) : Option Int :=
  if r = 0 then none
  else if l = INT_MIN ∧ r = -1 then none
  else some (Int.tdiv l r)

/-- `Statement::Execute` of every node of `statement.cpp`. `fuel` bounds the nesting of
executions; the source has no such bound. -/
def Execute : Nat → Statement → Nat → State → ExecRes ObjectHolder
  | 0, _, _, _ => .loop
  | fuel + 1, stmt, closure, st =>
    match stmt with
    | .Assignment var_ rv_ =>
      (Execute fuel rv_ closure st).bind fun (obj, st1) =>
        match st1.closure? closure with
        | none => .undefined
        | some cl => .ok (obj, st1.setClosure closure (Closure.set cl var_ obj))
    | .VariableValue dotted_ids_ => VariableValue.walk st dotted_ids_ closure
    | .Print args_ name_ _ =>
      if args_.length = 0 then
        match st.closure? closure with
        | none => .undefined
        | some cl =>
          match Closure.find? cl name_ with
          | some (some obj) =>
            (PrintObject (Execute fuel) fuel obj st).bind fun (text, st1) =>
              let st2 := (st1.write text).write "\n"
              match st2.closure? closure with
              | none => .undefined
              | some cl2 =>
                match Closure.find? cl2 name_ with
                | some holder => .ok (holder, st2)
                | none => .raise (.out_of_range, st2)
          | some none => .undefined
          | none => .ok (none, st.write "\n")
      else
        (Print.loop (Execute fuel) fuel args_ closure st).bind fun (_, st1) => .ok (none, st1)
    | .MethodCall object_ method_ args_ =>
      (Execute fuel object_ closure st).bind fun (obj, st1) =>
        match obj with
        | some (.ClassInstance addr) =>
          match st1.class? addr with
          | none => .undefined
          | some cls_ =>
            if cls_.HasMethod method_ args_.length = true then
              (executeArgs (Execute fuel) args_ closure st1).bind fun (args_to_pass, st2) =>
                Call (Execute fuel) addr method_ args_to_pass st2
            else .ok (none, st1)
        | _ => .ok (none, st1)
    | .Stringify statement_ =>
      (Execute fuel statement_ closure st).bind fun (obj, st1) =>
        match obj with
        | some o =>
          (PrintObject (Execute fuel) fuel o st1).bind fun (text, st2) =>
            .ok (some (.String text), st2)
        | none => .ok (some (.String "None"), st1)
    | .Add lhs_ rhs_ =>
      (Execute fuel lhs_ closure st).bind fun (lhs, st1) =>
        (Execute fuel rhs_ closure st1).bind fun (rhs, st2) =>
          match lhs, rhs with
          | some (.Number left), some (.Number right) =>
            .ok (some (.Number (wrapInt (left + right))), st2)
          | some (.String left), some (.String right) =>
            .ok (some (.String (left ++ right)), st2)
          | some (.ClassInstance addr), _ =>
            match st2.class? addr with
            | none => .undefined
            | some cls_ =>
              if cls_.HasMethod "__add__" 1 = true then
                Call (Execute fuel) addr "__add__" [rhs] st2
              else .raise (.runtime_error "Unable to add objects", st2)
          | _, _ => .raise (.runtime_error "Unable to add objects", st2)
    | .Sub lhs_ rhs_ =>
      (Execute fuel lhs_ closure st).bind fun (lhs, st1) =>
        (Execute fuel rhs_ closure st1).bind fun (rhs, st2) =>
          match lhs, rhs with
          | some (.Number left), some (.Number right) =>
            .ok (some (.Number (wrapInt (left - right))), st2)
          | _, _ => .raise (.runtime_error "Unable to subtract numbers", st2)
    | .Mult lhs_ rhs_ =>
      (Execute fuel lhs_ closure st).bind fun (lhs, st1) =>
        (Execute fuel rhs_ closure st1).bind fun (rhs, st2) =>
          match lhs, rhs with
          | some (.Number left), some (.Number right) =>
            .ok (some (.Number (wrapInt (left * right))), st2)
          | _, _ => .raise (.runtime_error "Unable to multiplicate numbers", st2)
    | .Div lhs_ rhs_ =>
      (Execute fuel lhs_ closure st).bind fun (lhs, st1) =>
        (Execute fuel rhs_ closure st1).bind fun (rhs, st2) =>
          match lhs, rhs with
          | some (.Number left), some (.Number right) =>
            match divInt left right with
            | some q => .ok (some (.Number q), st2)
            | none => .undefined
          | _, _ => .raise (.runtime_error "Unable to divide numbers", st2)
    | .Compound args_ =>
      (Compound.loop (Execute fuel) args_ closure st).bind fun (_, st1) => .ok (none, st1)
    | .Return statement_ =>
      (Execute fuel statement_ closure st).bind fun (obj, st1) =>
        .raise (.ObjectThrow obj, st1)
    | .ClassDefinition cls_ =>
      match cls_ with
      | none => .undefined
      | some cls =>
        match st.closure? closure with
        | none => .undefined
        | some cl =>
          .ok (some (.Class cls),
            st.setClosure closure (Closure.set cl cls.name_ (some (.Class cls))))
    | .FieldAssignment object_ field_name_ rv_ =>
      (VariableValue.walk st object_ closure).bind fun (obj, st1) =>
        match obj with
        | some (.ClassInstance addr) =>
          (Execute fuel rv_ closure st1).bind fun (value, st2) =>
            match st2.closure? addr with
            | none => .undefined
            | some fields => .ok (value, st2.setClosure addr (Closure.set fields field_name_ value))
        | _ =>
          match st1.closure? closure with
          | none => .undefined
          | some cl =>
            .ok ((Closure.index cl field_name_).1,
              st1.setClosure closure (Closure.index cl field_name_).2)
    | .IfElse condition_ if_body_ else_body_ =>
      (Execute fuel condition_ closure st).bind fun (cond, st1) =>
        match cond with
        | none => .undefined
        | some obj =>
          (PrintObject (Execute fuel) fuel obj st1).bind fun (out, st2) =>
            if out = "True" ∨ out = "1" then Execute fuel if_body_ closure st2
            else
              match else_body_ with
              | some body => Execute fuel body closure st2
              | none => .ok (none, st2)
    | .Or lhs_ rhs_ =>
      (Execute fuel lhs_ closure st).bind fun (lhs, st1) =>
        (Execute fuel rhs_ closure st1).bind fun (rhs, st2) =>
          match lhs with
          | some (.Bool true) => .ok (some (.Bool true), st2)
          | _ =>
            match rhs with
            | some (.Bool true) => .ok (some (.Bool true), st2)
            | _ => .ok (some (.Bool false), st2)
    | .And lhs_ rhs_ =>
      (Execute fuel lhs_ closure st).bind fun (lhs, st1) =>
        (Execute fuel rhs_ closure st1).bind fun (rhs, st2) =>
          match lhs with
          | some (.Bool true) =>
            match rhs with
            | some (.Bool true) => .ok (some (.Bool true), st2)
            | _ => .ok (some (.Bool false), st2)
          | _ => .ok (some (.Bool false), st2)
    | .Not statement_ =>
      (Execute fuel statement_ closure st).bind fun (obj, st1) =>
        match obj with
        | some (.Bool value) => .ok (some (.Bool (!value)), st1)
        | _ => .undefined
    | .Comparison cmp_ lhs_ rhs_ =>
      (Execute fuel lhs_ closure st).bind fun (lhs, st1) =>
        (Execute fuel rhs_ closure st1).bind fun (rhs, st2) =>
          (cmp_.apply (Execute fuel) lhs rhs st2).bind fun (res, st3) =>
            .ok (some (.Bool res), st3)
    | .NewInstance obj_ args_ =>
      match st.class? obj_ with
      | none => .undefined
      | some cls_ =>
        if cls_.HasMethod "__init__" args_.length = true then
          (executeArgs (Execute fuel) args_ closure st).bind fun (args_to_pass, st1) =>
            (Call (Execute fuel) obj_ "__init__" args_to_pass st1).bind fun (_, st2) =>
              .ok (some (.ClassInstance obj_), st2)
        else .ok (some (.ClassInstance obj_), st)
    | .MethodBody body_ =>
      match Execute fuel body_ closure st with
      | .ok (_, st1) => .ok (none, st1)
      | .raise (.ObjectThrow obj, st1) => .ok (obj, st1)
      | .raise e => .raise e
      | .undefined => .undefined
      | .loop => .loop

end ast

end Mython

namespace Mython
namespace ast
open runtime

/-! ## Notions used to state the properties of the runtime -/

/-- A holder that refers to a `Number`. -/
def isNumber : ObjectHolder → Bool
  | some (.Number _) => true
  | _ => false

/-- A holder that refers to a `ClassInstance`. -/
def isClassInstance : ObjectHolder → Bool
  | some (.ClassInstance _) => true
  | _ => false

/-- A state whose only cell is a closure, at address `0`. -/
def globalState (closure : Closure) : State :=
  { heap := [{ cls_ := none, closure_ := closure }], output := "" }

/-- Two holders that refer to primitives of the same variant: both `Number`, both `String`
or both `Bool`. -/
def samePrimitive : ObjectHolder → ObjectHolder → Bool
  | some (.Number _), some (.Number _) => true
  | some (.String _), some (.String _) => true
  | some (.Bool _), some (.Bool _) => true
  | _, _ => false

/-- The effective parameter count of a method: the formal count minus one when the first
formal is `self`, else the formal count. -/
def effectiveCount (method : Method) : Nat :=
  match method.formal_params with
  | [] => 0
  | first :: rest => if first = "self" then rest.length else rest.length + 1

/-- The methods of a class in search order: its own methods in declaration order, then
those of each ancestor in turn. -/
def searchOrder : runtime.Class → List Method
  | .mk _ methods_ none => methods_
  | .mk _ methods_ (some parent_) => methods_ ++ searchOrder parent_

/-- The test of a method against a name and an argument count. -/
def matchesCall (name : String) (argc : Nat) (method : Method) : Bool :=
  decide (method.name = name) && decide (effectiveCount method = argc)

/-- A class `A` with a method `hi(self)`. -/
def classA : runtime.Class :=
  .mk "A" [.mk "hi" ["self"] (.Return (.VariableValue ["a"]))] none

/-- A class `B(A)` that defines `hi(self)` again. -/
def classB : runtime.Class :=
  .mk "B" [.mk "hi" ["self"] (.Return (.VariableValue ["b"]))] (some classA)

/-- A state with a global closure at address `0` and one instance of a class, without
fields, at address `1`. -/
def instanceState (cls : runtime.Class) : State :=
  { heap := [{ cls_ := none, closure_ := [] }, { cls_ := some cls, closure_ := [] }],
    output := "" }

/-- A class whose `__eq__(other)` returns `other == other`. -/
def classEq : runtime.Class :=
  .mk "E" [.mk "__eq__" ["other"] (.MethodBody (.Return
    (.Comparison .Equal (.VariableValue ["other"]) (.VariableValue ["other"]))))] none

/-- A class with a method `get(self, p)` whose body is `return p`. -/
def classGet : runtime.Class :=
  .mk "G" [.mk "get" ["self", "p"] (.MethodBody (.Return (.VariableValue ["p"])))] none

/-- A state with the global closure `{one = 1}` at address `0` and, at address `1`, the
instance of `A` that a `NewInstance` node holds. -/
def newInstanceState : State :=
  { heap := [{ cls_ := none, closure_ := [("one", some (.Number 1))] },
      { cls_ := some classA, closure_ := [] }],
    output := "" }

/-- The statements `x = A()`, `x.f = one`, `y = A()`, where both `A()` are executions of
the same `NewInstance` node. -/
def twoExecutions : Statement :=
  .Compound [.Assignment "x" (.NewInstance 1 []),
    .FieldAssignment ["x"] "f" (.VariableValue ["one"]),
    .Assignment "y" (.NewInstance 1 [])]

/-- A method body whose `return one` is nested in the then-branch of an `if` inside the
block of the body, with a `print` after the `return` and one after the `if`. -/
def nestedReturn : Statement :=
  .Compound [
    .IfElse (.VariableValue ["yes"])
      (.Compound [.Return (.VariableValue ["one"]), .Print [.VariableValue ["one"]] "" none])
      none,
    .Print [.VariableValue ["one"]] "" none]

/-- Texts separated by exactly one space, with no space after the last. -/
def spaced : List String → String
  | [] => ""
  | [text] => text
  | text :: next :: rest => text ++ " " ++ spaced (next :: rest)

/-- `Renders exec depth closure args heap texts heap1`: executing the statements of `args`
from left to right, each followed by the rendering of its value (`None` for the empty
holder), takes the memory from `heap` to `heap1` and gives `texts`, and none of these
steps writes to the output. -/
inductive Renders (exec : Exec) (depth : Nat) (closure : Nat) :
    List Statement → List Cell → List String → List Cell → Prop where
  | done (heap : List Cell) : Renders exec depth closure [] heap [] heap
  | object (arg : Statement) (rest : List Statement) (heap heap1 heap2 heap3 : List Cell)
      (obj : Object) (text : String) (texts : List String) :
      (∀ out, exec arg closure (State.mk heap out) = .ok (some obj, State.mk heap1 out)) →
      (∀ out, PrintObject exec depth obj (State.mk heap1 out) =
        .ok (text, State.mk heap2 out)) →
      Renders exec depth closure rest heap2 texts heap3 →
      Renders exec depth closure (arg :: rest) heap (text :: texts) heap3
  | empty (arg : Statement) (rest : List Statement) (heap heap1 heap2 : List Cell)
      (texts : List String) :
      (∀ out, exec arg closure (State.mk heap out) = .ok (none, State.mk heap1 out)) →
      Renders exec depth closure rest heap1 texts heap2 →
      Renders exec depth closure (arg :: rest) heap ("None" :: texts) heap2

/-- The closure `{a = 1, b = 2, c = 3}`. -/
def oneTwoThree : Closure :=
  [("a", some (.Number 1)), ("b", some (.Number 2)), ("c", some (.Number 3))]

/-- A value whose rendering is `True` or `1`: `Bool` true and `Number 1` among the `Bool`
and `Number` values. -/
def rendersTrue : Object → Bool
  | .Bool value => value
  | .Number value => decide (value = 1)
  | _ => false

/-- The closure `{two = 2, then = "then", else = "else"}`. -/
def branchNames : Closure :=
  [("two", some (.Number 2)), ("then", some (.String "then")),
    ("else", some (.String "else"))]

/-- A holder that refers to a `Bool` equal to true. -/
def isTrueBool : ObjectHolder → Bool
  | some (.Bool value) => value
  | _ => false

/-- The closure `{t = True, f = False, one = 1, word = "a"}`. -/
def truthValues : Closure :=
  [("t", some (.Bool true)), ("f", some (.Bool false)), ("one", some (.Number 1)),
    ("word", some (.String "a"))]

/-- The closure `{x = 1, obj = the instance at address 1}` in a state whose instance is
of class `G`, with the method `get(self, p)`. -/
def receiverState : State :=
  { heap := [Cell.mk none [("x", some (.Number 1)), ("obj", some (.ClassInstance 1))],
      Cell.mk (some classGet) []],
    output := "" }

/-- The closure `{x = 1, obj = the instance at address 1}` in a state whose instance has
the field `f = 5`. -/
def fieldsState : State :=
  { heap := [Cell.mk none [("x", some (.Number 1)), ("obj", some (.ClassInstance 1))],
      Cell.mk (some classA) [("f", some (.Number 5))]],
    output := "" }

/-- `EvaluatesTo exec closure args st vals st1`: executing the statements of `args` from
left to right, each one in the state that the one before it left, gives the values `vals`
in that order and ends in the state `st1`. -/
inductive EvaluatesTo (exec : Exec) (closure : Nat) :
    List Statement → State → List ObjectHolder → State → Prop where
  | done (st : State) : EvaluatesTo exec closure [] st [] st
  | step (arg : Statement) (rest : List Statement) (st st1 st2 : State) (val : ObjectHolder)
      (vals : List ObjectHolder) :
      exec arg closure st = .ok (val, st1) →
      EvaluatesTo exec closure rest st1 vals st2 →
      EvaluatesTo exec closure (arg :: rest) st (val :: vals) st2

/-- A class with a method `pair(a, b)` whose body is `return b`. -/
def classPair : runtime.Class :=
  .mk "P" [.mk "pair" ["a", "b"] (.MethodBody (.Return (.VariableValue ["b"])))] none

/-- The closure `{x = 1, obj = the instance at address 1}` in a state whose instance is of
class `P`. -/
def pairState : State :=
  { heap := [Cell.mk none [("x", some (.Number 1)), ("obj", some (.ClassInstance 1))],
      Cell.mk (some classPair) []],
    output := "" }

/-- A class whose `__init__(v)` has the body `self.x = v`. -/
def classInit : runtime.Class :=
  .mk "I" [.mk "__init__" ["v"]
    (.MethodBody (.FieldAssignment ["self"] "x" (.VariableValue ["v"])))] none

/-- The closure `{one = 1}` in a state whose instance, at address `1`, is of class `I` and
has no field. -/
def initState : State :=
  { heap := [Cell.mk none [("one", some (.Number 1))], Cell.mk (some classInit) []],
    output := "" }

end ast
end Mython

namespace Mython
namespace parse

/-! ## Properties of the lexer -/

theorem KeyWordToToken_isWord {w : List Char} {t : Token}
    (h : KeyWordToToken_ w = some t) : t.isWord := by
  unfold KeyWordToToken_ at h
  by_cases hk : w = "class".toList
  · rw [if_pos hk] at h; cases h; exact ⟨rfl, fun v hv => by cases hv⟩
  rw [if_neg hk] at h; clear hk
  by_cases hk : w = "return".toList
  · rw [if_pos hk] at h; cases h; exact ⟨rfl, fun v hv => by cases hv⟩
  rw [if_neg hk] at h; clear hk
  by_cases hk : w = "if".toList
  · rw [if_pos hk] at h; cases h; exact ⟨rfl, fun v hv => by cases hv⟩
  rw [if_neg hk] at h; clear hk
  by_cases hk : w = "else".toList
  · rw [if_pos hk] at h; cases h; exact ⟨rfl, fun v hv => by cases hv⟩
  rw [if_neg hk] at h; clear hk
  by_cases hk : w = "def".toList
  · rw [if_pos hk] at h; cases h; exact ⟨rfl, fun v hv => by cases hv⟩
  rw [if_neg hk] at h; clear hk
  by_cases hk : w = "print".toList
  · rw [if_pos hk] at h; cases h; exact ⟨rfl, fun v hv => by cases hv⟩
  rw [if_neg hk] at h; clear hk
  by_cases hk : w = "and".toList
  · rw [if_pos hk] at h; cases h; exact ⟨rfl, fun v hv => by cases hv⟩
  rw [if_neg hk] at h; clear hk
  by_cases hk : w = "or".toList
  · rw [if_pos hk] at h; cases h; exact ⟨rfl, fun v hv => by cases hv⟩
  rw [if_neg hk] at h; clear hk
  by_cases hk : w = "None".toList
  · rw [if_pos hk] at h; cases h; exact ⟨rfl, fun v hv => by cases hv⟩
  rw [if_neg hk] at h; clear hk
  by_cases hk : w = "True".toList
  · rw [if_pos hk] at h; cases h; exact ⟨rfl, fun v hv => by cases hv⟩
  rw [if_neg hk] at h; clear hk
  by_cases hk : w = "False".toList
  · rw [if_pos hk] at h; cases h; exact ⟨rfl, fun v hv => by cases hv⟩
  rw [if_neg hk] at h; clear hk
  by_cases hk : w = "not".toList
  · rw [if_pos hk] at h; cases h; exact ⟨rfl, fun v hv => by cases hv⟩
  rw [if_neg hk] at h; clear hk
  cases h

theorem OperationToToken_isWord {w : List Char} {t : Token}
    (h : OperationToToken_ w = some t) : t.isWord := by
  unfold OperationToToken_ at h
  by_cases hk : w = "!=".toList
  · rw [if_pos hk] at h; cases h; exact ⟨rfl, fun v hv => by cases hv⟩
  rw [if_neg hk] at h; clear hk
  by_cases hk : w = "==".toList
  · rw [if_pos hk] at h; cases h; exact ⟨rfl, fun v hv => by cases hv⟩
  rw [if_neg hk] at h; clear hk
  by_cases hk : w = ">=".toList
  · rw [if_pos hk] at h; cases h; exact ⟨rfl, fun v hv => by cases hv⟩
  rw [if_neg hk] at h; clear hk
  by_cases hk : w = "<=".toList
  · rw [if_pos hk] at h; cases h; exact ⟨rfl, fun v hv => by cases hv⟩
  rw [if_neg hk] at h; clear hk
  cases h

theorem isWord_Char (c : Char) : (Token.Char c).isWord :=
  ⟨rfl, fun v hv => by cases hv⟩

theorem isWord_singleton {t : Token} (h : t.isWord) : ∀ x ∈ [t], x.isWord := by
  intro x hx
  rw [List.mem_singleton] at hx
  rw [hx]
  exact h

theorem AppendTokensList_appends {toks r : List Token} {w : List Char}
    (h : AppendTokensList_ toks w = .ok r) :
    ∃ ex, r = toks ++ ex ∧ ∀ t ∈ ex, t.isWord := by
  unfold AppendTokensList_ at h
  split at h
  · rename_i t ht
    cases h
    exact ⟨[t], rfl, isWord_singleton (KeyWordToToken_isWord ht)⟩
  · rename_i hk
    split at h
    · rename_i t ht
      cases h
      exact ⟨[t], rfl, isWord_singleton (OperationToToken_isWord ht)⟩
    · split_ifs at h
      · cases h
        refine ⟨w.map Token.Char, rfl, ?_⟩
        intro t ht
        simp only [List.mem_map] at ht
        obtain ⟨c, _, rfl⟩ := ht
        exact isWord_Char c
      · split at h <;> try (simp at h)
        cases h
        exact ⟨[_], rfl, isWord_singleton ⟨rfl, fun v hv => by cases hv⟩⟩
      · split at h <;> try (simp at h)
        · cases h
          exact ⟨[_], rfl, isWord_singleton ⟨rfl, fun v hv => by cases hv; exact hk⟩⟩
        · split at h <;> try (simp at h)
          split_ifs at h
          split at h <;> try (simp at h)
          split at h <;> try (simp at h)
          cases h
          exact ⟨[_], rfl, isWord_singleton ⟨rfl, fun v hv => by cases hv⟩⟩

theorem scanStep_appends {line : List Char} {i j : Nat} {toks r : List Token}
    (h : scanStep line i toks = .ok (j, r)) :
    ∃ ex, r = toks ++ ex ∧ ∀ t ∈ ex, t.isWord := by
  unfold scanStep at h
  split at h <;> try (simp at h)
  split_ifs at h
  · cases h; exact ⟨[], by simp, by simp⟩
  · split at h <;> try (simp at h)
    split_ifs at h
    · rename_i e _ _
      cases h
      refine ⟨[Token.Char BACKSLASH, Token.Char e], by simp, ?_⟩
      intro t ht
      simp only [List.mem_cons, List.mem_singleton, List.not_mem_nil, or_false] at ht
      rcases ht with rfl | rfl <;> exact isWord_Char _
    · cases h
      exact ⟨[Token.Char BACKSLASH], by simp, isWord_singleton (isWord_Char _)⟩
  · cases h
    exact ⟨[Token.Char BACKSLASH], by simp, isWord_singleton (isWord_Char _)⟩
  · split at h <;> try (simp at h)
    rename_i toks2 h2
    obtain ⟨-, rfl⟩ := h
    exact AppendTokensList_appends h2
  · split at h <;> try (simp at h)
    rename_i toks2 h2
    obtain ⟨-, rfl⟩ := h
    exact AppendTokensList_appends h2
  · split at h <;> try (simp at h)
    split at h <;> try (simp at h)
    split at h <;> try (simp at h)
    rename_i toks2 h2
    obtain ⟨-, rfl⟩ := h
    exact AppendTokensList_appends h2
  · split at h <;> try (simp at h)
    rename_i toks2 h2
    obtain ⟨-, rfl⟩ := h
    exact AppendTokensList_appends h2
  · cases h; exact ⟨[], by simp, by simp⟩

theorem scanLoop_appends (line : List Char) (fuel : Nat) : ∀ (i : Nat) (toks r : List Token),
    scanLoop line fuel i toks = .ok r →
    ∃ ex, r = toks ++ ex ∧ ∀ t ∈ ex, t.isWord := by
  induction fuel with
  | zero =>
    intro i toks r h
    unfold scanLoop at h
    split_ifs at h
    cases h; exact ⟨[], by simp, by simp⟩
  | succ n ih =>
    intro i toks r h
    unfold scanLoop at h
    split_ifs at h
    · split at h <;> try (simp at h)
      rename_i j toks2 h2
      obtain ⟨e1, rfl, he1⟩ := scanStep_appends h2
      obtain ⟨e2, rfl, he2⟩ := ih _ _ _ h
      refine ⟨e1 ++ e2, by simp, ?_⟩
      intro t ht
      rcases List.mem_append.1 ht with h | h
      · exact he1 t h
      · exact he2 t h
    · cases h; exact ⟨[], by simp, by simp⟩

theorem leadingSpaces_eq : ∀ (l : List Char) (n k : Nat), leadingSpaces l n = .ok k →
    k = n + (l.takeWhile (fun c => decide (c = ' '))).length := by
  intro l
  induction l with
  | nil => intro n k h; simp [leadingSpaces] at h
  | cons c cs ih =>
    intro n k h
    unfold leadingSpaces at h
    split_ifs at h with hc
    · have := ih _ _ h
      simp [List.takeWhile, hc, this]; omega
    · cases h
      simp [List.takeWhile, hc]

theorem lastLevel_append_blank (done blanks : List (List Char))
    (hb : ∀ l ∈ blanks, blankLine l = true) : lastLevel (done ++ blanks) = lastLevel done := by
  have : blanks.filter (fun l => !IsLineEmpty_ (stripComment l)) = [] := by
    rw [List.filter_eq_nil_iff]
    intro l hl
    have := hb l hl
    simp [blankLine] at this
    simp [this]
  unfold lastLevel
  rw [List.filter_append, this, List.append_nil]

theorem lastLevel_concat (done : List (List Char)) (l : List Char)
    (hl : blankLine l = false) : lastLevel (done ++ [l]) = level (stripComment l) := by
  unfold lastLevel
  simp [blankLine] at hl
  rw [List.filter_append]
  simp [List.filter, hl]

theorem ParseInputStream_spec (fuel : Nat) : ∀ (lines : List (List Char)) (lx lx2 : Lexer)
    (b : Bool), ParseInputStream_ fuel lines lx = .ok (b, lx2) →
    lx2.current_token_ = lx.current_token_ ∧
    ((b = false ∧ lx.eof = true ∧ lx2 = { lx with input_ := [] }) ∨
     (b = true ∧ lx.eof = false ∧ lx2.eof = true ∧ lx2.input_ = [] ∧
        (∀ l ∈ lines, blankLine l = true) ∧
        lx2.tokens_list_ =
          lx.tokens_list_ ++ List.replicate lx.previous_indent_ Token.Dedent ++ [Token.Eof]) ∨
     (b = true ∧ lx2.eof = lx.eof ∧ ∃ blanks l rest ex,
        lines = blanks ++ l :: rest ∧ (∀ x ∈ blanks, blankLine x = true) ∧
        blankLine l = false ∧ lx2.input_ = rest ∧
        lx2.previous_indent_ = level (stripComment l) ∧
        lx2.tokens_list_ = lx.tokens_list_ ++
          indentTokens (level (stripComment l)) lx.previous_indent_ ++ ex ++ [Token.Newline] ∧
        ∀ t ∈ ex, t.isWord)) := by
  intro lines
  induction lines with
  | nil =>
    intro lx lx2 b h
    unfold ParseInputStream_ at h
    split_ifs at h with he
    · cases h
      exact ⟨rfl, Or.inr (Or.inl ⟨rfl, he, rfl, rfl, by simp, rfl⟩)⟩
    · cases h
      simp at he
      exact ⟨rfl, Or.inl ⟨rfl, he, rfl⟩⟩
  | cons line0 rest ih =>
    intro lx lx2 b h
    unfold ParseInputStream_ at h
    simp only at h
    split_ifs at h with hb
    · obtain ⟨hc, h1 | h2 | h3⟩ := ih _ _ _ h
      · exact ⟨hc, Or.inl h1⟩
      · obtain ⟨a1, a2, a3, a4, a5, a6⟩ := h2
        refine ⟨hc, Or.inr (Or.inl ⟨a1, a2, a3, a4, ?_, a6⟩)⟩
        intro l hl
        rcases List.mem_cons.1 hl with rfl | hl
        · exact hb
        · exact a5 l hl
      · obtain ⟨a1, a2, blanks, l, rest2, ex, a3, a4, a5, a6⟩ := h3
        refine ⟨hc, Or.inr (Or.inr ⟨a1, a2, line0 :: blanks, l, rest2, ex, by simp [a3], ?_, a5, a6⟩)⟩
        intro x hx
        rcases List.mem_cons.1 hx with rfl | hx
        · exact hb
        · exact a4 x hx
    · split at h <;> try (simp at h)
      rename_i spaces hs
      split at h <;> try (simp at h)
      rename_i toks2 ht
      obtain ⟨rfl, rfl⟩ := h
      have hk := leadingSpaces_eq _ _ _ hs
      have hlev : spaces / 2 = level (stripComment line0) := by
        rw [hk]; simp [level]
      obtain ⟨ex, rfl, hex⟩ := scanLoop_appends _ _ _ _ _ ht
      refine ⟨rfl, Or.inr (Or.inr ⟨rfl, rfl, [], line0, rest, ex, rfl, by simp, ?_, rfl, hlev, ?_, hex⟩)⟩
      · simpa [blankLine] using hb
      · simp [hlev]

theorem count_indentTokens_Indent (L P : Nat) :
    (indentTokens L P).count Token.Indent = L - P := by
  unfold indentTokens
  split_ifs with h1 h2
  · simp [List.count_replicate]
  · simp [List.count_replicate]; omega
  · simp at h1; simp [h1]

theorem count_indentTokens_Dedent (L P : Nat) :
    (indentTokens L P).count Token.Dedent = P - L := by
  unfold indentTokens
  split_ifs with h1 h2
  · simp [List.count_replicate]; omega
  · simp [List.count_replicate]
  · simp at h1; simp [h1]

theorem Eof_not_mem_indentTokens (L P : Nat) : Token.Eof ∉ indentTokens L P := by
  unfold indentTokens
  split_ifs <;> simp [List.mem_replicate]

theorem not_mem_of_isLayout {ex : List Token} (hex : ∀ t ∈ ex, t.isLayout = false)
    (t : Token) (ht : t.isLayout = true) : t ∉ ex := by
  intro hmem
  have := hex t hmem
  rw [ht] at this
  cases this

theorem BufInv_current (all : List (List Char)) (lx : Lexer) (k : Nat) :
    BufInv all { lx with current_token_ := k } ↔ BufInv all lx := by
  simp [BufInv]

theorem BufInv_parse {all : List (List Char)} {fuel : Nat} {lx lx2 : Lexer} {b : Bool}
    (hinv : BufInv all lx) (h : ParseInputStream_ fuel lx.input_ lx = .ok (b, lx2)) :
    BufInv all lx2 ∧ lx2.current_token_ = lx.current_token_ ∧
    (∃ ex, lx2.tokens_list_ = lx.tokens_list_ ++ ex ∧ (b = true → ex ≠ [])) ∧
    (b = false → lx2 = lx ∧ lx.eof = true) := by
  obtain ⟨hc, h1 | h2 | h3⟩ := ParseInputStream_spec fuel _ _ _ _ h
  · obtain ⟨rfl, he, rfl⟩ := h1
    have hin := (hinv.2 he).1
    have hlx : { lx with input_ := [] } = lx := by
      cases lx; simp_all
    rw [hlx]
    exact ⟨hinv, rfl, ⟨[], by simp, by simp⟩, fun _ => ⟨rfl, he⟩⟩
  · obtain ⟨rfl, he, he2, hin2, hbl, htok⟩ := h2
    obtain ⟨⟨done, hall, hprev⟩, hEof, hNL, hcnt⟩ := hinv.1 he
    have hL : lastLevel all = lx.previous_indent_ := by
      rw [hall, lastLevel_append_blank _ _ hbl, hprev]
    refine ⟨⟨fun hh => (by rw [he2] at hh; cases hh), fun _ => ⟨hin2, lx.tokens_list_, ?_, hEof, hNL, ?_⟩⟩,
      hc, ⟨_, by rw [htok, List.append_assoc], by simp⟩, by simp⟩
    · rw [htok, hL]
    · rw [hL]; exact hcnt
  · obtain ⟨rfl, he2, blanks, l, rest, ex, hlines, hbl, hl, hin2, hprev2, htok, hex⟩ := h3
    have he : lx.eof = false := by
      by_contra hne
      have : lx.eof = true := by simpa using hne
      have := (hinv.2 this).1
      rw [this] at hlines
      simp at hlines
    obtain ⟨⟨done, hall, hprev⟩, hEof, hNL, hcnt⟩ := hinv.1 he
    refine ⟨⟨fun _ => ⟨⟨done ++ blanks ++ [l], ?_, ?_⟩, ?_, ?_, ?_⟩,
        fun hh => (by rw [he2, he] at hh; cases hh)⟩,
      hc, ⟨_, by rw [htok, List.append_assoc, List.append_assoc], by simp⟩, by simp⟩
    · rw [hall, hlines, hin2]; simp
    · rw [hprev2, lastLevel_concat _ _ hl]
    · rw [htok]
      simp only [List.mem_append, List.mem_singleton, not_or]
      exact ⟨⟨⟨hEof, Eof_not_mem_indentTokens _ _⟩, not_mem_of_isLayout (fun t ht => (hex t ht).1) _ rfl⟩, by simp⟩
    · rw [htok]
      intro t ht
      simpa using ht.symm
    · rw [htok, hprev2]
      have hI : ex.count Token.Indent = 0 :=
        List.count_eq_zero.2 (not_mem_of_isLayout (fun t ht => (hex t ht).1) _ rfl)
      have hD : ex.count Token.Dedent = 0 :=
        List.count_eq_zero.2 (not_mem_of_isLayout (fun t ht => (hex t ht).1) _ rfl)
      simp only [List.count_append, count_indentTokens_Indent, count_indentTokens_Dedent, hI, hD]
      simp
      omega

theorem BufInv_Eof_position {all : List (List Char)} {lx : Lexer} (hinv : BufInv all lx)
    {i : Nat} (hi : lx.tokens_list_.get? i = some Token.Eof) :
    lx.eof = true ∧ i + 1 = lx.tokens_list_.length := by
  have he : lx.eof = true := by
    by_contra hne
    have hf : lx.eof = false := by simpa using hne
    exact (hinv.1 hf).2.1 (List.get?_mem hi)
  refine ⟨he, ?_⟩
  obtain ⟨-, pre, htok, hEof, -, -⟩ := hinv.2 he
  rw [htok] at hi ⊢
  have hA : Token.Eof ∉ pre ++ List.replicate (lastLevel all) Token.Dedent := by
    simp [List.mem_replicate, hEof]
  generalize pre ++ List.replicate (lastLevel all) Token.Dedent = A at hi hA ⊢
  have hlt : i < (A ++ [Token.Eof]).length := by
    by_contra hge
    rw [List.get?_eq_none.2 (by omega)] at hi
    cases hi
  simp at hlt ⊢
  by_contra hne
  have hiA : i < A.length := by omega
  rw [List.get?_eq_getElem?, List.getElem?_append_left hiA, ← List.get?_eq_getElem?] at hi
  exact hA (List.get?_mem hi)

theorem BufInv_last {all : List (List Char)} {lx : Lexer} (hinv : BufInv all lx)
    (he : lx.eof = true) : lx.tokens_list_.getLast? = some Token.Eof := by
  obtain ⟨-, pre, htok, -⟩ := hinv.2 he
  rw [htok]; simp

theorem tokenAt_ok {ts : List Token} {i : Nat} {t : Token} (h : tokenAt ts i = .ok t) :
    ts.get? i = some t := by
  unfold tokenAt at h
  split at h
  · cases h; assumption
  · cases h

theorem NextToken_spec {all : List (List Char)} {fuel : Nat} {lx lx2 : Lexer} {t : Token}
    (hinv : BufInv all lx) (hcur : lx.current_token_ < lx.tokens_list_.length)
    (h : NextToken fuel lx = .ok (t, lx2)) :
    BufInv all lx2 ∧ lx2.current_token_ < lx2.tokens_list_.length ∧
    lx2.tokens_list_.get? lx2.current_token_ = some t ∧
    (∃ ex, lx2.tokens_list_ = lx.tokens_list_ ++ ex) ∧
    (lx2.current_token_ = lx.current_token_ + 1 ∨
      (lx2 = lx ∧ t = Token.Eof ∧ lx.eof = true ∧
        lx.current_token_ + 1 = lx.tokens_list_.length)) := by
  unfold NextToken at h
  simp only at h
  split_ifs at h with hge
  · have hinv1 : BufInv all { lx with current_token_ := lx.current_token_ + 1 } :=
      (BufInv_current all lx _).2 hinv
    split at h <;> try (simp at h)
    · rename_i lxp hp
      obtain ⟨hinv2, hc2, ⟨ex, hex, -⟩, hb⟩ := BufInv_parse hinv1 hp
      obtain ⟨rfl, he⟩ := hb rfl
      simp only at he
      have hlast := BufInv_last hinv he
      simp only [hlast] at h
      injection h with h
      injection h with h1 h2
      subst h1
      have hlx : lx2 = lx := by
        rw [← h2]; cases lx; simp
      subst hlx
      refine ⟨hinv, hcur, ?_, ⟨[], by simp⟩, Or.inr ⟨rfl, rfl, he, ?_⟩⟩
      · have : lx2.current_token_ = lx2.tokens_list_.length - 1 := by
          simp at hge; omega
        rw [this, List.get?_eq_getElem?, ← List.getLast?_eq_getElem?]
        exact hlast
      · simp at hge; omega
    · rename_i lxp hp
      obtain ⟨hinv2, hc2, ⟨ex, hex, hne⟩, -⟩ := BufInv_parse hinv1 hp
      split at h <;> try (simp at h)
      rename_i t2 ht2
      obtain ⟨rfl, rfl⟩ := h
      have hget := tokenAt_ok ht2
      refine ⟨hinv2, ?_, hget, ⟨ex, hex⟩, Or.inl hc2⟩
      by_contra hnot
      rw [List.get?_eq_none.2 (by omega)] at hget
      cases hget
  · split at h <;> try (simp at h)
    rename_i t2 ht2
    obtain ⟨rfl, rfl⟩ := h
    have hget := tokenAt_ok ht2
    refine ⟨(BufInv_current all lx _).2 hinv, ?_, hget, ⟨[], by simp⟩, Or.inl rfl⟩
    simp at hge ⊢
    exact hge

theorem IdInv_indentTokens (L P : Nat) (v : List Char) : Token.Id v ∉ indentTokens L P := by
  unfold indentTokens
  split_ifs <;> simp [List.mem_replicate]

theorem ParseInputStream_IdInv {fuel : Nat} {lines : List (List Char)} {lx lx2 : Lexer}
    {b : Bool} (h : ParseInputStream_ fuel lines lx = .ok (b, lx2))
    (hid : IdInv lx.tokens_list_) : IdInv lx2.tokens_list_ := by
  obtain ⟨-, h1 | h2 | h3⟩ := ParseInputStream_spec fuel _ _ _ _ h
  · obtain ⟨-, -, rfl⟩ := h1
    exact hid
  · obtain ⟨-, -, -, -, -, htok⟩ := h2
    intro v hv
    rw [htok] at hv
    simp only [List.mem_append, List.mem_replicate, List.mem_singleton] at hv
    rcases hv with (hv | hv) | hv
    · exact hid v hv
    · cases hv.2
    · cases hv
  · obtain ⟨-, -, blanks, l, rest, ex, -, -, -, -, -, htok, hex⟩ := h3
    intro v hv
    rw [htok] at hv
    simp only [List.mem_append, List.mem_singleton] at hv
    rcases hv with ((hv | hv) | hv) | hv
    · exact hid v hv
    · exact absurd hv (IdInv_indentTokens _ _ v)
    · exact (hex _ hv).2 v rfl
    · cases hv

theorem NextToken_IdInv {fuel : Nat} {lx lx2 : Lexer} {t : Token}
    (h : NextToken fuel lx = .ok (t, lx2)) (hid : IdInv lx.tokens_list_) :
    IdInv lx2.tokens_list_ := by
  unfold NextToken at h
  simp only at h
  split_ifs at h
  · split at h <;> try (simp at h)
    · rename_i lxp hp
      have := ParseInputStream_IdInv hp hid
      split at h <;> try (simp at h)
      obtain ⟨-, rfl⟩ := h
      exact this
    · rename_i lxp hp
      have := ParseInputStream_IdInv hp hid
      split at h <;> try (simp at h)
      obtain ⟨-, rfl⟩ := h
      exact this
  · split at h <;> try (simp at h)
    obtain ⟨-, rfl⟩ := h
    exact hid

theorem drain_spec {all : List (List Char)} {fuel : Nat} : ∀ (n : Nat) (lx : Lexer)
    (ts : List Token), BufInv all lx → lx.current_token_ < lx.tokens_list_.length →
    lx.tokens_list_.get? lx.current_token_ ≠ some Token.Eof →
    drain fuel n lx = .ok ts →
    ∃ lxf, BufInv all lxf ∧ lxf.eof = true ∧
      lx.tokens_list_.take (lx.current_token_ + 1) ++ ts = lxf.tokens_list_ ∧
      (IdInv lx.tokens_list_ → IdInv lxf.tokens_list_) := by
  intro n
  induction n with
  | zero => intro lx ts _ _ _ h; simp [drain] at h
  | succ n ih =>
    intro lx ts hinv hcur hne h
    unfold drain at h
    split at h <;> try (simp at h)
    rename_i t lx2 hnext
    obtain ⟨hinv2, hcur2, hget2, ⟨ex, hex⟩, hstep | hstay⟩ := NextToken_spec hinv hcur hnext
    · have htake : lx.tokens_list_.take (lx.current_token_ + 1) =
          lx2.tokens_list_.take (lx.current_token_ + 1) := by
        rw [hex, List.take_append_of_le_length (by omega)]
      have hsucc : lx2.tokens_list_.take (lx2.current_token_ + 1) =
          lx.tokens_list_.take (lx.current_token_ + 1) ++ [t] := by
        rw [htake, ← hstep, List.take_succ, ← List.get?_eq_getElem?, hget2]
        rfl
      split_ifs at h with ht
      · cases h
        subst ht
        obtain ⟨he2, hlen2⟩ := BufInv_Eof_position hinv2 hget2
        refine ⟨lx2, hinv2, he2, ?_, NextToken_IdInv hnext⟩
        rw [← hsucc, hlen2, List.take_length]
      · split at h <;> try (simp at h)
        rename_i ts2 hd
        subst h
        have hne2 : lx2.tokens_list_.get? lx2.current_token_ ≠ some Token.Eof := by
          rw [hget2]; simpa using ht
        obtain ⟨lxf, hf1, hf2, hf3, hf4⟩ := ih lx2 ts2 hinv2 hcur2 hne2 hd
        refine ⟨lxf, hf1, hf2, ?_, fun hid => hf4 (NextToken_IdInv hnext hid)⟩
        rw [← hf3, hsucc]; simp
    · obtain ⟨-, -, he, hlen⟩ := hstay
      exfalso
      apply hne
      have hlast := BufInv_last hinv he
      have : lx.current_token_ = lx.tokens_list_.length - 1 := by omega
      rw [this, List.get?_eq_getElem?, ← List.getLast?_eq_getElem?]
      exact hlast

theorem BufInv_new {fuel : Nat} {text : List Char} {lx : Lexer}
    (h : Lexer.new fuel text = .ok lx) :
    BufInv (getlines text) lx ∧ lx.current_token_ = 0 ∧ 0 < lx.tokens_list_.length := by
  unfold Lexer.new at h
  split at h <;> try (simp at h)
  rename_i b lx1 hp
  subst h
  have h0 : BufInv (getlines text)
      { tokens_list_ := [], input_ := getlines text, current_token_ := 0, eof := false,
        previous_indent_ := 0 } := by
    refine ⟨fun _ => ⟨⟨[], by simp, by simp [lastLevel]⟩, by simp, ?_, by simp⟩, fun h => by simp at h⟩
    intro t ht
    simp at ht
  obtain ⟨hinv, hc, ⟨ex, hex, hne⟩, hb⟩ := BufInv_parse h0 hp
  refine ⟨hinv, hc, ?_⟩
  cases b with
  | false => have := (hb rfl).2; simp at this
  | true =>
    have := hne rfl
    rw [hex]
    simp
    exact List.length_pos.2 this

theorem tokenStream_spec {fuel n : Nat} {text : List Char} {ts : List Token}
    (h : tokenStream fuel n text = .ok ts) :
    ∃ lxf, BufInv (getlines text) lxf ∧ lxf.eof = true ∧ lxf.tokens_list_ = ts ∧
      IdInv lxf.tokens_list_ := by
  unfold tokenStream at h
  split at h <;> try (simp at h)
  rename_i lx hnew
  obtain ⟨hinv, hc, hlen⟩ := BufInv_new hnew
  have hid : IdInv lx.tokens_list_ := by
    unfold Lexer.new at hnew
    split at hnew <;> try (simp at hnew)
    rename_i b lx1 hp
    subst hnew
    exact ParseInputStream_IdInv hp (by intro v hv; simp at hv)
  split at h <;> try (simp at h)
  rename_i t hcur
  have hget := tokenAt_ok hcur
  rw [hc] at hget
  have htake : lx.tokens_list_.take 1 = [t] := by
    cases hl : lx.tokens_list_ with
    | nil => rw [hl] at hlen; simp at hlen
    | cons a as => rw [hl] at hget; simp at hget; simp [hget]
  split_ifs at h with ht
  · cases h
    subst ht
    obtain ⟨he, hlen1⟩ := BufInv_Eof_position hinv hget
    refine ⟨lx, hinv, he, ?_, hid⟩
    have hlen2 : lx.tokens_list_.length = 1 := by omega
    rw [← htake, ← hlen2, List.take_length]
  · split at h <;> try (simp at h)
    rename_i ts2 hd
    subst h
    have hne : lx.tokens_list_.get? lx.current_token_ ≠ some Token.Eof := by
      rw [hc, hget]; simpa using ht
    obtain ⟨lxf, hf1, hf2, hf3, hf4⟩ := drain_spec n lx ts2 hinv (by omega) hne hd
    refine ⟨lxf, hf1, hf2, ?_, hf4 hid⟩
    rw [← hf3, hc, htake]; simp

theorem Reachable_inv {lx : Lexer} (h : Reachable lx) :
    ∃ all, BufInv all lx ∧ lx.current_token_ < lx.tokens_list_.length := by
  induction h with
  | new fuel text lx hnew =>
    obtain ⟨hinv, hc, hlen⟩ := BufInv_new hnew
    exact ⟨_, hinv, by omega⟩
  | next fuel t lx lx2 _ hnext ih =>
    obtain ⟨all, hinv, hcur⟩ := ih
    obtain ⟨hinv2, hcur2, -⟩ := NextToken_spec hinv hcur hnext
    exact ⟨all, hinv2, hcur2⟩

theorem NextToken_at_Eof {all : List (List Char)} {lx : Lexer} (hinv : BufInv all lx)
    (hget : lx.tokens_list_.get? lx.current_token_ = some Token.Eof) (fuel : Nat) :
    NextToken fuel lx = .ok (Token.Eof, lx) := by
  obtain ⟨he, hlen⟩ := BufInv_Eof_position hinv hget
  have hin := (hinv.2 he).1
  have hlast := BufInv_last hinv he
  unfold NextToken
  simp only
  rw [if_pos (by simp; omega), hin]
  unfold ParseInputStream_
  simp only [he]
  simp only [Bool.true_eq_false, if_false, hlast]
  congr 2
  cases lx
  simp_all
  omega

/-- C1: whenever the lexer reaches `Eof` without raising, the complete token sequence
holds as many `Indent` tokens as `Dedent` tokens. -/
theorem indent_dedent_balance (fuel n : Nat) (text : List Char) (ts : List Token)
    (h : tokenStream fuel n text = .ok ts) :
    ts.count Token.Indent = ts.count Token.Dedent := by
  obtain ⟨lxf, hinv, he, rfl, -⟩ := tokenStream_spec h
  obtain ⟨-, pre, htok, -, -, hcnt⟩ := hinv.2 he
  rw [htok]
  simp [List.count_append, List.count_replicate, hcnt]

/-- C2: whenever the lexer reaches `Eof` without raising, the run of `Dedent` tokens
directly before `Eof` is as long as the indentation level of the last line that is not
blank after comment stripping, and empty when there is no such line. -/
theorem dedents_before_Eof (fuel n : Nat) (text : List Char) (ts : List Token)
    (h : tokenStream fuel n text = .ok ts) :
    ts.getLast? = some Token.Eof ∧ trailingDedents ts = lastLevel (getlines text) := by
  obtain ⟨lxf, hinv, he, rfl, -⟩ := tokenStream_spec h
  obtain ⟨-, pre, htok, -, hNL, -⟩ := hinv.2 he
  refine ⟨BufInv_last hinv he, ?_⟩
  rw [htok]
  unfold trailingDedents
  rw [List.dropLast_concat, List.reverse_append, List.reverse_replicate,
    List.takeWhile_append]
  have h1 : (List.replicate (lastLevel (getlines text)) Token.Dedent).takeWhile
      (fun t => decide (t = Token.Dedent)) =
      List.replicate (lastLevel (getlines text)) Token.Dedent := by
    rw [List.takeWhile_eq_self_iff]
    intro t ht
    simp [List.mem_replicate] at ht
    simp [ht.2]
  rw [h1, if_pos (by simp)]
  have h2 : pre.reverse.takeWhile (fun t => decide (t = Token.Dedent)) = [] := by
    cases hr : pre.reverse with
    | nil => rfl
    | cons a as =>
      have : pre.getLast? = some a := by
        rw [← List.head?_reverse, hr]; rfl
      have := hNL a this
      subst this
      simp [List.takeWhile]
  rw [h2]
  simp

/-- C3: once `NextToken` has returned `Eof`, any number of further calls return `Eof`
again and leave the lexer as it is, so `CurrentToken` stays `Eof` and the token buffer
does not grow. -/
theorem Eof_is_sticky (lx lx1 : Lexer) (fuel : Nat) (hr : Reachable lx)
    (h : NextToken fuel lx = .ok (Token.Eof, lx1)) (fuel2 k : Nat) :
    callNextToken fuel2 k lx1 = .ok (List.replicate k Token.Eof, lx1) ∧
    CurrentToken lx1 = .ok Token.Eof := by
  obtain ⟨all, hinv, hcur⟩ := Reachable_inv hr
  obtain ⟨hinv1, hcur1, hget1, -⟩ := NextToken_spec hinv hcur h
  have hfix := NextToken_at_Eof hinv1 hget1 fuel2
  constructor
  · induction k with
    | zero => rfl
    | succ k ih =>
      unfold callNextToken
      rw [hfix]
      simp only [ih]
      rfl
  · unfold CurrentToken tokenAt
    rw [hget1]

theorem indent_dedent_balance_witness :
    tokenStream 4 8 "x\n  y\n".toList =
      .ok [Token.Id ['x'], Token.Newline, Token.Indent, Token.Id ['y'], Token.Newline,
        Token.Dedent, Token.Eof] ∧
    [Token.Id ['x'], Token.Newline, Token.Indent, Token.Id ['y'], Token.Newline,
        Token.Dedent, Token.Eof].count Token.Indent =
    [Token.Id ['x'], Token.Newline, Token.Indent, Token.Id ['y'], Token.Newline,
        Token.Dedent, Token.Eof].count Token.Dedent :=
  ⟨by decide, indent_dedent_balance 4 8 "x\n  y\n".toList _ (by decide)⟩

theorem dedents_before_Eof_witness :
    tokenStream 4 12 "if x:\n    y  # two levels\n\n".toList =
      .ok [Token.If, Token.Id ['x'], Token.Char ':', Token.Newline, Token.Indent, Token.Indent,
        Token.Id ['y'], Token.Newline, Token.Dedent, Token.Dedent, Token.Eof] ∧
    trailingDedents [Token.If, Token.Id ['x'], Token.Char ':', Token.Newline, Token.Indent,
        Token.Indent, Token.Id ['y'], Token.Newline, Token.Dedent, Token.Dedent, Token.Eof] =
      lastLevel (getlines "if x:\n    y  # two levels\n\n".toList) :=
  ⟨by decide, (dedents_before_Eof 4 12 "if x:\n    y  # two levels\n\n".toList _ (by decide)).2⟩

theorem Eof_is_sticky_witness :
    NextToken 1 (Lexer.mk [Token.Id ['x'], Token.Newline] [] 1 false 0) =
      .ok (Token.Eof, Lexer.mk [Token.Id ['x'], Token.Newline, Token.Eof] [] 2 true 0) ∧
    callNextToken 0 3 (Lexer.mk [Token.Id ['x'], Token.Newline, Token.Eof] [] 2 true 0) =
      .ok ([Token.Eof, Token.Eof, Token.Eof],
        Lexer.mk [Token.Id ['x'], Token.Newline, Token.Eof] [] 2 true 0) ∧
    CurrentToken (Lexer.mk [Token.Id ['x'], Token.Newline, Token.Eof] [] 2 true 0) =
      .ok Token.Eof :=
  ⟨by decide,
    Eof_is_sticky (Lexer.mk [Token.Id ['x'], Token.Newline] [] 1 false 0) _ 1
      (Reachable.next 1 Token.Newline (Lexer.mk [Token.Id ['x'], Token.Newline] [] 0 false 0) _
        (Reachable.new 1 ['x'] _ (by decide)) (by decide))
      (by decide) 0 3⟩

theorem findFrom_bound (ch : Char) : ∀ (l : List Char) (i p : Nat), findFrom ch l i = p →
    p = npos ∨ (i ≤ p ∧ p < i + l.length) := by
  intro l
  induction l with
  | nil => intro i p h; left; rw [← h]; rfl
  | cons c cs ih =>
    intro i p h
    unfold findFrom at h
    split_ifs at h
    · right; subst h; simp
    · rcases ih _ _ h with h1 | ⟨h1, h2⟩
      · exact Or.inl h1
      · right; simp only [List.length_cons]; omega

theorem find_bound (line : List Char) (ch : Char) (begin : Nat) :
    find line ch begin = npos ∨
      (begin ≤ find line ch begin ∧ find line ch begin < line.length) := by
  rcases findFrom_bound ch (line.drop begin) begin _ rfl with h | ⟨h1, h2⟩
  · exact Or.inl h
  · right
    refine ⟨h1, ?_⟩
    unfold find
    simp only [List.length_drop] at h2
    omega

theorem closingQuote_returns (line : List Char) (quote : Char) : ∀ (rounds begin : Nat),
    1 ≤ rounds → line.length + 1 ≤ begin + rounds →
    ∃ pos, closingQuote line quote rounds begin = .ok pos := by
  intro rounds
  induction rounds with
  | zero => intro begin h; omega
  | succ r ih =>
    intro begin _ hlen
    unfold closingQuote
    simp only
    split_ifs with hp
    · exact ⟨_, rfl⟩
    · rcases find_bound line quote begin with h | ⟨h1, h2⟩
      · exact absurd h hp
      · have e1 : strAt line (find line quote begin - 1) =
            .ok (line.get ⟨find line quote begin - 1, by omega⟩) := by
          unfold strAt
          rw [List.get?_eq_get (by omega)]
        have e2 : strAt line (find line quote begin) =
            .ok (line.get ⟨find line quote begin, h2⟩) := by
          unfold strAt
          rw [List.get?_eq_get h2]
        rw [e1, e2]
        simp only
        split_ifs
        · exact ⟨_, rfl⟩
        · exact ih _ (by omega) (by omega)

theorem scanLoop_stuck {line : List Char} {i : Nat} {toks : List Token}
    (hstep : scanStep line i toks = .ok (i, toks)) (hi : i < line.length) :
    ∀ fuel, scanLoop line fuel i toks = .loop := by
  intro fuel
  induction fuel with
  | zero => unfold scanLoop; rw [if_pos hi]
  | succ n ih => unfold scanLoop; rw [if_pos hi, hstep]; exact ih

theorem ParseInputStream_loop {fuel : Nat} {line0 : List Char} {rest : List (List Char)}
    {lx : Lexer} {k : Nat} (h1 : IsLineEmpty_ (stripComment line0) = false)
    (h2 : leadingSpaces (stripComment line0) 0 = .ok k)
    (h3 : scanLoop (stripComment line0) fuel k
      (lx.tokens_list_ ++ indentTokens (k / 2) lx.previous_indent_) = .loop) :
    ParseInputStream_ fuel (line0 :: rest) lx = .loop := by
  unfold ParseInputStream_
  simp only [h1, h2, h3]
  simp

/-- C4: the literal of the scenario, `"a\tb\n"`, is lexed to one `String` token with
payload `a<TAB>b<LF>` followed by `Newline`. The literal of the one-character string
value `\` is the line `"\\"`: one round of the scan loop at its opening quote leaves
`line_iter` at `0` and the buffer as it is, so the constructor of the lexer never
returns on it, whatever number of rounds the scan loop is given, and no `String` token
is delivered. -/
theorem backslash_literal_never_lexed :
    tokenStream 1 2 (literal DQUOTE ['a', TAB, 'b', LF]) =
      .ok [Token.String ['a', TAB, 'b', LF], Token.Newline, Token.Eof] ∧
    literal DQUOTE [BACKSLASH] = [DQUOTE, BACKSLASH, BACKSLASH, DQUOTE] ∧
    scanStep [DQUOTE, BACKSLASH, BACKSLASH, DQUOTE] 0 [] = .ok (0, []) ∧
    ∀ fuel n, Lexer.new fuel (literal DQUOTE [BACKSLASH]) = .loop ∧
      tokenStream fuel n (literal DQUOTE [BACKSLASH]) = .loop := by
  have hlit : literal DQUOTE [BACKSLASH] = [DQUOTE, BACKSLASH, BACKSLASH, DQUOTE] := by decide
  have hstep : scanStep [DQUOTE, BACKSLASH, BACKSLASH, DQUOTE] 0 [] = .ok (0, []) := by decide
  refine ⟨by decide, hlit, hstep, ?_⟩
  intro fuel n
  have hnew : Lexer.new fuel (literal DQUOTE [BACKSLASH]) = .loop := by
    rw [hlit]
    unfold Lexer.new
    have hl : getlines [DQUOTE, BACKSLASH, BACKSLASH, DQUOTE] =
        [[DQUOTE, BACKSLASH, BACKSLASH, DQUOTE]] := by decide
    rw [hl, ParseInputStream_loop (k := 0) (by decide) (by decide)]
    have hs : stripComment [DQUOTE, BACKSLASH, BACKSLASH, DQUOTE] =
        [DQUOTE, BACKSLASH, BACKSLASH, DQUOTE] := by decide
    rw [hs]
    exact scanLoop_stuck hstep (by decide) fuel
  refine ⟨hnew, ?_⟩
  unfold tokenStream
  rw [hnew]

/-- C5: on the line `"abc`, whose quote is never closed, one round of the scan loop at
the quote leaves `line_iter` at `0` and the buffer as it is, and the constructor of the
lexer never returns, whatever number of rounds the scan loop is given: no `LexerError`
is raised. On the line `x "abc` one round at the quote appends `String{ab}` and sets
`line_iter` back to `0`. -/
theorem unterminated_string_never_raises :
    scanStep "\"abc".toList 0 [] = .ok (0, []) ∧
    (∀ fuel, Lexer.new fuel "\"abc".toList = .loop) ∧
    scanStep "x \"abc".toList 2 [Token.Id ['x']] =
      .ok (0, [Token.Id ['x'], Token.String ['a', 'b']]) := by
  refine ⟨by decide, ?_, by decide⟩
  intro fuel
  unfold Lexer.new
  have hl : getlines "\"abc".toList = ["\"abc".toList] := by decide
  rw [hl, ParseInputStream_loop (k := 0) (by decide) (by decide)]
  have hs : stripComment "\"abc".toList = "\"abc".toList := by decide
  rw [hs]
  exact scanLoop_stuck (by decide) (by decide) fuel

theorem EscSeqHandler_go_WellEscaped {pre : List Char} (h : WellEscaped pre) :
    ∃ d, ∀ rest acc, EscSeqHandler_.go (pre ++ rest) acc = EscSeqHandler_.go rest (acc ++ d) := by
  induction h with
  | nil => exact ⟨[], by simp⟩
  | plain c rest0 h1 h2 h3 _ ih =>
    obtain ⟨d, hd⟩ := ih
    refine ⟨c :: d, ?_⟩
    intro rest acc
    have h23 : ¬ (c = LF ∨ c = CR) := by simp [h2, h3]
    rw [List.cons_append, EscSeqHandler_.go.eq_def]
    simp only [if_neg h1, if_neg h23, hd]
    simp
  | escape e rest0 he _ ih =>
    obtain ⟨d, hd⟩ := ih
    simp only [escapeLetters, List.mem_cons, List.mem_singleton, List.not_mem_nil,
      or_false] at he
    by_cases h1 : e = 'n'
    · refine ⟨LF :: d, ?_⟩
      intro rest acc
      rw [List.cons_append, List.cons_append, EscSeqHandler_.go, if_pos rfl]
      simp only [if_pos h1, hd]; simp
    by_cases h2 : e = 't'
    · refine ⟨TAB :: d, ?_⟩
      intro rest acc
      rw [List.cons_append, List.cons_append, EscSeqHandler_.go, if_pos rfl]
      simp only [if_neg h1, if_pos h2, hd]; simp
    by_cases h3 : e = 'r'
    · refine ⟨CR :: d, ?_⟩
      intro rest acc
      rw [List.cons_append, List.cons_append, EscSeqHandler_.go, if_pos rfl]
      simp only [if_neg h1, if_neg h2, if_pos h3, hd]; simp
    by_cases h4 : e = DQUOTE
    · refine ⟨DQUOTE :: d, ?_⟩
      intro rest acc
      rw [List.cons_append, List.cons_append, EscSeqHandler_.go, if_pos rfl]
      simp only [if_neg h1, if_neg h2, if_neg h3, if_pos h4, hd]; simp
    by_cases h5 : e = SQUOTE
    · refine ⟨SQUOTE :: d, ?_⟩
      intro rest acc
      rw [List.cons_append, List.cons_append, EscSeqHandler_.go, if_pos rfl]
      simp only [if_neg h1, if_neg h2, if_neg h3, if_neg h4, if_pos h5, hd]; simp
    have h6 : e = BACKSLASH := by tauto
    refine ⟨BACKSLASH :: d, ?_⟩
    intro rest acc
    rw [List.cons_append, List.cons_append, EscSeqHandler_.go, if_pos rfl]
    simp only [if_neg h1, if_neg h2, if_neg h3, if_neg h4, if_neg h5, if_pos h6, hd]; simp

theorem WellEscaped_or_fault : ∀ (n : Nat) (w : List Char), w.length ≤ n →
    WellEscaped w ∨ ∃ pre, WellEscaped pre ∧
      (w = pre ++ [BACKSLASH] ∨
       (∃ e rest, e ∉ escapeLetters ∧ w = pre ++ BACKSLASH :: e :: rest) ∨
       (∃ c rest, (c = LF ∨ c = CR) ∧ w = pre ++ c :: rest)) := by
  intro n
  induction n with
  | zero =>
    intro w hw
    have : w = [] := List.eq_nil_of_length_eq_zero (by omega)
    subst this
    exact Or.inl WellEscaped.nil
  | succ n ih =>
    intro w hw
    match w, hw with
    | [], _ => exact Or.inl WellEscaped.nil
    | c :: rest, hw =>
      by_cases hb : c = BACKSLASH
      · subst hb
        match rest, hw with
        | [], _ => exact Or.inr ⟨[], WellEscaped.nil, Or.inl rfl⟩
        | e :: rest2, hw =>
          by_cases he : e ∈ escapeLetters
          · have hlen : rest2.length ≤ n := by simp at hw; omega
            rcases ih rest2 hlen with h | ⟨pre, hpre, h⟩
            · exact Or.inl (WellEscaped.escape e rest2 he h)
            · refine Or.inr ⟨BACKSLASH :: e :: pre, WellEscaped.escape e pre he hpre, ?_⟩
              rcases h with h | ⟨e2, r, h1, h2⟩ | ⟨c2, r, h1, h2⟩
              · exact Or.inl (by simp [h])
              · exact Or.inr (Or.inl ⟨e2, r, h1, by simp [h2]⟩)
              · exact Or.inr (Or.inr ⟨c2, r, h1, by simp [h2]⟩)
          · exact Or.inr ⟨[], WellEscaped.nil, Or.inr (Or.inl ⟨e, rest2, he, rfl⟩)⟩
      · by_cases hl : c = LF ∨ c = CR
        · exact Or.inr ⟨[], WellEscaped.nil, Or.inr (Or.inr ⟨c, rest, hl, rfl⟩)⟩
        · have hlen : rest.length ≤ n := by simp at hw; omega
          have hl1 : c ≠ LF := fun h => hl (Or.inl h)
          have hl2 : c ≠ CR := fun h => hl (Or.inr h)
          rcases ih rest hlen with h | ⟨pre, hpre, h⟩
          · exact Or.inl (WellEscaped.plain c rest hb hl1 hl2 h)
          · refine Or.inr ⟨c :: pre, WellEscaped.plain c pre hb hl1 hl2 hpre, ?_⟩
            rcases h with h | ⟨e2, r, h1, h2⟩ | ⟨c2, r, h1, h2⟩
            · exact Or.inl (by simp [h])
            · exact Or.inr (Or.inl ⟨e2, r, h1, by simp [h2]⟩)
            · exact Or.inr (Or.inr ⟨c2, r, h1, by simp [h2]⟩)

/-- C6, as the claim states it, fails: on a text that is a lone backslash the handler
raises `LexerError` with the message `String parsing error`, not
`Unrecognized escape sequence`. -/
theorem EscSeqHandler_lone_backslash :
    EscSeqHandler_ [BACKSLASH] = .raise (.LexerError "String parsing error") ∧
    EscSeqHandler_ [BACKSLASH] ≠ .raise (.LexerError "Unrecognized escape sequence") := by
  decide

/-- C6, amended: the first fault of the text decides. After a prefix without fault the
handler raises `String parsing error` at a backslash that ends the text, raises
`Unrecognized escape sequence \` followed by the offending character at a backslash
followed by a character that is none of `n t r " ' \`, and raises
`Unexpected end of line` at a bare line feed or carriage return; every text is either
without fault, and then the handler succeeds, or of one of these three shapes. -/
theorem EscSeqHandler_first_fault (pre : List Char) (hpre : WellEscaped pre) :
    (∃ value, EscSeqHandler_ pre = .ok value) ∧
    EscSeqHandler_ (pre ++ [BACKSLASH]) = .raise (.LexerError "String parsing error") ∧
    (∀ e rest, e ∉ escapeLetters →
      EscSeqHandler_ (pre ++ BACKSLASH :: e :: rest) =
        .raise (.LexerError ("Unrecognized escape sequence \\".push e))) ∧
    (∀ c rest, c = LF ∨ c = CR →
      EscSeqHandler_ (pre ++ c :: rest) = .raise (.LexerError "Unexpected end of line")) ∧
    (∀ w : List Char, WellEscaped w ∨ ∃ p, WellEscaped p ∧
      (w = p ++ [BACKSLASH] ∨
       (∃ e rest, e ∉ escapeLetters ∧ w = p ++ BACKSLASH :: e :: rest) ∨
       (∃ c rest, (c = LF ∨ c = CR) ∧ w = p ++ c :: rest))) := by
  obtain ⟨d, hd⟩ := EscSeqHandler_go_WellEscaped hpre
  refine ⟨⟨d, ?_⟩, ?_, ?_, ?_, fun w => WellEscaped_or_fault w.length w le_rfl⟩
  · have := hd [] []
    simp only [List.append_nil, List.nil_append] at this
    unfold EscSeqHandler_
    rw [this, EscSeqHandler_.go]
  · unfold EscSeqHandler_
    rw [hd, EscSeqHandler_.go, if_pos rfl]
  · intro e rest he
    simp only [escapeLetters, List.mem_cons, List.mem_singleton, List.not_mem_nil,
      or_false, not_or] at he
    obtain ⟨h1, h2, h3, h4, h5, h6⟩ := he
    unfold EscSeqHandler_
    rw [hd, EscSeqHandler_.go, if_pos rfl]
    simp only [if_neg h1, if_neg h2, if_neg h3, if_neg h4, if_neg h5, if_neg h6]
  · intro c rest hc
    have hb : c ≠ BACKSLASH := by
      rcases hc with rfl | rfl <;> decide
    unfold EscSeqHandler_
    rw [hd, EscSeqHandler_.go.eq_def]
    simp only [if_neg hb, if_pos hc]

theorem EscSeqHandler_first_fault_witness :
    WellEscaped [BACKSLASH, 't', 'a'] ∧
    EscSeqHandler_ ([BACKSLASH, 't', 'a'] ++ BACKSLASH :: 'q' :: ['z']) =
      .raise (.LexerError "Unrecognized escape sequence \\q") :=
  ⟨WellEscaped.escape 't' _ (by decide)
      (WellEscaped.plain 'a' _ (by decide) (by decide) (by decide) WellEscaped.nil),
    (EscSeqHandler_first_fault [BACKSLASH, 't', 'a']
      (WellEscaped.escape 't' _ (by decide)
        (WellEscaped.plain 'a' _ (by decide) (by decide) (by decide) WellEscaped.nil))).2.2.1
      'q' ['z'] (by decide)⟩

theorem IsVariableChar_facts {c : Char} (h : IsVariableChar_ c = true) :
    c ≠ ' ' ∧ c ≠ LF ∧ c ≠ '#' ∧ c ≠ SQUOTE ∧ c ≠ DQUOTE ∧ c ≠ BACKSLASH ∧
    IsOperationChar_ c = false := by
  refine ⟨?_, ?_, ?_, ?_, ?_, ?_, ?_⟩
  · rintro rfl; revert h; decide
  · rintro rfl; revert h; decide
  · rintro rfl; revert h; decide
  · rintro rfl; revert h; decide
  · rintro rfl; revert h; decide
  · rintro rfl; revert h; decide
  · cases ho : IsOperationChar_ c with
    | false => rfl
    | true =>
      exfalso
      unfold IsOperationChar_ at ho
      split_ifs at ho with hc
      rcases hc with rfl | rfl | rfl | rfl | rfl | rfl | rfl | rfl | rfl | rfl | rfl | rfl | rfl | rfl <;>
        revert h <;> decide

theorem isIdentifier_facts {w : List Char} (h : isIdentifier w = true) :
    ∃ c cs, w = c :: cs ∧ IsVariableChar_ c = true ∧ IsDigit_ c = false ∧
      ∀ x ∈ cs, IsVariableChar_ x = true := by
  match w, h with
  | c :: cs, h =>
    unfold isIdentifier at h
    simp only [Bool.and_eq_true, Bool.or_eq_true, List.all_eq_true, isLetter,
      decide_eq_true_eq] at h
    obtain ⟨hc, hcs⟩ := h
    refine ⟨c, cs, rfl, ?_, ?_, ?_⟩
    · unfold IsVariableChar_
      rw [if_pos]
      rcases hc with (h | h) | h
      · exact Or.inl h
      · exact Or.inr (Or.inl h)
      · exact Or.inr (Or.inr (Or.inr h))
    · unfold IsDigit_
      rw [if_neg]
      rintro ⟨h1, h2⟩
      rcases hc with (h | h) | h
      · exact absurd (le_trans h.1 h2) (by decide)
      · exact absurd (le_trans h.1 h2) (by decide)
      · subst h; revert h2; decide
    · intro x hx
      unfold IsVariableChar_
      rw [if_pos]
      rcases hcs x hx with ((h | h) | h) | h
      · exact Or.inl h
      · exact Or.inr (Or.inl h)
      · exact Or.inr (Or.inr (Or.inl h))
      · exact Or.inr (Or.inr (Or.inr h))

theorem getlines_single : ∀ (w : List Char), w ≠ [] → LF ∉ w → getlines w = [w] := by
  intro w
  induction w with
  | nil => intro h; exact absurd rfl h
  | cons c cs ih =>
    intro _ hLF
    simp only [List.mem_cons, not_or] at hLF
    unfold getlines
    rw [if_neg (fun h => hLF.1 h.symm)]
    cases cs with
    | nil => simp [getlines]
    | cons d ds =>
      rw [ih (by simp) hLF.2]

theorem FindComment_go_none : ∀ (w : List Char) (i : Nat),
    (∀ x ∈ w, x ≠ SQUOTE ∧ x ≠ DQUOTE ∧ x ≠ '#') → FindComment_.go w i false false = -1 := by
  intro w
  induction w with
  | nil => intro i _; rfl
  | cons c cs ih =>
    intro i h
    obtain ⟨h1, h2, h3⟩ := h c (by simp)
    unfold FindComment_.go
    rw [if_neg (fun hh => h1 hh.1), if_neg (fun hh => h2 hh.1), if_neg (fun hh => h3 hh.1)]
    exact ih _ (fun x hx => h x (List.mem_cons_of_mem _ hx))

theorem accumulate_all (P : Char → Bool) : ∀ (w : List Char),
    (∀ x ∈ w, P x = true ∧ x ≠ ' ') → accumulate P w = w := by
  intro w
  induction w with
  | nil => intro _; rfl
  | cons c cs ih =>
    intro h
    unfold accumulate
    rw [if_pos (h c (by simp)), ih (fun x hx => h x (List.mem_cons_of_mem _ hx))]

theorem reserved_KeyWordToToken_ {kw : String} {tok : Token}
    (h : (kw, tok) ∈ reservedWords) : KeyWordToToken_ kw.toList = some tok :=
  (by decide : ∀ p ∈ reservedWords, KeyWordToToken_ p.1.toList = some p.2) (kw, tok) h

theorem OperationToToken_none_of_head {c : Char} {cs : List Char}
    (h : IsOperationChar_ c = false) : OperationToToken_ (c :: cs) = none := by
  unfold OperationToToken_
  have key : ∀ (s : String), (∀ d ds, s.toList = d :: ds → IsOperationChar_ d = true) →
      s.toList ≠ [] → c :: cs ≠ s.toList := by
    intro s hs hne heq
    have := hs c cs heq.symm
    rw [h] at this
    cases this
  rw [if_neg (key "!=" (by intro d ds hd; cases hd; decide) (by decide)),
    if_neg (key "==" (by intro d ds hd; cases hd; decide) (by decide)),
    if_neg (key ">=" (by intro d ds hd; cases hd; decide) (by decide)),
    if_neg (key "<=" (by intro d ds hd; cases hd; decide) (by decide))]

theorem AppendTokensList_identifier {w : List Char} (hw : isIdentifier w = true)
    (hk : KeyWordToToken_ w = none) (toks : List Token) :
    AppendTokensList_ toks w = .ok (toks ++ [Token.Id w]) := by
  obtain ⟨c, cs, rfl, hc, hd, hcs⟩ := isIdentifier_facts hw
  have hop := (IsVariableChar_facts hc).2.2.2.2.2.2
  unfold AppendTokensList_
  rw [hk]
  simp only [OperationToToken_none_of_head hop]
  have h1 : IsOperatinString_ (c :: cs) = false := by
    simp [IsOperatinString_, hop]
  have h2 : IsNumber_ (c :: cs) = false := by
    simp [IsNumber_, hd]
  have h3 : IsVariableName_ (c :: cs) = .ok true := by
    unfold IsVariableName_
    simp only [hc, hd]
    simp
    exact hcs
  simp only [h1, h2, h3]
  simp

theorem Lexer_new_word {w : List Char} (hw : isIdentifier w = true) {t : Token}
    (ht : AppendTokensList_ [] w = .ok [t]) (fuel : Nat) (hf : 1 ≤ fuel) :
    Lexer.new fuel w = .ok (Lexer.mk [t, Token.Newline] [] 0 false 0) := by
  obtain ⟨c, cs, rfl, hc, hd, hcs⟩ := isIdentifier_facts hw
  have hall : ∀ x ∈ c :: cs, IsVariableChar_ x = true := by
    intro x hx
    rcases List.mem_cons.1 hx with rfl | hx
    · exact hc
    · exact hcs x hx
  obtain ⟨hsp, -, -, -, -, hbs, hop⟩ := IsVariableChar_facts hc
  have hlines : getlines (c :: cs) = [c :: cs] :=
    getlines_single _ (by simp) (fun hm => (IsVariableChar_facts (hall _ hm)).2.1 rfl)
  have hstrip : stripComment (c :: cs) = c :: cs := by
    unfold stripComment FindComment_
    rw [FindComment_go_none]
    · simp
    · intro x hx
      have := IsVariableChar_facts (hall x hx)
      exact ⟨this.2.2.2.1, this.2.2.2.2.1, this.2.2.1⟩
  have hempty : IsLineEmpty_ (c :: cs) = false := by
    simp [IsLineEmpty_, hsp]
  have hlead : leadingSpaces (c :: cs) 0 = .ok 0 := by
    unfold leadingSpaces
    rw [if_neg hsp]
  have hacc : accumulate (fun x => IsVariableChar_ x || IsDigit_ x) (c :: cs) = c :: cs := by
    apply accumulate_all
    intro x hx
    exact ⟨by simp [hall x hx], (IsVariableChar_facts (hall x hx)).1⟩
  have hstep : scanStep (c :: cs) 0 [] = .ok ((c :: cs).length, [t]) := by
    have h0 : strAt (c :: cs) 0 = .ok c := rfl
    unfold scanStep
    rw [h0]
    dsimp only
    rw [if_neg hsp, if_neg hbs, if_neg (by rw [hop]; decide), if_pos hc, List.drop_zero,
      hacc, ht]
    simp only [Nat.zero_add]
  obtain ⟨f, rfl⟩ : ∃ f, fuel = f + 1 := ⟨fuel - 1, by omega⟩
  have hscan : scanLoop (c :: cs) (f + 1) 0 [] = .ok [t] := by
    unfold scanLoop
    rw [if_pos (by simp), hstep]
    simp only
    cases f with
    | zero => unfold scanLoop; rw [if_neg (by simp)]
    | succ g => unfold scanLoop; rw [if_neg (by simp)]
  unfold Lexer.new
  rw [hlines]
  unfold ParseInputStream_
  simp only [hstrip, hempty, hlead]
  simp [indentTokens, hscan]

theorem tokenStream_word {w : List Char} (hw : isIdentifier w = true) {t : Token}
    (ht : AppendTokensList_ [] w = .ok [t]) (fuel n : Nat) (hf : 1 ≤ fuel) (hn : 2 ≤ n) :
    tokenStream fuel n w = .ok [t, Token.Newline, Token.Eof] := by
  have hnew := Lexer_new_word hw ht fuel hf
  obtain ⟨ex, hex, hlay⟩ := AppendTokensList_appends ht
  have hEof : t ≠ Token.Eof := by
    intro h
    subst h
    have hmem : Token.Eof ∈ ex := by
      have : ex = [Token.Eof] := by simpa using hex.symm
      rw [this]; simp
    have := (hlay _ hmem).1
    simp [Token.isLayout] at this
  obtain ⟨m, rfl⟩ : ∃ m, n = m + 2 := ⟨n - 2, by omega⟩
  unfold tokenStream
  rw [hnew]
  simp only [CurrentToken, tokenAt, List.get?_cons_zero, if_neg hEof]
  have h1 : NextToken fuel (Lexer.mk [t, Token.Newline] [] 0 false 0) =
      .ok (Token.Newline, Lexer.mk [t, Token.Newline] [] 1 false 0) := by
    unfold NextToken
    simp only [List.length_cons, List.length_nil]
    rw [if_neg (by decide)]
    rfl
  have h2 : NextToken fuel (Lexer.mk [t, Token.Newline] [] 1 false 0) =
      .ok (Token.Eof, Lexer.mk [t, Token.Newline, Token.Eof] [] 2 true 0) := by
    unfold NextToken
    simp only [List.length_cons, List.length_nil]
    rw [if_pos (by decide)]
    rw [ParseInputStream_]
    simp [tokenAt]
  unfold drain
  rw [h1]
  simp only
  rw [if_neg (by decide)]
  unfold drain
  rw [h2]
  simp

/-- C7: a one-line input made of a word `[A-Za-z_][A-Za-z0-9_]*` is lexed to the keyword
token of the word followed by `Newline` (and `Eof`) when the word is one of the twelve
reserved words, and to `Id` with the word as payload followed by `Newline` (and `Eof`)
otherwise; and no `Id` token of the token sequence of any text carries a reserved
word. -/
theorem identifier_or_keyword (w : List Char) (hw : isIdentifier w = true) (fuel n : Nat)
    (hf : 1 ≤ fuel) (hn : 2 ≤ n) :
    (∀ kw tok, (kw, tok) ∈ reservedWords → w = kw.toList →
      tokenStream fuel n w = .ok [tok, Token.Newline, Token.Eof]) ∧
    ((∀ kw tok, (kw, tok) ∈ reservedWords → w ≠ kw.toList) →
      tokenStream fuel n w = .ok [Token.Id w, Token.Newline, Token.Eof]) ∧
    (∀ (text : List Char) (f m : Nat) (ts : List Token) (v : List Char),
      tokenStream f m text = .ok ts → Token.Id v ∈ ts →
      ∀ kw tok, (kw, tok) ∈ reservedWords → v ≠ kw.toList) := by
  refine ⟨?_, ?_, ?_⟩
  · intro kw tok hmem hEq
    apply tokenStream_word hw _ fuel n hf hn
    unfold AppendTokensList_
    rw [hEq, reserved_KeyWordToToken_ hmem]
    rfl
  · intro hno
    apply tokenStream_word hw _ fuel n hf hn
    have hk : KeyWordToToken_ w = none := by
      unfold KeyWordToToken_
      rw [if_neg (hno "class" Token.Class (by decide)),
        if_neg (hno "return" Token.Return (by decide)),
        if_neg (hno "if" Token.If (by decide)),
        if_neg (hno "else" Token.Else (by decide)),
        if_neg (hno "def" Token.Def (by decide)),
        if_neg (hno "print" Token.Print (by decide)),
        if_neg (hno "and" Token.And (by decide)),
        if_neg (hno "or" Token.Or (by decide)),
        if_neg (hno "None" Token.None (by decide)),
        if_neg (hno "True" Token.True (by decide)),
        if_neg (hno "False" Token.False (by decide)),
        if_neg (hno "not" Token.Not (by decide))]
    simpa using AppendTokensList_identifier hw hk []
  · intro text f m ts v hts hv kw tok hmem hEq
    obtain ⟨lxf, -, -, rfl, hid⟩ := tokenStream_spec hts
    have hnone := hid v hv
    rw [hEq, reserved_KeyWordToToken_ hmem] at hnone
    cases hnone

theorem identifier_or_keyword_witness :
    isIdentifier "print".toList = true ∧ (1 ≤ 1) ∧ (2 ≤ 2) ∧
    tokenStream 1 2 "print".toList = .ok [Token.Print, Token.Newline, Token.Eof] ∧
    isIdentifier "printer_2".toList = true ∧
    tokenStream 1 2 "printer_2".toList =
      .ok [Token.Id "printer_2".toList, Token.Newline, Token.Eof] :=
  ⟨by decide, by decide, by decide,
    (identifier_or_keyword "print".toList (by decide) 1 2 (by decide) (by decide)).1
      "print" Token.Print (by decide) rfl,
    by decide,
    (identifier_or_keyword "printer_2".toList (by decide) 1 2 (by decide) (by decide)).2.1
      (fun kw tok h =>
        (by decide : ∀ p ∈ reservedWords, "printer_2".toList ≠ p.1.toList) (kw, tok) h)⟩

theorem IsDigit_IsVariableChar_ {c : Char} (h : IsDigit_ c = true) :
    IsVariableChar_ c = true := by
  unfold IsDigit_ at h
  unfold IsVariableChar_
  split_ifs at h with hc
  rw [if_pos (Or.inr (Or.inr (Or.inl hc)))]

theorem scanLoop_next (line : List Char) (i j : Nat) (toks toks2 : List Token)
    (hstep : scanStep line i toks = .ok (j, toks2)) (hi : i < line.length)
    (hrest : ∀ fuel, scanLoop line fuel j toks2 = .loop) :
    ∀ fuel, scanLoop line fuel i toks = .loop := by
  intro fuel
  cases fuel with
  | zero => unfold scanLoop; rw [if_pos hi]
  | succ n => unfold scanLoop; rw [if_pos hi, hstep]; exact hrest n

theorem Lexer_new_loop (line : List Char) (k : Nat) (hl : getlines line = [line])
    (hs : stripComment line = line) (he : IsLineEmpty_ line = false)
    (hk : leadingSpaces line 0 = .ok k)
    (hloop : ∀ fuel toks, scanLoop line fuel k toks = .loop) :
    ∀ fuel, Lexer.new fuel line = .loop := by
  intro fuel
  unfold Lexer.new
  rw [hl, ParseInputStream_loop (k := k) (by rw [hs]; exact he) (by rw [hs]; exact hk)]
  rw [hs]
  exact hloop fuel _

/-- C27: when the scan reaches a character that is no space, no backslash, no operator
character, no letter, digit or underscore and no quote, the round of the scan loop leaves
`line_iter` and the token buffer as they are, so the loop never ends, whatever number of
rounds it is given: tokenizing the lines `@`, a tab, `x` followed by a carriage return,
and `x @` never returns. -/
theorem unrecognized_char_never_ends (line : List Char) (i : Nat) (toks : List Token)
    (c : Char) (hc : strAt line i = .ok c) (h1 : c ≠ ' ') (h2 : c ≠ BACKSLASH)
    (h3 : IsOperationChar_ c = false) (h4 : IsVariableChar_ c = false)
    (h5 : c ≠ SQUOTE) (h6 : c ≠ DQUOTE) :
    scanStep line i toks = .ok (i, toks) ∧
    (∀ fuel, scanLoop line fuel i toks = .loop) ∧
    (∀ fuel, Lexer.new fuel ['@'] = .loop) ∧
    (∀ fuel, Lexer.new fuel [TAB] = .loop) ∧
    (∀ fuel, Lexer.new fuel ['x', CR] = .loop) ∧
    (∀ fuel, Lexer.new fuel ['x', ' ', '@'] = .loop) := by
  have key : ∀ (l : List Char) (j : Nat) (ts : List Token) (d : Char),
      strAt l j = .ok d → d ≠ ' ' → d ≠ BACKSLASH → IsOperationChar_ d = false →
      IsVariableChar_ d = false → d ≠ SQUOTE → d ≠ DQUOTE →
      scanStep l j ts = .ok (j, ts) := by
    intro l j ts d hd g1 g2 g3 g4 g5 g6
    have g7 : ¬ IsDigit_ d = true := fun h => by
      rw [IsDigit_IsVariableChar_ h] at g4
      cases g4
    unfold scanStep
    rw [hd]
    dsimp only
    rw [if_neg g1, if_neg g2, if_neg (by rw [g3]; decide), if_neg (by rw [g4]; decide),
      if_neg (fun h => h.elim g5 g6), if_neg g7]
  have hi : i < line.length := by
    unfold strAt at hc
    cases hg : line.get? i with
    | none => rw [hg] at hc; cases hc
    | some d => exact (List.get?_eq_some.1 hg).1
  have stuck : ∀ (l : List Char) (j : Nat) (d : Char), j < l.length →
      strAt l j = .ok d → d ≠ ' ' → d ≠ BACKSLASH → IsOperationChar_ d = false →
      IsVariableChar_ d = false → d ≠ SQUOTE → d ≠ DQUOTE →
      ∀ fuel ts, scanLoop l fuel j ts = .loop := by
    intro l j d hj hd g1 g2 g3 g4 g5 g6 fuel ts
    exact scanLoop_stuck (key l j ts d hd g1 g2 g3 g4 g5 g6) hj fuel
  refine ⟨key line i toks c hc h1 h2 h3 h4 h5 h6,
    scanLoop_stuck (key line i toks c hc h1 h2 h3 h4 h5 h6) hi, ?_, ?_, ?_, ?_⟩
  · exact Lexer_new_loop ['@'] 0 (by decide) (by decide) (by decide) (by decide)
      (stuck ['@'] 0 '@' (by decide) (by decide) (by decide) (by decide) (by decide)
        (by decide) (by decide) (by decide))
  · exact Lexer_new_loop [TAB] 0 (by decide) (by decide) (by decide) (by decide)
      (stuck [TAB] 0 TAB (by decide) (by decide) (by decide) (by decide) (by decide)
        (by decide) (by decide) (by decide))
  · refine Lexer_new_loop ['x', CR] 0 (by decide) (by decide) (by decide) (by decide) ?_
    intro fuel toks
    refine scanLoop_next ['x', CR] 0 1 toks (toks ++ [Token.Id ['x']]) ?_ (by decide)
      (fun f => stuck ['x', CR] 1 CR (by decide) (by decide) (by decide) (by decide)
        (by decide) (by decide) (by decide) (by decide) f _) fuel
    have := AppendTokensList_identifier (w := ['x']) (by decide) (by decide) toks
    unfold scanStep
    simp only [show strAt ['x', CR] 0 = .ok 'x' from rfl]
    rw [if_neg (by decide), if_neg (by decide), if_neg (by decide), if_pos (by decide)]
    have hacc : accumulate (fun x => IsVariableChar_ x || IsDigit_ x)
        (List.drop 0 ['x', CR]) = ['x'] := by decide
    simp only [hacc, this]
    rfl
  · refine Lexer_new_loop ['x', ' ', '@'] 0 (by decide) (by decide) (by decide) (by decide) ?_
    intro fuel toks
    refine scanLoop_next ['x', ' ', '@'] 0 1 toks (toks ++ [Token.Id ['x']]) ?_ (by decide)
      (scanLoop_next ['x', ' ', '@'] 1 2 (toks ++ [Token.Id ['x']])
        (toks ++ [Token.Id ['x']]) ?_ (by decide)
        (fun f => stuck ['x', ' ', '@'] 2 '@' (by decide) (by decide) (by decide) (by decide)
          (by decide) (by decide) (by decide) (by decide) f _)) fuel
    · have := AppendTokensList_identifier (w := ['x']) (by decide) (by decide) toks
      unfold scanStep
      simp only [show strAt ['x', ' ', '@'] 0 = .ok 'x' from rfl]
      rw [if_neg (by decide), if_neg (by decide), if_neg (by decide), if_pos (by decide)]
      have hacc : accumulate (fun x => IsVariableChar_ x || IsDigit_ x)
          (List.drop 0 ['x', ' ', '@']) = ['x'] := by decide
      simp only [hacc, this]
      rfl
    · unfold scanStep
      simp only [show strAt ['x', ' ', '@'] 1 = .ok ' ' from rfl]
      exact if_pos trivial

theorem unrecognized_char_never_ends_witness :
    scanStep ['x', ' ', '@'] 2 [Token.Id ['x']] = .ok (2, [Token.Id ['x']]) ∧
    ∀ fuel, scanLoop ['x', ' ', '@'] fuel 2 [Token.Id ['x']] = .loop :=
  ⟨(unrecognized_char_never_ends ['x', ' ', '@'] 2 [Token.Id ['x']] '@' (by decide)
      (by decide) (by decide) (by decide) (by decide) (by decide) (by decide)).1,
    (unrecognized_char_never_ends ['x', ' ', '@'] 2 [Token.Id ['x']] '@' (by decide)
      (by decide) (by decide) (by decide) (by decide) (by decide) (by decide)).2.1⟩

theorem accumulate_eq_takeWhile (P : Char → Bool) (hsp : P ' ' = false) :
    ∀ l : List Char, accumulate P l = l.takeWhile P := by
  intro l
  induction l with
  | nil => rfl
  | cons c cs ih =>
    unfold accumulate
    by_cases hc : P c = true
    · have hne : c ≠ ' ' := by
        rintro rfl
        rw [hsp] at hc
        cases hc
      rw [if_pos ⟨hc, hne⟩, List.takeWhile_cons, hc, ih]
      rfl
    · rw [if_neg (fun h => hc h.1), List.takeWhile_cons]
      simp [hc]

theorem KeyWordToToken_none_of_head {c : Char} {cs : List Char}
    (h : isLetter c = false) : KeyWordToToken_ (c :: cs) = none := by
  unfold KeyWordToToken_
  have key : ∀ (s : String), (∀ d ds, s.toList = d :: ds → isLetter d = true) →
      c :: cs ≠ s.toList := by
    intro s hs heq
    have := hs c cs heq.symm
    rw [h] at this
    cases this
  rw [if_neg (key "class" (by intro d ds hd; cases hd; decide)),
    if_neg (key "return" (by intro d ds hd; cases hd; decide)),
    if_neg (key "if" (by intro d ds hd; cases hd; decide)),
    if_neg (key "else" (by intro d ds hd; cases hd; decide)),
    if_neg (key "def" (by intro d ds hd; cases hd; decide)),
    if_neg (key "print" (by intro d ds hd; cases hd; decide)),
    if_neg (key "and" (by intro d ds hd; cases hd; decide)),
    if_neg (key "or" (by intro d ds hd; cases hd; decide)),
    if_neg (key "None" (by intro d ds hd; cases hd; decide)),
    if_neg (key "True" (by intro d ds hd; cases hd; decide)),
    if_neg (key "False" (by intro d ds hd; cases hd; decide)),
    if_neg (key "not" (by intro d ds hd; cases hd; decide))]

theorem drop_of_strAt {line : List Char} {i : Nat} {c : Char} (hc : strAt line i = .ok c) :
    line.drop i = c :: line.drop (i + 1) := by
  unfold strAt at hc
  cases hg : line.get? i with
  | none => rw [hg] at hc; cases hc
  | some d =>
    rw [hg] at hc
    cases hc
    obtain ⟨hi, hd⟩ := List.get?_eq_some.1 hg
    rw [List.drop_eq_getElem_cons hi]
    congr 1

theorem IsDigit_facts {c : Char} (h : IsDigit_ c = true) :
    isLetter c = false ∧ IsVariableChar_ c = true := by
  refine ⟨?_, IsDigit_IsVariableChar_ h⟩
  unfold IsDigit_ at h
  split_ifs at h with hc
  unfold isLetter
  rw [decide_eq_false_iff_not]
  rintro (⟨h1, -⟩ | ⟨h1, -⟩)
  · exact absurd (le_trans h1 hc.2) (by decide)
  · exact absurd (le_trans h1 hc.2) (by decide)

theorem IsOperationChar_facts {c : Char} (h : IsOperationChar_ c = true) :
    c ≠ ' ' ∧ c ≠ BACKSLASH ∧ isLetter c = false := by
  refine ⟨?_, ?_, ?_⟩
  · rintro rfl; revert h; decide
  · rintro rfl; revert h; decide
  · cases hl : isLetter c with
    | false => rfl
    | true =>
      exfalso
      have hv : IsVariableChar_ c = true := by
        unfold isLetter at hl
        unfold IsVariableChar_
        rw [decide_eq_true_eq] at hl
        rw [if_pos]
        rcases hl with hl | hl
        · exact Or.inl hl
        · exact Or.inr (Or.inl hl)
      rw [(IsVariableChar_facts hv).2.2.2.2.2.2] at h
      cases h

theorem wordRun_digits (line : List Char) (i : Nat)
    (h : IsNumber_ (wordRun line i) = true) : wordRun line i = digitRun line i := by
  unfold wordRun digitRun IsNumber_ at *
  generalize line.drop i = l at h
  induction l with
  | nil => rfl
  | cons c cs ih =>
    by_cases hv : IsVariableChar_ c = true
    · have e1 : List.takeWhile IsVariableChar_ (c :: cs) =
          c :: List.takeWhile IsVariableChar_ cs := by
        rw [List.takeWhile_cons, if_pos hv]
      rw [e1, List.all_cons, Bool.and_eq_true] at h
      rw [e1, List.takeWhile_cons, if_pos h.1, ih h.2]
    · have hd : ¬ IsDigit_ c = true := fun hd => hv (IsDigit_IsVariableChar_ hd)
      rw [List.takeWhile_cons, if_neg hv, List.takeWhile_cons, if_neg hd]

/-- C24, counterexample: the line `12ab` gives no token: the digit starts the branch of
variable names, which collects `12ab`, and `AppendTokensList_` throws `LexerError`. -/
theorem digits_then_letters_rejected :
    wordRun "12ab".toList 0 = "12ab".toList ∧
    scanStep "12ab".toList 0 [] = .raise (.LexerError "invalid input") ∧
    tokenStream 9 9 "12ab".toList = .raise (.LexerError "invalid input") := by
  decide

/-- C24, amended: when the scan reaches a decimal digit, the lexer collects the maximal
run of letters, digits and underscores that starts there. When the run is all digits, so
that it is the maximal run of digits, and its base-10 value fits an `int`, one `Number`
token with that value is emitted and the scan resumes after the run; when the value does
not fit, `stoi` throws `out_of_range`; when the run holds a letter or an underscore, the
lexer throws `LexerError`. -/
theorem digit_start (line : List Char) (i : Nat) (toks : List Token) (c : Char)
    (hc : strAt line i = .ok c) (hd : IsDigit_ c = true) :
    (IsNumber_ (wordRun line i) = true → (digitsValue (wordRun line i) : Int) ≤ INT_MAX →
      wordRun line i = digitRun line i ∧
      scanStep line i toks =
        .ok (i + (digitRun line i).length,
          toks ++ [Token.Number (digitsValue (digitRun line i))])) ∧
    (IsNumber_ (wordRun line i) = true → (digitsValue (wordRun line i) : Int) > INT_MAX →
      scanStep line i toks = .raise .out_of_range) ∧
    (IsNumber_ (wordRun line i) = false →
      scanStep line i toks = .raise (.LexerError "invalid input")) := by
  obtain ⟨hlet, hv⟩ := IsDigit_facts hd
  obtain ⟨g1, -, -, g4, g5, g6, g7⟩ := IsVariableChar_facts hv
  have hdrop := drop_of_strAt hc
  have hfun : (fun x => IsVariableChar_ x || IsDigit_ x) = IsVariableChar_ := by
    funext x
    cases hx : IsDigit_ x with
    | false => simp
    | true => simp [IsDigit_IsVariableChar_ hx]
  have hacc : accumulate (fun x => IsVariableChar_ x || IsDigit_ x) (line.drop i) =
      wordRun line i := by
    rw [hfun, accumulate_eq_takeWhile IsVariableChar_ (by decide)]
    rfl
  obtain ⟨cs, hw⟩ : ∃ cs, wordRun line i = c :: cs := by
    unfold wordRun
    rw [hdrop, List.takeWhile_cons, hv]
    exact ⟨_, rfl⟩
  have hstep : scanStep line i toks =
      match AppendTokensList_ toks (wordRun line i) with
      | .ok r => .ok (i + (wordRun line i).length, r)
      | .raise e => .raise e
      | .undefined => .undefined
      | .loop => .loop := by
    unfold scanStep
    rw [hc]
    dsimp only
    rw [if_neg g1, if_neg g6, if_neg (by rw [g7]; decide), if_pos hv, hacc]
  have happ : AppendTokensList_ toks (wordRun line i) =
      if IsNumber_ (wordRun line i) = true then
        match stoi (wordRun line i) with
        | .ok v => .ok (toks ++ [Token.Number v])
        | .raise e => .raise e
        | .undefined => .undefined
        | .loop => .loop
      else .raise (.LexerError "invalid input") := by
    have hop : IsOperatinString_ (c :: cs) = false := by
      simp [IsOperatinString_, g7]
    have hname : IsVariableName_ (c :: cs) = .ok false := by
      unfold IsVariableName_
      dsimp only
      rw [if_pos (fun h => h.2 hd)]
    have hat : strAt (c :: cs) 0 = .ok c := rfl
    unfold AppendTokensList_
    rw [hw, KeyWordToToken_none_of_head hlet]
    dsimp only
    rw [OperationToToken_none_of_head g7]
    dsimp only
    rw [if_neg (by rw [hop]; decide)]
    by_cases hn : IsNumber_ (c :: cs) = true
    · rw [if_pos hn, if_pos hn]
    · rw [if_neg hn, if_neg hn, hname]
      dsimp only
      rw [hat]
      dsimp only
      rw [if_neg (fun h => h.elim g4 g5)]
  refine ⟨?_, ?_, ?_⟩
  · intro hn hfit
    have heq := wordRun_digits line i hn
    refine ⟨heq, ?_⟩
    rw [hstep, happ, if_pos hn]
    unfold stoi
    rw [if_neg (not_lt.2 hfit), heq]
  · intro hn hbig
    rw [hstep, happ, if_pos hn]
    unfold stoi
    rw [if_pos hbig]
  · intro hn
    rw [hstep, happ, if_neg (by rw [hn]; decide)]

theorem digit_start_witness :
    scanStep "x = 12".toList 4 [Token.Id ['x'], Token.Char '='] =
      .ok (4 + (digitRun "x = 12".toList 4).length,
        [Token.Id ['x'], Token.Char '='] ++
          [Token.Number (digitsValue (digitRun "x = 12".toList 4))]) ∧
    digitRun "x = 12".toList 4 = ['1', '2'] ∧ digitsValue ['1', '2'] = 12 ∧
    scanStep "3000000000".toList 0 [] = .raise .out_of_range ∧
    scanStep "7_".toList 0 [] = .raise (.LexerError "invalid input") :=
  ⟨((digit_start "x = 12".toList 4 [Token.Id ['x'], Token.Char '='] '1' (by decide)
      (by decide)).1 (by decide) (by decide)).2, by decide, by decide,
    (digit_start "3000000000".toList 0 [] '3' (by decide) (by decide)).2.1 (by decide)
      (by decide),
    (digit_start "7_".toList 0 [] '7' (by decide) (by decide)).2.2 (by decide)⟩

/-- C25: when the scan reaches an operator character, the lexer collects the maximal run
of operator characters that starts there and resumes after it; it emits the one token
`Eq`, `NotEq`, `LessOrEq` or `GreaterOrEq` when the run is exactly `==`, `!=`, `<=` or
`>=`, and otherwise one `Char` token for each character of the run, in order. -/
theorem operator_run (line : List Char) (i : Nat) (toks : List Token) (c : Char)
    (hc : strAt line i = .ok c) (hop : IsOperationChar_ c = true) :
    (operatorRun line i = "==".toList →
      scanStep line i toks = .ok (i + 2, toks ++ [Token.Eq])) ∧
    (operatorRun line i = "!=".toList →
      scanStep line i toks = .ok (i + 2, toks ++ [Token.NotEq])) ∧
    (operatorRun line i = "<=".toList →
      scanStep line i toks = .ok (i + 2, toks ++ [Token.LessOrEq])) ∧
    (operatorRun line i = ">=".toList →
      scanStep line i toks = .ok (i + 2, toks ++ [Token.GreaterOrEq])) ∧
    (operatorRun line i ≠ "==".toList → operatorRun line i ≠ "!=".toList →
      operatorRun line i ≠ "<=".toList → operatorRun line i ≠ ">=".toList →
      scanStep line i toks =
        .ok (i + (operatorRun line i).length,
          toks ++ (operatorRun line i).map Token.Char)) := by
  obtain ⟨g1, g2, hlet⟩ := IsOperationChar_facts hop
  have hdrop := drop_of_strAt hc
  have hacc : accumulate IsOperationChar_ (line.drop i) = operatorRun line i := by
    rw [accumulate_eq_takeWhile IsOperationChar_ (by decide)]
    rfl
  obtain ⟨cs, hw⟩ : ∃ cs, operatorRun line i = c :: cs := by
    unfold operatorRun
    rw [hdrop, List.takeWhile_cons, if_pos hop]
    exact ⟨_, rfl⟩
  have hstep : scanStep line i toks =
      match AppendTokensList_ toks (operatorRun line i) with
      | .ok r => .ok (i + (operatorRun line i).length, r)
      | .raise e => .raise e
      | .undefined => .undefined
      | .loop => .loop := by
    unfold scanStep
    rw [hc]
    dsimp only
    rw [if_neg g1, if_neg g2, if_pos hop, hacc]
  have hkey : KeyWordToToken_ (operatorRun line i) = none := by
    rw [hw]
    exact KeyWordToToken_none_of_head hlet
  have hall : IsOperatinString_ (operatorRun line i) = true := by
    unfold IsOperatinString_ operatorRun
    rw [List.all_eq_true]
    intro x hx
    exact List.mem_takeWhile_imp hx
  refine ⟨?_, ?_, ?_, ?_, ?_⟩
  · intro h
    rw [hstep, h]
    rfl
  · intro h
    rw [hstep, h]
    rfl
  · intro h
    rw [hstep, h]
    rfl
  · intro h
    rw [hstep, h]
    rfl
  · intro h1 h2 h3 h4
    have happ : AppendTokensList_ toks (operatorRun line i) =
        .ok (toks ++ (operatorRun line i).map Token.Char) := by
      unfold AppendTokensList_
      rw [hkey]
      dsimp only
      unfold OperationToToken_
      rw [if_neg h2, if_neg h1, if_neg h4, if_neg h3]
      dsimp only
      rw [if_pos hall]
    rw [hstep, happ]

theorem operator_run_witness :
    scanStep "==(".toList 0 [] =
      .ok (0 + (operatorRun "==(".toList 0).length,
        [] ++ (operatorRun "==(".toList 0).map Token.Char) ∧
    operatorRun "==(".toList 0 = ['=', '=', '('] ∧
    scanStep "a == b".toList 2 [Token.Id ['a']] = .ok (2 + 2, [Token.Id ['a']] ++ [Token.Eq]) ∧
    tokenStream 9 9 "==(".toList =
      .ok [Token.Char '=', Token.Char '=', Token.Char '(', Token.Newline, Token.Eof] ∧
    tokenStream 9 9 "a == b".toList =
      .ok [Token.Id ['a'], Token.Eq, Token.Id ['b'], Token.Newline, Token.Eof] :=
  ⟨(operator_run "==(".toList 0 [] '=' (by decide) (by decide)).2.2.2.2 (by decide)
      (by decide) (by decide) (by decide),
    by decide,
    (operator_run "a == b".toList 2 [Token.Id ['a']] '=' (by decide) (by decide)).1
      (by decide),
    by decide, by decide⟩

theorem leadingSpaces_ok : ∀ (l : List Char) (n : Nat), (∃ c ∈ l, c ≠ ' ') →
    ∃ k, leadingSpaces l n = .ok k := by
  intro l
  induction l with
  | nil =>
    rintro n ⟨c, hc, -⟩
    cases hc
  | cons c cs ih =>
    intro n h
    unfold leadingSpaces
    by_cases hc : c = ' '
    · rw [if_pos hc]
      apply ih
      obtain ⟨x, hx, hne⟩ := h
      rcases List.mem_cons.1 hx with rfl | hx
      · exact absurd hc hne
      · exact ⟨x, hx, hne⟩
    · rw [if_neg hc]
      exact ⟨n, rfl⟩

theorem not_blank_has_char {l : List Char} (h : IsLineEmpty_ l = false) :
    ∃ c ∈ l, c ≠ ' ' := by
  unfold IsLineEmpty_ at h
  split_ifs at h with h0
  have h2 : ¬ (l.all (fun c => decide (c = ' ')) = true) := by
    rw [h]
    decide
  rw [List.all_eq_true] at h2
  push_neg at h2
  obtain ⟨c, hc, hne⟩ := h2
  exact ⟨c, hc, by simpa using hne⟩

/-- C28, counterexample: the lines `  12ab` and `@` are not blank, and no `Newline` is
emitted for them: on the first the scan throws `LexerError`, on the second it never
ends, whatever number of rounds it is given. -/
theorem line_without_Newline :
    blankLine "  12ab".toList = false ∧
    ParseInputStream_ 9 ["  12ab".toList] (Lexer.mk [] [] 0 false 0) =
      .raise (.LexerError "invalid input") ∧
    blankLine ['@'] = false ∧
    ∀ fuel, ParseInputStream_ fuel [['@']] (Lexer.mk [] [] 0 false 0) = .loop := by
  refine ⟨by decide, by decide, by decide, ?_⟩
  intro fuel
  rw [ParseInputStream_loop (k := 0) (by decide) (by decide)]
  have hs : stripComment ['@'] = ['@'] := by decide
  rw [hs]
  exact scanLoop_stuck (by decide) (by decide) fuel

/-- C28, amended: a line that is blank after comment stripping adds no token and leaves
the lexer as it is, the next line being read in its place. For a line that is not blank,
with `k` leading spaces, read when the previous level is `P`: when the scan of the line
returns, the tokens added are `k / 2 - P` times `Indent` when `k / 2 > P`, `P - k / 2`
times `Dedent` when `k / 2 < P` and none when they are equal, then the tokens of the
words of the line, none of which is a layout token, then one `Newline`, and the level
becomes `k / 2`; when the scan throws or does not end, so does the reading of the line,
and no `Newline` is added. -/
theorem line_layout (fuel : Nat) (line0 : List Char) (rest : List (List Char))
    (lx : Lexer) :
    (blankLine line0 = true →
      ParseInputStream_ fuel (line0 :: rest) lx = ParseInputStream_ fuel rest lx) ∧
    (blankLine line0 = false →
      ∃ k, leadingSpaces (stripComment line0) 0 = .ok k ∧
        k = ((stripComment line0).takeWhile (fun c => decide (c = ' '))).length ∧
        (∀ toks2, scanLoop (stripComment line0) fuel k
            (lx.tokens_list_ ++ indentTokens (k / 2) lx.previous_indent_) = .ok toks2 →
          ParseInputStream_ fuel (line0 :: rest) lx =
            .ok (true, Lexer.mk (toks2 ++ [Token.Newline]) rest lx.current_token_ lx.eof
              (k / 2)) ∧
          ∃ ex, toks2 = lx.tokens_list_ ++ indentTokens (k / 2) lx.previous_indent_ ++ ex ∧
            ∀ t ∈ ex, t.isLayout = false) ∧
        (∀ e, scanLoop (stripComment line0) fuel k
            (lx.tokens_list_ ++ indentTokens (k / 2) lx.previous_indent_) = .raise e →
          ParseInputStream_ fuel (line0 :: rest) lx = .raise e) ∧
        (scanLoop (stripComment line0) fuel k
            (lx.tokens_list_ ++ indentTokens (k / 2) lx.previous_indent_) = .loop →
          ParseInputStream_ fuel (line0 :: rest) lx = .loop)) ∧
    (∀ L P, P < L → indentTokens L P = List.replicate (L - P) Token.Indent) ∧
    (∀ L P, L < P → indentTokens L P = List.replicate (P - L) Token.Dedent) ∧
    (∀ L, indentTokens L L = []) := by
  refine ⟨?_, ?_, ?_, ?_, ?_⟩
  · intro hb
    have hb2 : IsLineEmpty_ (stripComment line0) = true := hb
    rw [ParseInputStream_]
    dsimp only
    rw [if_pos hb2]
  · intro hb
    have hb2 : IsLineEmpty_ (stripComment line0) = false := hb
    obtain ⟨k, hk⟩ := leadingSpaces_ok (stripComment line0) 0 (not_blank_has_char hb)
    have hstep : ParseInputStream_ fuel (line0 :: rest) lx =
        match scanLoop (stripComment line0) fuel k
            (lx.tokens_list_ ++ indentTokens (k / 2) lx.previous_indent_) with
        | .ok toks2 =>
          .ok (true, Lexer.mk (toks2 ++ [Token.Newline]) rest lx.current_token_ lx.eof
            (k / 2))
        | .raise e => .raise e
        | .undefined => .undefined
        | .loop => .loop := by
      rw [ParseInputStream_]
      dsimp only
      rw [if_neg (by rw [hb2]; decide), hk]
    refine ⟨k, hk, ?_, ?_, ?_, ?_⟩
    · have := leadingSpaces_eq _ _ _ hk
      omega
    · intro toks2 hscan
      constructor
      · rw [hstep, hscan]
      · obtain ⟨ex, hex, hw⟩ := scanLoop_appends _ _ _ _ _ hscan
        exact ⟨ex, hex, fun t ht => (hw t ht).1⟩
    · intro e hscan
      rw [hstep, hscan]
    · intro hscan
      rw [hstep, hscan]
  · intro L P h
    unfold indentTokens
    rw [if_pos (by omega), if_pos h]
  · intro L P h
    unfold indentTokens
    rw [if_pos (by omega), if_neg (by omega)]
  · intro L
    unfold indentTokens
    rw [if_neg (by simp)]

theorem line_layout_witness :
    ParseInputStream_ 9 ["  # c".toList, "x".toList] (Lexer.mk [] [] 0 false 0) =
      ParseInputStream_ 9 ["x".toList] (Lexer.mk [] [] 0 false 0) ∧
    ParseInputStream_ 9 ["   y".toList] (Lexer.mk [] [] 0 false 0) =
      .ok (true, Lexer.mk ([Token.Indent, Token.Id ['y']] ++ [Token.Newline]) [] 0 false
        (3 / 2)) ∧
    tokenStream 9 20 "if x:\n   y\n\n # c\nz".toList =
      .ok [Token.If, Token.Id ['x'], Token.Char ':', Token.Newline, Token.Indent,
        Token.Id ['y'], Token.Newline, Token.Dedent, Token.Id ['z'], Token.Newline,
        Token.Eof] := by
  refine ⟨(line_layout 9 "  # c".toList ["x".toList] (Lexer.mk [] [] 0 false 0)).1
    (by decide), ?_, by decide⟩
  obtain ⟨k, -, hk, hok, -, -⟩ :=
    (line_layout 9 "   y".toList [] (Lexer.mk [] [] 0 false 0)).2.1 (by decide)
  have h3 : k = 3 := by
    rw [hk]
    decide
  subst h3
  exact (hok [Token.Indent, Token.Id ['y']] (by decide)).1

end parse
end Mython

namespace Mython
namespace ast
open runtime

/-! ## Properties of the runtime -/

theorem Res.bind_ok {ε α β : Type} (a : α) (f : α → Res ε β) : (Res.ok a).bind f = f a := rfl

theorem Res.bind_eq_ok {ε α β : Type} {r : Res ε α} {f : α → Res ε β} {b : β}
    (h : r.bind f = .ok b) : ∃ a, r = .ok a ∧ f a = .ok b := by
  cases r with
  | ok a => exact ⟨a, rfl, h⟩
  | raise e => cases h
  | undefined => cases h
  | loop => cases h

/-- C8: `Div` on operands that evaluate to `Number a` and `Number 0` throws nothing: the
division is carried out, and integer division by zero has no result. -/
theorem Div_by_zero_not_raised (a : Int) (fuel : Nat) :
    Execute (fuel + 1) (.VariableValue ["a"]) 0
        (globalState [("a", some (.Number a)), ("zero", some (.Number 0))]) =
      .ok (some (.Number a), globalState [("a", some (.Number a)), ("zero", some (.Number 0))]) ∧
    Execute (fuel + 1) (.VariableValue ["zero"]) 0
        (globalState [("a", some (.Number a)), ("zero", some (.Number 0))]) =
      .ok (some (.Number 0), globalState [("a", some (.Number a)), ("zero", some (.Number 0))]) ∧
    Execute (fuel + 2) (.Div (.VariableValue ["a"]) (.VariableValue ["zero"])) 0
        (globalState [("a", some (.Number a)), ("zero", some (.Number 0))]) = .undefined ∧
    ∀ e st, Execute (fuel + 2) (.Div (.VariableValue ["a"]) (.VariableValue ["zero"])) 0
        (globalState [("a", some (.Number a)), ("zero", some (.Number 0))]) ≠ .raise (e, st) := by
  have h1 : Execute (fuel + 1) (.VariableValue ["a"]) 0
        (globalState [("a", some (.Number a)), ("zero", some (.Number 0))]) =
      .ok (some (.Number a), globalState [("a", some (.Number a)), ("zero", some (.Number 0))]) := rfl
  have h2 : Execute (fuel + 1) (.VariableValue ["zero"]) 0
        (globalState [("a", some (.Number a)), ("zero", some (.Number 0))]) =
      .ok (some (.Number 0), globalState [("a", some (.Number a)), ("zero", some (.Number 0))]) := rfl
  have h3 : Execute (fuel + 2) (.Div (.VariableValue ["a"]) (.VariableValue ["zero"])) 0
        (globalState [("a", some (.Number a)), ("zero", some (.Number 0))]) = .undefined := by
    rw [Execute, h1, Res.bind_ok]
    simp only [h2, Res.bind_ok]
    rfl
  refine ⟨h1, h2, h3, ?_⟩
  intro e st h
  rw [h3] at h
  cases h

theorem isNumber_cases {lhs rhs : ObjectHolder}
    (h : isNumber lhs = false ∨ isNumber rhs = false) :
    ∀ a b, ¬ (lhs = some (.Number a) ∧ rhs = some (.Number b)) := by
  rintro a b ⟨rfl, rfl⟩
  simp [isNumber] at h

theorem Sub_eq {fuel : Nat} {lhs_ rhs_ : Statement} {closure : Nat} {st st1 st2 : State}
    {lhs rhs : ObjectHolder} :
    Execute fuel lhs_ closure st = .ok (lhs, st1) →
    Execute fuel rhs_ closure st1 = .ok (rhs, st2) →
    Execute (fuel + 1) (.Sub lhs_ rhs_) closure st =
      match lhs, rhs with
      | some (.Number left), some (.Number right) =>
        .ok (some (.Number (wrapInt (left - right))), st2)
      | _, _ => .raise (.runtime_error "Unable to subtract numbers", st2) := by
  intro hl hr
  rw [Execute, hl, Res.bind_ok]
  simp only [hr, Res.bind_ok]

theorem Mult_eq {fuel : Nat} {lhs_ rhs_ : Statement} {closure : Nat} {st st1 st2 : State}
    {lhs rhs : ObjectHolder} :
    Execute fuel lhs_ closure st = .ok (lhs, st1) →
    Execute fuel rhs_ closure st1 = .ok (rhs, st2) →
    Execute (fuel + 1) (.Mult lhs_ rhs_) closure st =
      match lhs, rhs with
      | some (.Number left), some (.Number right) =>
        .ok (some (.Number (wrapInt (left * right))), st2)
      | _, _ => .raise (.runtime_error "Unable to multiplicate numbers", st2) := by
  intro hl hr
  rw [Execute, hl, Res.bind_ok]
  simp only [hr, Res.bind_ok]

theorem Div_eq {fuel : Nat} {lhs_ rhs_ : Statement} {closure : Nat} {st st1 st2 : State}
    {lhs rhs : ObjectHolder} :
    Execute fuel lhs_ closure st = .ok (lhs, st1) →
    Execute fuel rhs_ closure st1 = .ok (rhs, st2) →
    Execute (fuel + 1) (.Div lhs_ rhs_) closure st =
      match lhs, rhs with
      | some (.Number left), some (.Number right) =>
        match divInt left right with
        | some q => .ok (some (.Number q), st2)
        | none => .undefined
      | _, _ => .raise (.runtime_error "Unable to divide numbers", st2) := by
  intro hl hr
  rw [Execute, hl, Res.bind_ok]
  simp only [hr, Res.bind_ok]

/-- C9: when both operands have been evaluated and one of them is not a `Number`, `Sub`,
`Mult` and `Div` throw `runtime_error`; and whenever one of the three returns, both
operands evaluated to `Number`s and the value returned is a `Number`. -/
theorem arithmetic_needs_numbers (fuel : Nat) (lhs_ rhs_ : Statement) (closure : Nat)
    (st st1 st2 : State) (lhs rhs : ObjectHolder)
    (hl : Execute fuel lhs_ closure st = .ok (lhs, st1))
    (hr : Execute fuel rhs_ closure st1 = .ok (rhs, st2)) :
    ((isNumber lhs = false ∨ isNumber rhs = false) →
      Execute (fuel + 1) (.Sub lhs_ rhs_) closure st =
        .raise (.runtime_error "Unable to subtract numbers", st2) ∧
      Execute (fuel + 1) (.Mult lhs_ rhs_) closure st =
        .raise (.runtime_error "Unable to multiplicate numbers", st2) ∧
      Execute (fuel + 1) (.Div lhs_ rhs_) closure st =
        .raise (.runtime_error "Unable to divide numbers", st2)) ∧
    (∀ (l r : Statement) (c : Nat) (s s2 : State) (v : ObjectHolder),
      (Execute (fuel + 1) (.Sub l r) c s = .ok (v, s2) ∨
       Execute (fuel + 1) (.Mult l r) c s = .ok (v, s2) ∨
       Execute (fuel + 1) (.Div l r) c s = .ok (v, s2)) →
      ∃ a b s1, Execute fuel l c s = .ok (some (.Number a), s1) ∧
        Execute fuel r c s1 = .ok (some (.Number b), s2) ∧ isNumber v = true) := by
  constructor
  · intro hnot
    have hc := isNumber_cases hnot
    rw [Sub_eq hl hr, Mult_eq hl hr, Div_eq hl hr]
    refine ⟨?_, ?_, ?_⟩ <;>
    · split
      · exact absurd ⟨rfl, rfl⟩ (hc _ _)
      · rfl
  · intro l r c s s2 v h
    rcases h with h | h | h
    · rw [Execute] at h
      obtain ⟨⟨x, s1⟩, h1, h⟩ := Res.bind_eq_ok h
      obtain ⟨⟨y, s3⟩, h2, h3⟩ := Res.bind_eq_ok h
      simp only at h3
      split at h3
      · cases h3
        exact ⟨_, _, s1, h1, h2, rfl⟩
      · cases h3
    · rw [Execute] at h
      obtain ⟨⟨x, s1⟩, h1, h⟩ := Res.bind_eq_ok h
      obtain ⟨⟨y, s3⟩, h2, h3⟩ := Res.bind_eq_ok h
      simp only at h3
      split at h3
      · cases h3
        exact ⟨_, _, s1, h1, h2, rfl⟩
      · cases h3
    · rw [Execute] at h
      obtain ⟨⟨x, s1⟩, h1, h⟩ := Res.bind_eq_ok h
      obtain ⟨⟨y, s3⟩, h2, h3⟩ := Res.bind_eq_ok h
      simp only at h3
      split at h3
      · split at h3
        · cases h3
          exact ⟨_, _, s1, h1, h2, rfl⟩
        · cases h3
      · cases h3

theorem arithmetic_needs_numbers_witness :
    Execute 1 (.VariableValue ["a"]) 0
        (globalState [("a", some (.String "a")), ("b", some (.String "b"))]) =
      .ok (some (.String "a"), globalState [("a", some (.String "a")), ("b", some (.String "b"))]) ∧
    Execute 1 (.VariableValue ["b"]) 0
        (globalState [("a", some (.String "a")), ("b", some (.String "b"))]) =
      .ok (some (.String "b"), globalState [("a", some (.String "a")), ("b", some (.String "b"))]) ∧
    Execute 2 (.Sub (.VariableValue ["a"]) (.VariableValue ["b"])) 0
        (globalState [("a", some (.String "a")), ("b", some (.String "b"))]) =
      .raise (.runtime_error "Unable to subtract numbers",
        globalState [("a", some (.String "a")), ("b", some (.String "b"))]) :=
  ⟨rfl, rfl,
    ((arithmetic_needs_numbers 1 (.VariableValue ["a"]) (.VariableValue ["b"]) 0
      (globalState [("a", some (.String "a")), ("b", some (.String "b"))]) _ _
      (some (.String "a")) (some (.String "b")) rfl rfl).1 (Or.inl rfl)).1⟩

theorem wrapInt_of_int {x : Int} (h1 : INT_MIN ≤ x) (h2 : x ≤ INT_MAX) : wrapInt x = x := by
  unfold wrapInt
  unfold INT_MIN at *
  unfold INT_MAX at h2
  rw [Int.emod_eq_of_lt (by omega) (by omega)]
  omega

theorem Add_eq {fuel : Nat} {lhs_ rhs_ : Statement} {closure : Nat} {st st1 st2 : State}
    {lhs rhs : ObjectHolder} :
    Execute fuel lhs_ closure st = .ok (lhs, st1) →
    Execute fuel rhs_ closure st1 = .ok (rhs, st2) →
    Execute (fuel + 1) (.Add lhs_ rhs_) closure st =
      match lhs, rhs with
      | some (.Number left), some (.Number right) =>
        .ok (some (.Number (wrapInt (left + right))), st2)
      | some (.String left), some (.String right) =>
        .ok (some (.String (left ++ right)), st2)
      | some (.ClassInstance addr), _ =>
        match st2.class? addr with
        | none => .undefined
        | some cls_ =>
          if cls_.HasMethod "__add__" 1 = true then
            Call (Execute fuel) addr "__add__" [rhs] st2
          else .raise (.runtime_error "Unable to add objects", st2)
      | _, _ => .raise (.runtime_error "Unable to add objects", st2) := by
  intro hl hr
  rw [Execute, hl, Res.bind_ok]
  simp only [hr, Res.bind_ok]

/-- C10: with both operands evaluated, `Add` returns the `int` sum of two `Number`s (the
exact sum when it fits an `int`), the concatenation of two `String`s, the result of
`Call("__add__", {rhs})` on a left operand that is a class instance whose class has
`__add__` with one argument, and throws `runtime_error` in every other case: a class
instance without such a method, or a left operand that is no instance when the operands
are not two `Number`s or two `String`s. -/
theorem Add_dispatch (fuel : Nat) (lhs_ rhs_ : Statement) (closure : Nat)
    (st st1 st2 : State) (lhs rhs : ObjectHolder)
    (hl : Execute fuel lhs_ closure st = .ok (lhs, st1))
    (hr : Execute fuel rhs_ closure st1 = .ok (rhs, st2)) :
    (∀ a b, lhs = some (.Number a) → rhs = some (.Number b) →
      Execute (fuel + 1) (.Add lhs_ rhs_) closure st =
        .ok (some (.Number (wrapInt (a + b))), st2) ∧
      (INT_MIN ≤ a + b → a + b ≤ INT_MAX → wrapInt (a + b) = a + b)) ∧
    (∀ s t, lhs = some (.String s) → rhs = some (.String t) →
      Execute (fuel + 1) (.Add lhs_ rhs_) closure st = .ok (some (.String (s ++ t)), st2)) ∧
    (∀ addr cls, lhs = some (.ClassInstance addr) → st2.class? addr = some cls →
      cls.HasMethod "__add__" 1 = true →
      Execute (fuel + 1) (.Add lhs_ rhs_) closure st =
        Call (Execute fuel) addr "__add__" [rhs] st2) ∧
    (∀ addr cls, lhs = some (.ClassInstance addr) → st2.class? addr = some cls →
      cls.HasMethod "__add__" 1 = false →
      Execute (fuel + 1) (.Add lhs_ rhs_) closure st =
        .raise (.runtime_error "Unable to add objects", st2)) ∧
    (isClassInstance lhs = false →
      (¬ ∃ a b, lhs = some (.Number a) ∧ rhs = some (.Number b)) →
      (¬ ∃ s t, lhs = some (.String s) ∧ rhs = some (.String t)) →
      Execute (fuel + 1) (.Add lhs_ rhs_) closure st =
        .raise (.runtime_error "Unable to add objects", st2)) := by
  have key := Add_eq hl hr
  refine ⟨?_, ?_, ?_, ?_, ?_⟩
  · rintro a b rfl rfl
    exact ⟨key, wrapInt_of_int⟩
  · rintro s t rfl rfl
    exact key
  · rintro addr cls rfl hc hm
    rw [key]
    simp only [hc, hm, if_true]
  · rintro addr cls rfl hc hm
    rw [key]
    simp only [hc, hm]
    rfl
  · intro hi hn hs
    rw [key]
    split
    · exact absurd ⟨_, _, rfl, rfl⟩ hn
    · exact absurd ⟨_, _, rfl, rfl⟩ hs
    · simp [isClassInstance] at hi
    · rfl

theorem Add_dispatch_witness :
    Execute 1 (.VariableValue ["x"]) 0
        (globalState [("x", some (.String "he")), ("y", some (.String "llo"))]) =
      .ok (some (.String "he"),
        globalState [("x", some (.String "he")), ("y", some (.String "llo"))]) ∧
    Execute 1 (.VariableValue ["y"]) 0
        (globalState [("x", some (.String "he")), ("y", some (.String "llo"))]) =
      .ok (some (.String "llo"),
        globalState [("x", some (.String "he")), ("y", some (.String "llo"))]) ∧
    Execute 2 (.Add (.VariableValue ["x"]) (.VariableValue ["y"])) 0
        (globalState [("x", some (.String "he")), ("y", some (.String "llo"))]) =
      .ok (some (.String ("he" ++ "llo")),
        globalState [("x", some (.String "he")), ("y", some (.String "llo"))]) ∧
    "he" ++ "llo" = "hello" :=
  ⟨rfl, rfl,
    (Add_dispatch 1 (.VariableValue ["x"]) (.VariableValue ["y"]) 0
      (globalState [("x", some (.String "he")), ("y", some (.String "llo"))]) _ _
      (some (.String "he")) (some (.String "llo")) rfl rfl).2.1 "he" "llo" rfl rfl,
    by decide⟩

/-- C11: `IsTrue` is true exactly on a `Number` different from `0`, on `Bool` true and on
a `String` of length different from `0`; so it is false on `Number 0`, `Bool` false, the
empty `String`, the empty holder, every `Class` and every `ClassInstance`. -/
theorem IsTrue_iff (h : ObjectHolder) :
    (IsTrue h = true ↔
      ((∃ n : Int, h = some (.Number n) ∧ n ≠ 0) ∨ h = some (.Bool true) ∨
        (∃ s : String, h = some (.String s) ∧ s.length ≠ 0))) ∧
    IsTrue (some (.Number 0)) = false ∧ IsTrue (some (.Bool false)) = false ∧
    IsTrue (some (.String "")) = false ∧ IsTrue none = false ∧
    (∀ cls, IsTrue (some (.Class cls)) = false) ∧
    (∀ addr, IsTrue (some (.ClassInstance addr)) = false) := by
  refine ⟨?_, rfl, rfl, rfl, rfl, fun _ => rfl, fun _ => rfl⟩
  constructor
  · intro ht
    match h, ht with
    | some (.Number n), ht =>
      exact Or.inl ⟨n, rfl, by simpa [IsTrue] using ht⟩
    | some (.Bool b), ht =>
      refine Or.inr (Or.inl ?_)
      simp only [IsTrue] at ht
      rw [ht]
    | some (.String s), ht =>
      exact Or.inr (Or.inr ⟨s, rfl, by simpa [IsTrue] using ht⟩)
  · rintro (⟨n, rfl, hn⟩ | rfl | ⟨s, rfl, hs⟩)
    · simpa [IsTrue] using hn
    · rfl
    · simpa [IsTrue] using hs

/-- C12: `NotEqual` is `Equal` with the value negated and `GreaterOrEqual` is `Less`
with the value negated, failures included. When `Less` returns `lt` and `Equal`, called
after it, returns `eq`, `LessOrEqual` returns `lt || eq` and `Greater` returns
`!lt && !eq`; when `Less` returns true, `Equal` is not called. -/
theorem derived_comparators (exec : Exec) (a b : ObjectHolder) (st st1 st2 : State)
    (lt eq : Bool) (hl : Less exec a b st = .ok (lt, st1))
    (he : Equal exec a b st1 = .ok (eq, st2)) :
    (∀ s, NotEqual exec a b s = (Equal exec a b s).bind fun r => .ok (!r.1, r.2)) ∧
    (∀ s, GreaterOrEqual exec a b s = (Less exec a b s).bind fun r => .ok (!r.1, r.2)) ∧
    LessOrEqual exec a b st = .ok (lt || eq, if lt = true then st1 else st2) ∧
    Greater exec a b st = .ok (!lt && !eq, if lt = true then st1 else st2) := by
  refine ⟨fun s => rfl, fun s => rfl, ?_, ?_⟩
  · unfold LessOrEqual
    rw [hl]
    cases lt with
    | true => rfl
    | false =>
      show Equal exec a b st1 = _
      rw [he]
      rfl
  · unfold Greater
    rw [hl]
    cases lt with
    | true => rfl
    | false =>
      show (Equal exec a b st1).bind _ = _
      rw [he]
      rfl

theorem derived_comparators_witness :
    Less (Execute 0) (some (.Number 1)) (some (.Number 2)) (globalState []) =
      .ok (true, globalState []) ∧
    Equal (Execute 0) (some (.Number 1)) (some (.Number 2)) (globalState []) =
      .ok (false, globalState []) ∧
    LessOrEqual (Execute 0) (some (.Number 1)) (some (.Number 2)) (globalState []) =
      .ok (true, globalState []) ∧
    Greater (Execute 0) (some (.Number 1)) (some (.Number 2)) (globalState []) =
      .ok (false, globalState []) :=
  ⟨rfl, rfl,
    (derived_comparators (Execute 0) (some (.Number 1)) (some (.Number 2)) (globalState [])
      (globalState []) (globalState []) true false rfl rfl).2.2.1,
    (derived_comparators (Execute 0) (some (.Number 1)) (some (.Number 2)) (globalState [])
      (globalState []) (globalState []) true false rfl rfl).2.2.2⟩

theorem formalParamsSize_eq (method : Method) : formalParamsSize method = effectiveCount method := by
  unfold formalParamsSize effectiveCount
  cases h : method.formal_params with
  | nil => simp
  | cons first rest =>
    by_cases hf : first = "self"
    · simp [hf]
    · simp [hf]

theorem GetMethod_eq_find (name : String) (argc : Nat) :
    ∀ c : runtime.Class, c.GetMethod name argc = (searchOrder c).find? (matchesCall name argc)
  | .mk _ methods_ none => by
    rw [Class.GetMethod, searchOrder]
    have hp : (fun method : Method =>
        decide (method.name = name) && decide (formalParamsSize method = argc)) =
        matchesCall name argc := by
      funext m; simp [matchesCall, formalParamsSize_eq]
    rw [hp]
    cases List.find? (matchesCall name argc) methods_ <;> rfl
  | .mk _ methods_ (some parent_) => by
    rw [Class.GetMethod, searchOrder, List.find?_append]
    have hp : (fun method : Method =>
        decide (method.name = name) && decide (formalParamsSize method = argc)) =
        matchesCall name argc := by
      funext m; simp [matchesCall, formalParamsSize_eq]
    rw [hp]
    cases List.find? (matchesCall name argc) methods_ with
    | some m => rfl
    | none =>
      show Class.GetMethod parent_ name argc = _
      rw [GetMethod_eq_find name argc parent_]
      rfl

theorem HasMethod_eq_any (name : String) (argc : Nat) :
    ∀ c : runtime.Class, c.HasMethod name argc = (searchOrder c).any (matchesCall name argc)
  | .mk _ methods_ none => by
    rw [Class.HasMethod, searchOrder]
    have hp : (fun method : Method =>
        decide (method.name = name) && decide (formalParamsSize method = argc)) =
        matchesCall name argc := by
      funext m; simp [matchesCall, formalParamsSize_eq]
    rw [hp]
    cases List.any methods_ (matchesCall name argc) <;> rfl
  | .mk _ methods_ (some parent_) => by
    rw [Class.HasMethod, searchOrder, List.any_append]
    have hp : (fun method : Method =>
        decide (method.name = name) && decide (formalParamsSize method = argc)) =
        matchesCall name argc := by
      funext m; simp [matchesCall, formalParamsSize_eq]
    rw [hp]
    cases List.any methods_ (matchesCall name argc) with
    | true => rfl
    | false =>
      show Class.HasMethod parent_ name argc = _
      rw [HasMethod_eq_any name argc parent_]
      rfl

theorem any_eq_find_isSome {α : Type} (p : α → Bool) (xs : List α) :
    xs.any p = (xs.find? p).isSome := by
  induction xs with
  | nil => rfl
  | cons x rest ih =>
    rw [List.any_cons, List.find?_cons]
    cases p x with
    | true => rfl
    | false => exact ih

/-- C13: `Equal` returns true on two empty holders and value equality on two `Number`s,
two `String`s or two `Bool`s; on an instance whose class has `__eq__` with one argument
it returns the `Bool` that the call of `__eq__` on the right operand returns; in every
remaining case, such as primitives of different variants or exactly one empty holder, it
throws `runtime_error`. -/
theorem Equal_cases (exec : Exec) (st : State) :
    Equal exec none none st = .ok (true, st) ∧
    (∀ l r : Int,
      Equal exec (some (.Number l)) (some (.Number r)) st = .ok (decide (l = r), st)) ∧
    (∀ l r : String,
      Equal exec (some (.String l)) (some (.String r)) st = .ok (decide (l = r), st)) ∧
    (∀ l r : Bool,
      Equal exec (some (.Bool l)) (some (.Bool r)) st = .ok (decide (l = r), st)) ∧
    (∀ (addr : Nat) (cls_ : runtime.Class) (rhs : ObjectHolder) (v : Bool) (st1 : State),
      st.class? addr = some cls_ → cls_.HasMethod "__eq__" 1 = true →
      Call exec addr "__eq__" [rhs] st = .ok (some (.Bool v), st1) →
      Equal exec (some (.ClassInstance addr)) rhs st = .ok (v, st1)) ∧
    (∀ lhs rhs : ObjectHolder, ¬ (lhs = none ∧ rhs = none) → samePrimitive lhs rhs = false →
      (∀ addr, lhs = some (.ClassInstance addr) →
        ∃ cls_, st.class? addr = some cls_ ∧ cls_.HasMethod "__eq__" 1 = false) →
      Equal exec lhs rhs st =
        .raise (.runtime_error "Can not compare objects for equality", st)) := by
  refine ⟨rfl, fun _ _ => rfl, fun _ _ => rfl, fun _ _ => rfl, ?_, ?_⟩
  · intro addr cls_ rhs v st1 hc hm hcall
    have h : Equal exec (some (.ClassInstance addr)) rhs st =
        boolOfCall (Call exec addr "__eq__" [rhs] st) := by
      cases rhs <;> simp only [Equal, hc, hm, if_true]
    rw [h, hcall]
    rfl
  · intro lhs rhs hne hsp hinst
    match lhs, rhs, hne, hsp, hinst with
    | none, none, hne, _, _ => exact absurd ⟨rfl, rfl⟩ hne
    | none, some _, _, _, _ => rfl
    | some (.Number _), none, _, _, _ => rfl
    | some (.Number _), some (.String _), _, _, _ => rfl
    | some (.Number _), some (.Bool _), _, _, _ => rfl
    | some (.Number _), some (.Class _), _, _, _ => rfl
    | some (.Number _), some (.ClassInstance _), _, _, _ => rfl
    | some (.String _), none, _, _, _ => rfl
    | some (.String _), some (.Number _), _, _, _ => rfl
    | some (.String _), some (.Bool _), _, _, _ => rfl
    | some (.String _), some (.Class _), _, _, _ => rfl
    | some (.String _), some (.ClassInstance _), _, _, _ => rfl
    | some (.Bool _), none, _, _, _ => rfl
    | some (.Bool _), some (.Number _), _, _, _ => rfl
    | some (.Bool _), some (.String _), _, _, _ => rfl
    | some (.Bool _), some (.Class _), _, _, _ => rfl
    | some (.Bool _), some (.ClassInstance _), _, _, _ => rfl
    | some (.Class _), _, _, _, _ => rfl
    | some (.ClassInstance addr), rhs, _, _, hinst =>
      obtain ⟨cls_, hc, hm⟩ := hinst addr rfl
      cases rhs <;> simp [Equal, hc, hm]

theorem Equal_cases_witness :
    Equal (Execute 5) (some (.ClassInstance 1)) (some (.Number 3)) (instanceState classEq) =
      .ok (true, State.mk ((instanceState classEq).heap ++
        [Cell.mk none [("other", some (.Number 3)), ("self", some (.ClassInstance 1))]])
        "") ∧
    Equal (Execute 5) (some (.Number 1)) (some (.String "1")) (instanceState classEq) =
      .raise (.runtime_error "Can not compare objects for equality", instanceState classEq) ∧
    Equal (Execute 5) none (some (.Number 1)) (instanceState classEq) =
      .raise (.runtime_error "Can not compare objects for equality", instanceState classEq) ∧
    Equal (Execute 5) (some (.ClassInstance 1)) none (instanceState classA) =
      .raise (.runtime_error "Can not compare objects for equality", instanceState classA) :=
  ⟨(Equal_cases (Execute 5) (instanceState classEq)).2.2.2.2.1 1 classEq (some (.Number 3))
      true _ rfl rfl rfl,
    (Equal_cases (Execute 5) (instanceState classEq)).2.2.2.2.2 (some (.Number 1))
      (some (.String "1")) (fun h => nomatch h.1) rfl (fun _ h => nomatch h),
    (Equal_cases (Execute 5) (instanceState classEq)).2.2.2.2.2 none
      (some (.Number 1)) (fun h => nomatch h.2) rfl (fun _ h => nomatch h),
    (Equal_cases (Execute 5) (instanceState classA)).2.2.2.2.2 (some (.ClassInstance 1))
      none (fun h => nomatch h.1) rfl
      (fun _ h => ⟨classA, by cases h; rfl, rfl⟩)⟩

/-- C14: `GetMethod` returns the first method in search order (the methods of the class in
declaration order, then those of each ancestor in turn) whose name is `name` and whose
effective parameter count is `argc`; it returns nothing exactly when no method in the
parent chain passes that test; a method of the class that passes the test is chosen
whatever the parent defines, as `hi(self)` of `B(A)` is. -/
theorem GetMethod_first_match (c : runtime.Class) (name : String) (argc : Nat) :
    c.GetMethod name argc = (searchOrder c).find? (matchesCall name argc) ∧
    (c.GetMethod name argc = none ↔
      ∀ m ∈ searchOrder c, ¬ (m.name = name ∧ effectiveCount m = argc)) ∧
    (∀ m, c.GetMethod name argc = some m →
      m ∈ searchOrder c ∧ m.name = name ∧ effectiveCount m = argc) ∧
    (∀ (cname : String) (parent : Option runtime.Class) (m : Method),
      c.methods_.find? (matchesCall name argc) = some m →
      (runtime.Class.mk cname c.methods_ parent).GetMethod name argc = some m) ∧
    searchOrder classB = classB.methods_ ++ classA.methods_ ∧
    classB.GetMethod "hi" 0 = classB.methods_.head? ∧
    classA.GetMethod "hi" 0 = classA.methods_.head? := by
  refine ⟨GetMethod_eq_find name argc c, ?_, ?_, ?_, rfl, rfl, rfl⟩
  · rw [GetMethod_eq_find, List.find?_eq_none]
    simp [matchesCall]
  · intro m hm
    rw [GetMethod_eq_find] at hm
    have h1 := List.mem_of_find?_eq_some hm
    have h2 := List.find?_some hm
    simp only [matchesCall, Bool.and_eq_true, decide_eq_true_eq] at h2
    exact ⟨h1, h2.1, h2.2⟩
  · intro cname parent m hm
    rw [GetMethod_eq_find]
    cases parent with
    | none => exact hm
    | some p =>
      rw [searchOrder, List.find?_append]
      show ((List.find? (matchesCall name argc) c.methods_).or _) = _
      rw [hm]
      rfl

theorem GetMethod_first_match_witness :
    (runtime.Class.mk "B" classB.methods_ (some classA)).GetMethod "hi" 0 =
      some (.mk "hi" ["self"] (.Return (.VariableValue ["b"]))) :=
  (GetMethod_first_match classB "hi" 0).2.2.2.1 "B" (some classA) _ rfl

/-- C15: `HasMethod` is true if and only if `GetMethod` with the same name and argument
count returns a method. -/
theorem HasMethod_iff_GetMethod (c : runtime.Class) (name : String) (n : Nat) :
    (c.HasMethod name n = true ↔ c.GetMethod name n ≠ none) ∧
    (c.HasMethod name n = true ↔ ∃ m, c.GetMethod name n = some m) ∧
    c.HasMethod name n = (c.GetMethod name n).isSome := by
  have h : c.HasMethod name n = (c.GetMethod name n).isSome := by
    rw [HasMethod_eq_any, GetMethod_eq_find]
    generalize searchOrder c = ms
    induction ms with
    | nil => rfl
    | cons m rest ih =>
      rw [List.any_cons, List.find?_cons]
      cases matchesCall name n m with
      | true => rfl
      | false => exact ih
  refine ⟨?_, ?_, h⟩
  · rw [h, Option.isSome_iff_ne_none]
  · rw [h, Option.isSome_iff_exists]

/-- C16: `Call` binds the actual argument at index `i` to the formal parameter at index
`i`, counted from the first formal whether or not it is `self`. With formals `[self, p]`
and one actual `a1` the body runs in the closure `{self = a1}`, where `p` is unbound and
`self` is not the receiver; with formals `[p]` it runs in `{p = a1, self = receiver}`.
`Call` throws `runtime_error` when the class has no method of that name and arity. -/
theorem Call_binds_from_first_formal (exec : Exec) (addr : Nat) (name : String)
    (st : State) (cls_ : runtime.Class) (method : Method) (p : String) (a1 : ObjectHolder)
    (hc : st.class? addr = some cls_) :
    (cls_.GetMethod name 1 = some method → method.formal_params = ["self", p] →
      Call exec addr name [a1] st =
        exec method.body st.heap.length
          (State.mk (st.heap ++ [Cell.mk none [("self", a1)]]) st.output)) ∧
    (cls_.GetMethod name 1 = some method → method.formal_params = [p] → p ≠ "self" →
      Call exec addr name [a1] st =
        exec method.body st.heap.length
          (State.mk (st.heap ++
            [Cell.mk none [(p, a1), ("self", some (.ClassInstance addr))]]) st.output)) ∧
    (∀ actual_args : List ObjectHolder, cls_.GetMethod name actual_args.length = none →
      Call exec addr name actual_args st =
        .raise (.runtime_error "Method does not exist", st)) := by
  refine ⟨?_, ?_, ?_⟩
  · intro hg hf
    have hh : cls_.HasMethod name 1 = true := by
      rw [(HasMethod_eq_any name 1 cls_).trans (any_eq_find_isSome _ _),
        ← GetMethod_eq_find, hg]
      rfl
    unfold Call
    simp only [hc, List.length_singleton, hh, hg, hf]
    rfl
  · intro hg hf hp
    have hh : cls_.HasMethod name 1 = true := by
      rw [(HasMethod_eq_any name 1 cls_).trans (any_eq_find_isSome _ _),
        ← GetMethod_eq_find, hg]
      rfl
    have hb : bindArgs [p] [a1] [] = some [(p, a1)] := rfl
    have hcount : Closure.count [(p, a1)] "self" = false := by
      simp [Closure.count, hp]
    have hset : Closure.set [(p, a1)] "self" (some (.ClassInstance addr)) =
        [(p, a1), ("self", some (.ClassInstance addr))] := by
      simp [Closure.set, hp]
    unfold Call
    simp only [hc, List.length_singleton, hh, hg, hf, hb, hcount, hset]
    rfl
  · intro actual_args hg
    unfold Call
    simp only [hc, hg]
    split <;> rfl

theorem Call_binds_from_first_formal_witness :
    Call (Execute 5) 1 "get" [some (.Number 7)] (instanceState classGet) =
      Execute 5 (.MethodBody (.Return (.VariableValue ["p"]))) 2
        (State.mk ((instanceState classGet).heap ++
          [Cell.mk none [("self", some (.Number 7))]]) "") ∧
    Execute 5 (.MethodBody (.Return (.VariableValue ["p"]))) 2
        (State.mk ((instanceState classGet).heap ++
          [Cell.mk none [("self", some (.Number 7))]]) "") =
      .raise (.runtime_error "Unknown variable",
        State.mk ((instanceState classGet).heap ++
          [Cell.mk none [("self", some (.Number 7))]]) "") ∧
    Execute 5 (.MethodBody (.Return (.VariableValue ["self"]))) 2
        (State.mk ((instanceState classGet).heap ++
          [Cell.mk none [("self", some (.Number 7))]]) "") =
      .ok (some (.Number 7),
        State.mk ((instanceState classGet).heap ++
          [Cell.mk none [("self", some (.Number 7))]]) "") :=
  ⟨(Call_binds_from_first_formal (Execute 5) 1 "get" (instanceState classGet) classGet
      (.mk "get" ["self", "p"] (.MethodBody (.Return (.VariableValue ["p"])))) "p"
      (some (.Number 7)) rfl).1 rfl rfl, rfl, rfl⟩

theorem Compound_loop_raise (exec : Exec) (closure : Nat) :
    ∀ (pre : List Statement) (s : Statement) (post : List Statement) (st st1 : State)
      (x : Exn × State), Compound.loop exec pre closure st = .ok ((), st1) →
      exec s closure st1 = .raise x →
      Compound.loop exec (pre ++ s :: post) closure st = .raise x := by
  intro pre
  induction pre with
  | nil =>
    intro s post st st1 x hpre hs
    cases hpre
    rw [List.nil_append, Compound.loop, hs]
    rfl
  | cons a rest ih =>
    intro s post st st1 x hpre hs
    rw [Compound.loop] at hpre
    obtain ⟨⟨v, st2⟩, ha, hrest⟩ := Res.bind_eq_ok hpre
    rw [List.cons_append, Compound.loop, ha, Res.bind_ok]
    exact ih s post st2 st1 x hrest hs

/-- C17, counterexample: two executions of the same `NewInstance` node return the same
instance, and the field `f` assigned through the first result is read through the
second. -/
theorem NewInstance_shared :
    Execute 5 (.NewInstance 1 []) 0 newInstanceState =
      .ok (some (.ClassInstance 1), newInstanceState) ∧
    Execute 5 twoExecutions 0 newInstanceState =
      .ok (none, State.mk
        [Cell.mk none [("one", some (.Number 1)), ("x", some (.ClassInstance 1)),
            ("y", some (.ClassInstance 1))],
          Cell.mk (some classA) [("f", some (.Number 1))]] "") ∧
    Execute 5 (.VariableValue ["y", "f"]) 0 (State.mk
        [Cell.mk none [("one", some (.Number 1)), ("x", some (.ClassInstance 1)),
            ("y", some (.ClassInstance 1))],
          Cell.mk (some classA) [("f", some (.Number 1))]] "") =
      .ok (some (.Number 1), State.mk
        [Cell.mk none [("one", some (.Number 1)), ("x", some (.ClassInstance 1)),
            ("y", some (.ClassInstance 1))],
          Cell.mk (some classA) [("f", some (.Number 1))]] "") :=
  ⟨rfl, rfl, rfl⟩

theorem executeArgs_of_EvaluatesTo {exec : Exec} {closure : Nat} {args : List Statement}
    {st st1 : State} {vals : List ObjectHolder}
    (h : EvaluatesTo exec closure args st vals st1) :
    executeArgs exec args closure st = .ok (vals, st1) := by
  induction h with
  | done st => rfl
  | step arg rest st st1 st2 val vals ha _ ih =>
    rw [executeArgs, ha, Res.bind_ok]
    dsimp only
    rw [ih, Res.bind_ok]

theorem executeArgs_raise (exec : Exec) (closure : Nat) (a : Statement)
    (post : List Statement) (x : Exn × State) :
    ∀ (pre : List Statement) (st st1 : State) (vals : List ObjectHolder),
      EvaluatesTo exec closure pre st vals st1 → exec a closure st1 = .raise x →
      executeArgs exec (pre ++ a :: post) closure st = .raise x := by
  intro pre st st1 vals h
  induction h with
  | done st =>
    intro ha
    rw [List.nil_append, executeArgs, ha]
    rfl
  | step arg rest st st1 st2 val vals harg _ ih =>
    intro ha
    rw [List.cons_append, executeArgs, harg, Res.bind_ok]
    dsimp only
    rw [ih ha]
    rfl

theorem EvaluatesTo_length {exec : Exec} {closure : Nat} {args : List Statement}
    {st st1 : State} {vals : List ObjectHolder}
    (h : EvaluatesTo exec closure args st vals st1) : vals.length = args.length := by
  induction h with
  | done st => rfl
  | step arg rest st st1 st2 val vals _ _ ih => simp [ih]

theorem class?_setClosure (st : State) (a b : Nat) (cl : Closure) :
    (st.setClosure a cl).class? b = st.class? b := by
  unfold State.setClosure
  cases hg : st.heap.get? a with
  | none => rfl
  | some cell =>
    dsimp only
    unfold State.class?
    dsimp only
    rw [List.get?_eq_getElem?, List.get?_eq_getElem?, List.getElem?_set]
    by_cases hab : a = b
    · subst hab
      rw [List.get?_eq_getElem?] at hg
      rw [if_pos rfl, hg]
      have hlt : a < st.heap.length := by
        by_contra hge
        rw [List.getElem?_eq_none (by omega)] at hg
        cases hg
      rw [if_pos hlt]
    · rw [if_neg hab]

theorem closure?_setClosure (st : State) (a : Nat) (old cl : Closure)
    (h : st.closure? a = some old) : (st.setClosure a cl).closure? a = some cl := by
  unfold State.closure? at h
  unfold State.setClosure
  cases hg : st.heap.get? a with
  | none => rw [hg] at h; cases h
  | some cell =>
    dsimp only
    unfold State.closure?
    dsimp only
    rw [List.get?_eq_getElem?, List.getElem?_set, if_pos rfl]
    rw [List.get?_eq_getElem?] at hg
    have hlt : a < st.heap.length := by
      by_contra hge
      rw [List.getElem?_eq_none (by omega)] at hg
      cases hg
    rw [if_pos hlt]

theorem find?_set (c : Closure) (key : String) (value : ObjectHolder) :
    Closure.find? (Closure.set c key value) key = some value := by
  induction c with
  | nil =>
    unfold Closure.set Closure.find?
    rw [if_pos rfl]
  | cons e rest ih =>
    obtain ⟨k, v⟩ := e
    unfold Closure.set
    by_cases hk : k = key
    · rw [if_pos hk]
      unfold Closure.find?
      rw [if_pos hk]
    · rw [if_neg hk]
      unfold Closure.find?
      rw [if_neg hk]
      exact ih

/-- C17, amended: every execution of a `NewInstance` node that returns, returns the one
instance `obj_` that the constructor of the node created, so two executions of the same
node return the same instance. For a class without `__init__` of the arity of `args_` the
execution changes nothing: a field assigned to the instance before it is still there when
the execution returns the instance. For a class with such an `__init__` the execution
evaluates the arguments from left to right and calls `__init__` on that same instance. -/
theorem NewInstance_returns_obj_ (fuel : Nat) (obj_ : Nat) (args_ : List Statement)
    (closure : Nat) (st : State) :
    (∀ v st1, Execute (fuel + 1) (.NewInstance obj_ args_) closure st = .ok (v, st1) →
      v = some (.ClassInstance obj_)) ∧
    (∀ fuel2 closure2 sta v1 v2 st1 st2,
      Execute (fuel + 1) (.NewInstance obj_ args_) closure st = .ok (v1, st1) →
      Execute (fuel2 + 1) (.NewInstance obj_ args_) closure2 sta = .ok (v2, st2) →
      v1 = v2) ∧
    (∀ cls_, st.class? obj_ = some cls_ → cls_.HasMethod "__init__" args_.length = false →
      Execute (fuel + 1) (.NewInstance obj_ args_) closure st =
        .ok (some (.ClassInstance obj_), st)) ∧
    (∀ cls_ fields field value, st.class? obj_ = some cls_ →
      cls_.HasMethod "__init__" args_.length = false → st.closure? obj_ = some fields →
      Execute (fuel + 1) (.NewInstance obj_ args_) closure
          (st.setClosure obj_ (Closure.set fields field value)) =
        .ok (some (.ClassInstance obj_),
          st.setClosure obj_ (Closure.set fields field value)) ∧
      ∃ fields2, (st.setClosure obj_ (Closure.set fields field value)).closure? obj_ =
          some fields2 ∧ Closure.find? fields2 field = some value) ∧
    (∀ cls_ vals st1 r st2, st.class? obj_ = some cls_ →
      cls_.HasMethod "__init__" args_.length = true →
      EvaluatesTo (Execute fuel) closure args_ st vals st1 →
      Call (Execute fuel) obj_ "__init__" vals st1 = .ok (r, st2) →
      Execute (fuel + 1) (.NewInstance obj_ args_) closure st =
        .ok (some (.ClassInstance obj_), st2)) := by
  have key : ∀ (f c : Nat) (s : State) (v : ObjectHolder) (s1 : State),
      Execute (f + 1) (.NewInstance obj_ args_) c s = .ok (v, s1) →
      v = some (.ClassInstance obj_) := by
    intro f c s v s1 h
    rw [Execute] at h
    cases hc : s.class? obj_ with
    | none => rw [hc] at h; cases h
    | some cls_ =>
      rw [hc] at h
      dsimp only at h
      by_cases hm : cls_.HasMethod "__init__" args_.length = true
      · rw [if_pos hm] at h
        obtain ⟨⟨args_to_pass, s2⟩, -, h2⟩ := Res.bind_eq_ok h
        obtain ⟨⟨r, s3⟩, -, h3⟩ := Res.bind_eq_ok h2
        cases h3
        rfl
      · rw [if_neg hm] at h
        cases h
        rfl
  have plain : ∀ (s : State) (cls_ : runtime.Class), s.class? obj_ = some cls_ →
      cls_.HasMethod "__init__" args_.length = false →
      Execute (fuel + 1) (.NewInstance obj_ args_) closure s =
        .ok (some (.ClassInstance obj_), s) := by
    intro s cls_ hc hm
    rw [Execute, hc]
    dsimp only
    rw [if_neg (by rw [hm]; decide)]
  refine ⟨key fuel closure st, ?_, plain st, ?_, ?_⟩
  · intro fuel2 closure2 sta v1 v2 st1 st2 h1 h2
    rw [key fuel closure st v1 st1 h1, key fuel2 closure2 sta v2 st2 h2]
  · intro cls_ fields field value hc hm hf
    refine ⟨plain _ cls_ ?_ hm, _, closure?_setClosure st obj_ fields _ hf, find?_set _ _ _⟩
    rw [class?_setClosure, hc]
  · intro cls_ vals st1 r st2 hc hm hargs hcall
    rw [Execute, hc]
    dsimp only
    rw [if_pos hm, executeArgs_of_EvaluatesTo hargs, Res.bind_ok]
    dsimp only
    rw [hcall, Res.bind_ok]

theorem NewInstance_returns_obj__witness :
    Execute 5 (.NewInstance 1 []) 0 (instanceState classA) =
      .ok (some (.ClassInstance 1), instanceState classA) ∧
    Execute 5 (.NewInstance 1 [.VariableValue ["one"]]) 0 initState =
      .ok (some (.ClassInstance 1), State.mk
        [Cell.mk none [("one", some (.Number 1))],
          Cell.mk (some classInit) [("x", some (.Number 1))],
          Cell.mk none [("v", some (.Number 1)), ("self", some (.ClassInstance 1))]] "") :=
  ⟨(NewInstance_returns_obj_ 4 1 [] 0 (instanceState classA)).2.2.1 classA rfl rfl,
    (NewInstance_returns_obj_ 4 1 [.VariableValue ["one"]] 0 initState).2.2.2.2 classInit
      [some (.Number 1)] initState none _ rfl rfl
      (.step _ _ _ _ _ _ _ rfl (.done _)) rfl⟩

/-- C18: `MethodBody` returns the value that a `Return` in its body threw and the empty
holder when the body finishes without one, whatever the body returned; `Return` throws
the value of its expression; a `Compound` that reaches a throwing statement throws the
same thing from the same state whatever statements follow it; `IfElse` is the execution
of the branch it chooses, so a throw in the branch leaves the `IfElse`. -/
theorem MethodBody_yields_Return (fuel : Nat) (closure : Nat) (st : State) :
    (∀ body obj st1, Execute fuel body closure st = .raise (.ObjectThrow obj, st1) →
      Execute (fuel + 1) (.MethodBody body) closure st = .ok (obj, st1)) ∧
    (∀ body v st1, Execute fuel body closure st = .ok (v, st1) →
      Execute (fuel + 1) (.MethodBody body) closure st = .ok (none, st1)) ∧
    (∀ e obj st1, Execute fuel e closure st = .ok (obj, st1) →
      Execute (fuel + 1) (.Return e) closure st = .raise (.ObjectThrow obj, st1)) ∧
    (∀ pre s post st1 x, Compound.loop (Execute fuel) pre closure st = .ok ((), st1) →
      Execute fuel s closure st1 = .raise x →
      Execute (fuel + 1) (.Compound (pre ++ s :: post)) closure st = .raise x) ∧
    (∀ c t e obj st1 out st2, Execute fuel c closure st = .ok (some obj, st1) →
      PrintObject (Execute fuel) fuel obj st1 = .ok (out, st2) →
      Execute (fuel + 1) (.IfElse c t e) closure st =
        if out = "True" ∨ out = "1" then Execute fuel t closure st2
        else match e with
          | some body => Execute fuel body closure st2
          | none => .ok (none, st2)) := by
  refine ⟨?_, ?_, ?_, ?_, ?_⟩
  · intro body obj st1 h
    rw [Execute, h]
  · intro body v st1 h
    rw [Execute, h]
  · intro e obj st1 h
    rw [Execute, h]
    rfl
  · intro pre s post st1 x hpre hs
    rw [Execute, Compound_loop_raise (Execute fuel) closure pre s post st st1 x hpre hs]
    rfl
  · intro c t e obj st1 out st2 hc hp
    rw [Execute, hc, Res.bind_ok]
    dsimp only
    rw [hp, Res.bind_ok]

theorem MethodBody_yields_Return_witness :
    Execute 8 nestedReturn 0 (globalState [("yes", some (.Bool true)),
        ("one", some (.Number 1))]) =
      .raise (.ObjectThrow (some (.Number 1)), globalState [("yes", some (.Bool true)),
        ("one", some (.Number 1))]) ∧
    Execute 9 (.MethodBody nestedReturn) 0 (globalState [("yes", some (.Bool true)),
        ("one", some (.Number 1))]) =
      .ok (some (.Number 1), globalState [("yes", some (.Bool true)),
        ("one", some (.Number 1))]) :=
  ⟨rfl, (MethodBody_yields_Return 8 0 (globalState [("yes", some (.Bool true)),
        ("one", some (.Number 1))])).1 nestedReturn _ _ rfl⟩

theorem Renders_length {exec : Exec} {depth closure : Nat} {args : List Statement}
    {heap heap1 : List Cell} {texts : List String}
    (h : Renders exec depth closure args heap texts heap1) : texts.length = args.length := by
  induction h with
  | done heap => rfl
  | object arg rest heap heap1 heap2 heap3 obj text texts _ _ _ ih => simp [ih]
  | empty arg rest heap heap1 heap2 texts _ _ ih => simp [ih]

theorem spaced_cons (text : String) (texts : List String) (h : texts ≠ []) :
    spaced (text :: texts) = text ++ " " ++ spaced texts := by
  cases texts with
  | nil => exact absurd rfl h
  | cons next rest => rfl

theorem Print_loop_tail (exec : Exec) (depth closure : Nat) (rest : List Statement)
    (heap2 heap3 : List Cell) (text : String) (texts : List String) (out : String)
    (hr : Renders exec depth closure rest heap2 texts heap3)
    (ih : rest ≠ [] → ∀ out, Print.loop exec depth rest closure (State.mk heap2 out) =
      .ok ((), State.mk heap3 (out ++ spaced texts ++ "\n"))) :
    Print.loop exec depth rest closure
        ((State.mk heap2 (out ++ text)).write (if rest.length ≠ 0 then " " else "\n")) =
      .ok ((), State.mk heap3 (out ++ spaced (text :: texts) ++ "\n")) := by
  cases rest with
  | nil =>
    cases hr
    rfl
  | cons a rest1 =>
    have hne : texts ≠ [] := by
      intro h0
      have := Renders_length hr
      rw [h0] at this
      cases this
    rw [if_pos (by simp), spaced_cons text texts hne]
    show Print.loop exec depth (a :: rest1) closure (State.mk heap2 (out ++ text ++ " ")) = _
    rw [ih (by simp) (out ++ text ++ " ")]
    simp only [String.append_assoc]

theorem Print_loop_spec (exec : Exec) (depth closure : Nat) (args : List Statement)
    (heap heap1 : List Cell) (texts : List String)
    (h : Renders exec depth closure args heap texts heap1) :
    args ≠ [] → ∀ out, Print.loop exec depth args closure (State.mk heap out) =
      .ok ((), State.mk heap1 (out ++ spaced texts ++ "\n")) := by
  induction h with
  | done heap => intro h; exact absurd rfl h
  | object arg rest heap heap1 heap2 heap3 obj text texts he hp hr ih =>
    intro _ out
    rw [Print.loop, he out, Res.bind_ok]
    dsimp only
    rw [hp out, Res.bind_ok, Res.bind_ok]
    exact Print_loop_tail exec depth closure rest heap2 heap3 text texts out hr ih
  | empty arg rest heap heap1 heap2 texts he hr ih =>
    intro _ out
    rw [Print.loop, he out, Res.bind_ok]
    dsimp only
    rw [Res.bind_ok]
    exact Print_loop_tail exec depth closure rest heap1 heap2 "None" texts out hr ih

/-- C19: `Print` with at least one argument, whose arguments are executed and rendered
from left to right without writing themselves, appends to the output the renderings (with
`None` for the empty holder) separated by one space and followed by one line terminator,
and returns the empty holder; `Print` with no argument, in a closure without the name
`name_`, appends the line terminator alone. -/
theorem Print_output (fuel closure : Nat) (args_ : List Statement) (name_ : String)
    (argument_ : Option Statement) (heap heap1 : List Cell) (texts : List String)
    (out : String) :
    (args_ ≠ [] → Renders (Execute fuel) fuel closure args_ heap texts heap1 →
      Execute (fuel + 1) (.Print args_ name_ argument_) closure (State.mk heap out) =
        .ok (none, State.mk heap1 (out ++ spaced texts ++ "\n"))) ∧
    (∀ cl, (State.mk heap out).closure? closure = some cl → Closure.find? cl name_ = none →
      Execute (fuel + 1) (.Print [] name_ argument_) closure (State.mk heap out) =
        .ok (none, State.mk heap (out ++ "\n"))) := by
  constructor
  · intro hne hr
    rw [Execute]
    dsimp only
    rw [if_neg (by simpa using hne),
      Print_loop_spec (Execute fuel) fuel closure args_ heap heap1 texts hr hne out]
    rfl
  · intro cl hcl hfind
    rw [Execute]
    dsimp only
    rw [if_pos (List.length_nil), hcl]
    dsimp only
    rw [hfind]
    rfl

theorem Print_output_witness :
    Execute 5 (.Print [.VariableValue ["a"], .VariableValue ["b"], .VariableValue ["c"]]
        "" none) 0 (globalState oneTwoThree) =
      .ok (none, State.mk (globalState oneTwoThree).heap "1 2 3\n") ∧
    Execute 5 (.Print [] "" none) 0 (globalState oneTwoThree) =
      .ok (none, State.mk (globalState oneTwoThree).heap "\n") :=
  ⟨(Print_output 4 0 [.VariableValue ["a"], .VariableValue ["b"], .VariableValue ["c"]]
      "" none (globalState oneTwoThree).heap (globalState oneTwoThree).heap
      ["1", "2", "3"] "").1 (fun h => nomatch h)
      (.object _ _ _ _ _ _ (.Number 1) "1" _ (fun _ => rfl) (fun _ => rfl)
        (.object _ _ _ _ _ _ (.Number 2) "2" _ (fun _ => rfl) (fun _ => rfl)
          (.object _ _ _ _ _ _ (.Number 3) "3" _ (fun _ => rfl) (fun _ => rfl)
            (.done _)))),
    (Print_output 4 0 [] "" none (globalState oneTwoThree).heap
      (globalState oneTwoThree).heap [] "").2 oneTwoThree rfl rfl⟩

theorem toDigitsCore_acc (f : Nat) :
    ∀ (n : Nat) (acc : List Char), ∃ pre, Nat.toDigitsCore 10 f n acc = pre ++ acc := by
  induction f with
  | zero => intro n acc; exact ⟨[], rfl⟩
  | succ f ih =>
    intro n acc
    have h : Nat.toDigitsCore 10 (f + 1) n acc =
        if n / 10 = 0 then Nat.digitChar (n % 10) :: acc
        else Nat.toDigitsCore 10 f (n / 10) (Nat.digitChar (n % 10) :: acc) := rfl
    rw [h]
    by_cases h0 : n / 10 = 0
    · rw [if_pos h0]
      exact ⟨[Nat.digitChar (n % 10)], rfl⟩
    · rw [if_neg h0]
      obtain ⟨pre, hpre⟩ := ih (n / 10) (Nat.digitChar (n % 10) :: acc)
      exact ⟨pre ++ [Nat.digitChar (n % 10)], by rw [hpre]; simp⟩

theorem toDigits_small (n : Nat) (h : n < 10) : Nat.toDigits 10 n = [Nat.digitChar n] := by
  have h1 : Nat.toDigits 10 n =
      if n / 10 = 0 then Nat.digitChar (n % 10) :: []
      else Nat.toDigitsCore 10 n (n / 10) (Nat.digitChar (n % 10) :: []) := rfl
  rw [h1, if_pos (Nat.div_eq_of_lt h), Nat.mod_eq_of_lt h]

theorem toDigits_large (n : Nat) (h : 10 ≤ n) :
    ∃ pre c, Nat.toDigits 10 n = pre ++ [c, Nat.digitChar (n % 10)] := by
  have h1 : Nat.toDigits 10 n =
      if n / 10 = 0 then Nat.digitChar (n % 10) :: []
      else Nat.toDigitsCore 10 n (n / 10) (Nat.digitChar (n % 10) :: []) := rfl
  have h0 : n / 10 ≠ 0 := by omega
  rw [h1, if_neg h0]
  obtain ⟨k, rfl⟩ : ∃ k, n = k + 1 := ⟨n - 1, by omega⟩
  have h2 : Nat.toDigitsCore 10 (k + 1) ((k + 1) / 10) [Nat.digitChar ((k + 1) % 10)] =
      if (k + 1) / 10 / 10 = 0 then
        Nat.digitChar ((k + 1) / 10 % 10) :: [Nat.digitChar ((k + 1) % 10)]
      else Nat.toDigitsCore 10 k ((k + 1) / 10 / 10)
        (Nat.digitChar ((k + 1) / 10 % 10) :: [Nat.digitChar ((k + 1) % 10)]) := rfl
  rw [h2]
  by_cases h3 : (k + 1) / 10 / 10 = 0
  · rw [if_pos h3]
    exact ⟨[], _, rfl⟩
  · rw [if_neg h3]
    obtain ⟨pre, hpre⟩ := toDigitsCore_acc k ((k + 1) / 10 / 10)
      (Nat.digitChar ((k + 1) / 10 % 10) :: [Nat.digitChar ((k + 1) % 10)])
    exact ⟨pre, _, hpre⟩

theorem digitChar_facts :
    ∀ k : Fin 10, (Nat.digitChar k.val = Char.ofNat 49 ↔ k.val = 1) ∧
      Nat.digitChar k.val ≠ Char.ofNat 101 := by
  decide

theorem Nat_repr_eq_one (n : Nat) : Nat.repr n = "1" ↔ n = 1 := by
  constructor
  · intro h
    have hd : Nat.toDigits 10 n = [Char.ofNat 49] := congrArg String.data h
    by_cases hn : n < 10
    · rw [toDigits_small n hn] at hd
      exact ((digitChar_facts ⟨n, hn⟩).1).1 (List.head_eq_of_cons_eq hd)
    · obtain ⟨pre, c, hp⟩ := toDigits_large n (by omega)
      rw [hp] at hd
      have := congrArg List.length hd
      simp at this
  · rintro rfl
    rfl

theorem Nat_repr_ne_True (n : Nat) : Nat.repr n ≠ "True" := by
  intro h
  have hd : Nat.toDigits 10 n = [Char.ofNat 84, Char.ofNat 114, Char.ofNat 117, Char.ofNat 101] :=
    congrArg String.data h
  by_cases hn : n < 10
  · rw [toDigits_small n hn] at hd
    have := congrArg List.length hd
    simp at this
  · obtain ⟨pre, c, hp⟩ := toDigits_large n (by omega)
    rw [hp] at hd
    have hl := congrArg List.getLast? hd
    have e1 : (pre ++ [c, Nat.digitChar (n % 10)]).getLast? = some (Nat.digitChar (n % 10)) := by
      simp [List.getLast?_append]
    rw [e1] at hl
    have hl2 : Nat.digitChar (n % 10) = Char.ofNat 101 := Option.some.inj hl
    exact (digitChar_facts ⟨n % 10, Nat.mod_lt n (by decide)⟩).2 hl2

theorem printNumber_facts (n : Int) :
    (printNumber n = "1" ↔ n = 1) ∧ printNumber n ≠ "True" := by
  cases n with
  | ofNat m =>
    have h : printNumber (Int.ofNat m) = Nat.repr m := rfl
    rw [h]
    refine ⟨?_, Nat_repr_ne_True m⟩
    rw [Nat_repr_eq_one]
    constructor
    · rintro rfl; rfl
    · intro h1
      exact Int.ofNat.inj h1
  | negSucc m =>
    have h : printNumber (Int.negSucc m) = "-" ++ Nat.repr (m + 1) := rfl
    have hd : (printNumber (Int.negSucc m)).data = Char.ofNat 45 :: (Nat.repr (m + 1)).data := by
      rw [h, String.data_append]
      rfl
    refine ⟨⟨?_, ?_⟩, ?_⟩
    · intro h1
      rw [h1] at hd
      have := List.head_eq_of_cons_eq hd
      exact absurd this (by decide)
    · intro h1
      cases h1
    · intro h1
      rw [h1] at hd
      have := List.head_eq_of_cons_eq hd
      revert this
      decide

theorem render_test (fuel : Nat) (v : Object) (st1 : State) :
    ((∃ b, v = .Bool b) ∨ (∃ n, v = .Number n)) →
    ∃ out, PrintObject (Execute fuel) fuel v st1 = .ok (out, st1) ∧
      ((out = "True" ∨ out = "1") ↔ rendersTrue v = true) := by
  rintro (⟨b, rfl⟩ | ⟨n, rfl⟩)
  · cases b with
    | true => exact ⟨"True", by cases fuel <;> rfl, by decide⟩
    | false => exact ⟨"False", by cases fuel <;> rfl, by decide⟩
  · refine ⟨printNumber n, by cases fuel <;> rfl, ?_⟩
    have h := printNumber_facts n
    constructor
    · rintro (h1 | h1)
      · exact absurd h1 h.2
      · simpa [rendersTrue] using h.1.1 h1
    · intro h1
      exact Or.inr (h.1.2 (by simpa [rendersTrue] using h1))

/-- C20, counterexample: the condition `two` evaluates to `Number 2`, on which `IsTrue` is
true, and `IfElse` runs its else-branch. -/
theorem IfElse_Number_two :
    Execute 4 (.VariableValue ["two"]) 0 (globalState branchNames) =
      .ok (some (.Number 2), globalState branchNames) ∧
    IsTrue (some (.Number 2)) = true ∧
    Execute 5 (.IfElse (.VariableValue ["two"]) (.VariableValue ["then"])
        (some (.VariableValue ["else"]))) 0 (globalState branchNames) =
      .ok (some (.String "else"), globalState branchNames) :=
  ⟨rfl, rfl, rfl⟩

/-- C20, amended: when the condition evaluates to a `Bool` or a `Number`, `IfElse` runs its
then-branch if and only if the value is `Bool` true or `Number 1`, and otherwise runs the
else-branch when there is one or returns the empty holder. That test is `IsTrue` on every
`Bool` and on the `Number`s `0` and `1`; on every other `Number`, `IsTrue` is true and the
test is false. -/
theorem IfElse_then_iff_rendersTrue (fuel : Nat) (condition_ if_body_ : Statement)
    (else_body_ : Option Statement) (closure : Nat) (st st1 : State) (v : Object)
    (hc : Execute fuel condition_ closure st = .ok (some v, st1))
    (hv : (∃ b, v = .Bool b) ∨ (∃ n, v = .Number n)) :
    Execute (fuel + 1) (.IfElse condition_ if_body_ else_body_) closure st =
      (if rendersTrue v = true then Execute fuel if_body_ closure st1
       else match else_body_ with
        | some body => Execute fuel body closure st1
        | none => .ok (none, st1)) ∧
    (∀ b, rendersTrue (.Bool b) = IsTrue (some (.Bool b))) ∧
    (∀ n : Int, rendersTrue (.Number n) = true ↔ n = 1) ∧
    (∀ n : Int, IsTrue (some (.Number n)) = true ↔ n ≠ 0) := by
  refine ⟨?_, fun _ => rfl, fun n => by simp [rendersTrue], fun n => by simp [IsTrue]⟩
  obtain ⟨out, hp, ht⟩ := render_test fuel v st1 hv
  rw [Execute, hc, Res.bind_ok]
  dsimp only
  rw [hp, Res.bind_ok]
  dsimp only
  by_cases h : rendersTrue v = true
  · rw [if_pos (ht.2 h), if_pos h]
  · rw [if_neg (fun h1 => h (ht.1 h1)), if_neg h]

theorem IfElse_then_iff_rendersTrue_witness :
    Execute 5 (.IfElse (.VariableValue ["two"]) (.VariableValue ["then"])
        (some (.VariableValue ["else"]))) 0 (globalState branchNames) =
      Execute 4 (.VariableValue ["else"]) 0 (globalState branchNames) :=
  (IfElse_then_iff_rendersTrue 4 (.VariableValue ["two"]) (.VariableValue ["then"])
    (some (.VariableValue ["else"])) 0 (globalState branchNames) (globalState branchNames)
    (.Number 2) rfl (Or.inr ⟨2, rfl⟩)).1

theorem Or_eq {fuel : Nat} {lhs_ rhs_ : Statement} {closure : Nat} {st st1 st2 : State}
    {lhs rhs : ObjectHolder} (hl : Execute fuel lhs_ closure st = .ok (lhs, st1))
    (hr : Execute fuel rhs_ closure st1 = .ok (rhs, st2)) :
    Execute (fuel + 1) (.Or lhs_ rhs_) closure st =
      .ok (some (.Bool (isTrueBool lhs || isTrueBool rhs)), st2) := by
  rw [Execute, hl, Res.bind_ok]
  dsimp only
  rw [hr, Res.bind_ok]
  rcases lhs with _ | (_ | _ | (_ | _) | _ | _) <;>
    rcases rhs with _ | (_ | _ | (_ | _) | _ | _) <;> rfl

theorem And_eq {fuel : Nat} {lhs_ rhs_ : Statement} {closure : Nat} {st st1 st2 : State}
    {lhs rhs : ObjectHolder} (hl : Execute fuel lhs_ closure st = .ok (lhs, st1))
    (hr : Execute fuel rhs_ closure st1 = .ok (rhs, st2)) :
    Execute (fuel + 1) (.And lhs_ rhs_) closure st =
      .ok (some (.Bool (isTrueBool lhs && isTrueBool rhs)), st2) := by
  rw [Execute, hl, Res.bind_ok]
  dsimp only
  rw [hr, Res.bind_ok]
  rcases lhs with _ | (_ | _ | (_ | _) | _ | _) <;>
    rcases rhs with _ | (_ | _ | (_ | _) | _ | _) <;> rfl

/-- C21: with both operands evaluated, `Or` returns `Bool` true if and only if at least
one operand value is a `Bool` equal to true and `And` returns `Bool` true if and only if
both are; in every other case, truthy values that are not `Bool`s included, they return
`Bool` false; neither node fails when its operands have values. -/
theorem Or_And_values (fuel : Nat) (lhs_ rhs_ : Statement) (closure : Nat)
    (st st1 st2 : State) (lhs rhs : ObjectHolder)
    (hl : Execute fuel lhs_ closure st = .ok (lhs, st1))
    (hr : Execute fuel rhs_ closure st1 = .ok (rhs, st2)) :
    Execute (fuel + 1) (.Or lhs_ rhs_) closure st =
      .ok (some (.Bool (isTrueBool lhs || isTrueBool rhs)), st2) ∧
    Execute (fuel + 1) (.And lhs_ rhs_) closure st =
      .ok (some (.Bool (isTrueBool lhs && isTrueBool rhs)), st2) ∧
    (∀ h : ObjectHolder, isTrueBool h = true ↔ h = some (.Bool true)) ∧
    isTrueBool (some (.Number 1)) = false ∧ isTrueBool (some (.String "a")) = false := by
  refine ⟨Or_eq hl hr, And_eq hl hr, ?_, rfl, rfl⟩
  intro h
  rcases h with _ | (_ | _ | (_ | _) | _ | _) <;> simp [isTrueBool]

theorem Or_And_values_witness :
    Execute 5 (.Or (.VariableValue ["one"]) (.VariableValue ["word"])) 0
        (globalState truthValues) = .ok (some (.Bool false), globalState truthValues) ∧
    Execute 5 (.And (.VariableValue ["t"]) (.VariableValue ["one"])) 0
        (globalState truthValues) = .ok (some (.Bool false), globalState truthValues) :=
  ⟨(Or_And_values 4 (.VariableValue ["one"]) (.VariableValue ["word"]) 0
      (globalState truthValues) (globalState truthValues) (globalState truthValues)
      (some (.Number 1)) (some (.String "a")) rfl rfl).1,
    (Or_And_values 4 (.VariableValue ["t"]) (.VariableValue ["one"]) 0
      (globalState truthValues) (globalState truthValues) (globalState truthValues)
      (some (.Bool true)) (some (.Number 1)) rfl rfl).2.1⟩

/-- C22: `Or` and `And` execute the left operand and then the right operand on every
execution: the state after the node is the state after the right operand, also when the
left value is `Bool` true for `Or` or `Bool` false for `And`, and when the right operand
throws, the node throws the same exception. -/
theorem Or_And_eager (fuel : Nat) (lhs_ rhs_ : Statement) (closure : Nat)
    (st st1 : State) (lhs : ObjectHolder)
    (hl : Execute fuel lhs_ closure st = .ok (lhs, st1)) :
    (∀ rhs st2, Execute fuel rhs_ closure st1 = .ok (rhs, st2) →
      (∃ b, Execute (fuel + 1) (.Or lhs_ rhs_) closure st = .ok (some (.Bool b), st2)) ∧
      (∃ b, Execute (fuel + 1) (.And lhs_ rhs_) closure st = .ok (some (.Bool b), st2))) ∧
    (∀ x, Execute fuel rhs_ closure st1 = .raise x →
      Execute (fuel + 1) (.Or lhs_ rhs_) closure st = .raise x ∧
      Execute (fuel + 1) (.And lhs_ rhs_) closure st = .raise x) := by
  constructor
  · intro rhs st2 hr
    exact ⟨⟨_, Or_eq hl hr⟩, ⟨_, And_eq hl hr⟩⟩
  · intro x hr
    constructor
    · rw [Execute, hl, Res.bind_ok]
      dsimp only
      rw [hr]
      rfl
    · rw [Execute, hl, Res.bind_ok]
      dsimp only
      rw [hr]
      rfl

theorem Or_And_eager_witness :
    (∃ b, Execute 6 (.Or (.VariableValue ["t"])
        (.Print [.VariableValue ["one"]] "" none)) 0 (globalState truthValues) =
      .ok (some (.Bool b), State.mk (globalState truthValues).heap "1\n")) ∧
    Execute 6 (.And (.VariableValue ["f"]) (.VariableValue ["missing"])) 0
        (globalState truthValues) =
      .raise (.runtime_error "Unknown variable", globalState truthValues) :=
  ⟨((Or_And_eager 5 (.VariableValue ["t"]) (.Print [.VariableValue ["one"]] "" none) 0
      (globalState truthValues) (globalState truthValues) (some (.Bool true)) rfl).1
      none (State.mk (globalState truthValues).heap "1\n") rfl).1,
    ((Or_And_eager 5 (.VariableValue ["f"]) (.VariableValue ["missing"]) 0
      (globalState truthValues) (globalState truthValues) (some (.Bool false)) rfl).2
      (.runtime_error "Unknown variable", globalState truthValues) rfl).2⟩

/-- C23: once the receiver is evaluated, `MethodCall` returns the empty holder from the
state after the receiver, whatever its argument expressions are, when the receiver value
is not a `ClassInstance` or no method of its class chain has the name and an effective
parameter count equal to the number of arguments. Otherwise it executes the arguments
from left to right, each in the state the one before it left, and returns what `Call`
returns on the values of all of them, in that order, from the state after the last; when
an argument throws, the arguments after it are not executed and the node throws. -/
theorem MethodCall_cases (fuel : Nat) (object_ : Statement) (method_ : String)
    (args_ : List Statement) (closure : Nat) (st st1 : State) (obj : ObjectHolder)
    (ho : Execute fuel object_ closure st = .ok (obj, st1)) :
    (isClassInstance obj = false →
      Execute (fuel + 1) (.MethodCall object_ method_ args_) closure st = .ok (none, st1)) ∧
    (∀ addr cls_, obj = some (.ClassInstance addr) → st1.class? addr = some cls_ →
      (∀ m ∈ searchOrder cls_, ¬ (m.name = method_ ∧ effectiveCount m = args_.length)) →
      Execute (fuel + 1) (.MethodCall object_ method_ args_) closure st = .ok (none, st1)) ∧
    (∀ addr cls_ m, obj = some (.ClassInstance addr) → st1.class? addr = some cls_ →
      m ∈ searchOrder cls_ → m.name = method_ → effectiveCount m = args_.length →
      (∀ vals st2, EvaluatesTo (Execute fuel) closure args_ st1 vals st2 →
        vals.length = args_.length ∧
        Execute (fuel + 1) (.MethodCall object_ method_ args_) closure st =
          Call (Execute fuel) addr method_ vals st2) ∧
      (∀ pre a post vals st2 x, args_ = pre ++ a :: post →
        EvaluatesTo (Execute fuel) closure pre st1 vals st2 →
        Execute fuel a closure st2 = .raise x →
        Execute (fuel + 1) (.MethodCall object_ method_ args_) closure st = .raise x)) := by
  refine ⟨?_, ?_, ?_⟩
  · intro hi
    rw [Execute, ho, Res.bind_ok]
    rcases obj with _ | (_ | _ | _ | _ | _) <;> first | rfl | cases hi
  · intro addr cls_ hobj hc hnone
    have hh : cls_.HasMethod method_ args_.length = false := by
      rw [HasMethod_eq_any, List.any_eq_false]
      intro m hm
      simpa [matchesCall] using hnone m hm
    subst hobj
    rw [Execute, ho, Res.bind_ok]
    dsimp only
    rw [hc]
    dsimp only
    rw [if_neg (by rw [hh]; decide)]
  · intro addr cls_ m hobj hc hm hname hcount
    have hh : cls_.HasMethod method_ args_.length = true := by
      rw [HasMethod_eq_any, List.any_eq_true]
      exact ⟨m, hm, by simp [matchesCall, hname, hcount]⟩
    subst hobj
    constructor
    · intro vals st2 hargs
      constructor
      · exact EvaluatesTo_length hargs
      · rw [Execute, ho, Res.bind_ok]
        dsimp only
        rw [hc]
        dsimp only
        rw [if_pos hh, executeArgs_of_EvaluatesTo hargs, Res.bind_ok]
    · intro pre a post vals st2 x hargs hpre ha
      rw [Execute, ho, Res.bind_ok]
      dsimp only
      rw [hc]
      dsimp only
      rw [if_pos hh, hargs, executeArgs_raise (Execute fuel) closure a post x pre st1 st2 vals
        hpre ha]
      rfl

theorem MethodCall_cases_witness :
    Execute 5 (.MethodCall (.VariableValue ["x"]) "get" [.VariableValue ["missing"]]) 0
        receiverState = .ok (none, receiverState) ∧
    Execute 5 (.MethodCall (.VariableValue ["obj"]) "get" []) 0 receiverState =
      .ok (none, receiverState) ∧
    Execute 6 (.MethodCall (.VariableValue ["obj"]) "pair"
        [.Assignment "y" (.VariableValue ["x"]), .VariableValue ["y"]]) 0 pairState =
      Call (Execute 5) 1 "pair" [some (.Number 1), some (.Number 1)]
        (State.mk [Cell.mk none [("x", some (.Number 1)), ("obj", some (.ClassInstance 1)),
            ("y", some (.Number 1))], Cell.mk (some classPair) []] "") ∧
    Call (Execute 5) 1 "pair" [some (.Number 1), some (.Number 1)]
        (State.mk [Cell.mk none [("x", some (.Number 1)), ("obj", some (.ClassInstance 1)),
            ("y", some (.Number 1))], Cell.mk (some classPair) []] "") =
      .ok (some (.Number 1),
        State.mk [Cell.mk none [("x", some (.Number 1)), ("obj", some (.ClassInstance 1)),
            ("y", some (.Number 1))], Cell.mk (some classPair) [],
          Cell.mk none [("a", some (.Number 1)), ("b", some (.Number 1)),
            ("self", some (.ClassInstance 1))]] "") ∧
    Execute 6 (.MethodCall (.VariableValue ["obj"]) "pair"
        [.VariableValue ["missing"], .Assignment "y" (.VariableValue ["x"])]) 0 pairState =
      .raise (.runtime_error "Unknown variable", pairState) :=
  ⟨(MethodCall_cases 4 (.VariableValue ["x"]) "get" [.VariableValue ["missing"]] 0
      receiverState receiverState (some (.Number 1)) rfl).1 rfl,
    (MethodCall_cases 4 (.VariableValue ["obj"]) "get" [] 0
      receiverState receiverState (some (.ClassInstance 1)) rfl).2.1 1 classGet rfl rfl
      (by decide),
    (((MethodCall_cases 5 (.VariableValue ["obj"]) "pair"
      [.Assignment "y" (.VariableValue ["x"]), .VariableValue ["y"]] 0
      pairState pairState (some (.ClassInstance 1)) rfl).2.2 1 classPair
      (.mk "pair" ["a", "b"] (.MethodBody (.Return (.VariableValue ["b"])))) rfl rfl
      (List.mem_singleton.2 rfl) rfl rfl).1 [some (.Number 1), some (.Number 1)] _
      (.step _ _ _ _ _ _ _ rfl (.step _ _ _ _ _ _ _ rfl (.done _)))).2,
    rfl,
    ((MethodCall_cases 5 (.VariableValue ["obj"]) "pair"
      [.VariableValue ["missing"], .Assignment "y" (.VariableValue ["x"])] 0
      pairState pairState (some (.ClassInstance 1)) rfl).2.2 1 classPair
      (.mk "pair" ["a", "b"] (.MethodBody (.Return (.VariableValue ["b"])))) rfl rfl
      (List.mem_singleton.2 rfl) rfl rfl).2 [] (.VariableValue ["missing"])
      [.Assignment "y" (.VariableValue ["x"])] [] pairState
      (.runtime_error "Unknown variable", pairState) rfl (.done _) rfl⟩

theorem keeps_raise (e0 : Exn) (st : State) :
    (∀ v st1, (Res.raise (e0, st) : ExecRes ObjectHolder) = .ok (v, st1) → st1 = st) ∧
    (∀ e st1, (Res.raise (e0, st) : ExecRes ObjectHolder) = .raise (e, st1) → st1 = st) :=
  ⟨fun _ _ h => (nomatch h), fun _ _ h => (by cases h; rfl)⟩

theorem keeps_ok (v0 : ObjectHolder) (st : State) :
    (∀ v st1, (Res.ok (v0, st) : ExecRes ObjectHolder) = .ok (v, st1) → st1 = st) ∧
    (∀ e st1, (Res.ok (v0, st) : ExecRes ObjectHolder) = .raise (e, st1) → st1 = st) :=
  ⟨fun _ _ h => (by cases h; rfl), fun _ _ h => nomatch h⟩

theorem keeps_undefined (st : State) :
    (∀ v st1, (Res.undefined : ExecRes ObjectHolder) = .ok (v, st1) → st1 = st) ∧
    (∀ e st1, (Res.undefined : ExecRes ObjectHolder) = .raise (e, st1) → st1 = st) :=
  ⟨fun _ _ h => (nomatch h), fun _ _ h => nomatch h⟩

theorem walk_keeps_state (st : State) :
    ∀ (ids : List String) (closure : Nat),
      (∀ v st1, VariableValue.walk st ids closure = .ok (v, st1) → st1 = st) ∧
      (∀ e st1, VariableValue.walk st ids closure = .raise (e, st1) → st1 = st)
  | [], closure => keeps_raise _ st
  | [last], closure => by
    rw [VariableValue.walk]
    cases st.closure? closure with
    | none => exact keeps_undefined st
    | some cl =>
      dsimp only
      cases Closure.find? cl last with
      | none => exact keeps_raise _ st
      | some obj => exact keeps_ok _ st
  | id :: next :: rest, closure => by
    rw [VariableValue.walk]
    cases st.closure? closure with
    | none => exact keeps_undefined st
    | some cl =>
      dsimp only
      cases hf : Closure.find? cl id with
      | none =>
        dsimp only
        by_cases hs : id = "self"
        · rw [if_pos hs]
          exact walk_keeps_state st (next :: rest) closure
        · rw [if_neg hs]
          exact keeps_raise _ st
      | some v =>
        rcases v with _ | (_ | _ | _ | _ | addr)
        · exact keeps_raise _ st
        · exact keeps_raise _ st
        · exact keeps_raise _ st
        · exact keeps_raise _ st
        · exact keeps_raise _ st
        · exact walk_keeps_state st (next :: rest) addr

/-- C29, counterexample: a final segment `self` that is not bound in the closure being
searched is not skipped, the lookup throws `runtime_error`; only a segment `self` that is
not the last one is skipped. -/
theorem VariableValue_final_self :
    Closure.find? [("x", some (.Number 1)), ("obj", some (.ClassInstance 1))] "self" = none ∧
    Execute 3 (.VariableValue ["self"]) 0 fieldsState =
      .raise (.runtime_error "Unknown variable", fieldsState) ∧
    Execute 3 (.VariableValue ["obj", "self"]) 0 fieldsState =
      .raise (.runtime_error "Unknown variable", fieldsState) ∧
    Execute 3 (.VariableValue ["self", "x"]) 0 fieldsState =
      .ok (some (.Number 1), fieldsState) :=
  ⟨rfl, rfl, rfl, rfl⟩

/-- C29, amended: `VariableValue` looks the last name up in the closure reached and
returns the value bound to it, and throws `runtime_error` when it is not bound, `self`
included. Before that, each name but the last moves the walk to the fields of the instance
bound to it; a `self` that is not bound is skipped, the walk staying in the same closure;
any other name that is not bound, and a name bound to a value that is not an instance,
throw `runtime_error`. No outcome changes the state. -/
theorem VariableValue_walk_rules (fuel : Nat) (st : State) (closure : Nat) (cl : Closure)
    (hcl : st.closure? closure = some cl) :
    (∀ last v, Closure.find? cl last = some v →
      Execute (fuel + 1) (.VariableValue [last]) closure st = .ok (v, st)) ∧
    (∀ last, Closure.find? cl last = none →
      Execute (fuel + 1) (.VariableValue [last]) closure st =
        .raise (.runtime_error "Unknown variable", st)) ∧
    (∀ id next rest addr, Closure.find? cl id = some (some (.ClassInstance addr)) →
      Execute (fuel + 1) (.VariableValue (id :: next :: rest)) closure st =
        Execute (fuel + 1) (.VariableValue (next :: rest)) addr st) ∧
    (∀ next rest, Closure.find? cl "self" = none →
      Execute (fuel + 1) (.VariableValue ("self" :: next :: rest)) closure st =
        Execute (fuel + 1) (.VariableValue (next :: rest)) closure st) ∧
    (∀ id next rest, id ≠ "self" → Closure.find? cl id = none →
      Execute (fuel + 1) (.VariableValue (id :: next :: rest)) closure st =
        .raise (.runtime_error (id ++ ": unknown variable"), st)) ∧
    (∀ id next rest v, Closure.find? cl id = some v → isClassInstance v = false →
      Execute (fuel + 1) (.VariableValue (id :: next :: rest)) closure st =
        .raise (.runtime_error "Undefined class field", st)) ∧
    (∀ ids c v st1, Execute (fuel + 1) (.VariableValue ids) c st = .ok (v, st1) → st1 = st) ∧
    (∀ ids c e st1, Execute (fuel + 1) (.VariableValue ids) c st = .raise (e, st1) →
      st1 = st) := by
  refine ⟨?_, ?_, ?_, ?_, ?_, ?_, ?_, ?_⟩
  · intro last v hf
    rw [Execute, VariableValue.walk, hcl]
    dsimp only
    rw [hf]
  · intro last hf
    rw [Execute, VariableValue.walk, hcl]
    dsimp only
    rw [hf]
  · intro id next rest addr hf
    rw [Execute, Execute, VariableValue.walk, hcl]
    dsimp only
    rw [hf]
  · intro next rest hf
    rw [Execute, Execute, VariableValue.walk, hcl]
    dsimp only
    rw [hf]
    dsimp only
    rw [if_pos rfl]
  · intro id next rest hs hf
    rw [Execute, VariableValue.walk, hcl]
    dsimp only
    rw [hf]
    dsimp only
    rw [if_neg hs]
  · intro id next rest v hf hv
    rw [Execute, VariableValue.walk, hcl]
    dsimp only
    rw [hf]
    rcases v with _ | (_ | _ | _ | _ | _) <;> first | rfl | cases hv
  · intro ids c v st1 h
    rw [Execute] at h
    exact (walk_keeps_state st ids c).1 v st1 h
  · intro ids c e st1 h
    rw [Execute] at h
    exact (walk_keeps_state st ids c).2 e st1 h

theorem VariableValue_walk_rules_witness :
    Execute 3 (.VariableValue ["obj", "f"]) 0 fieldsState =
      Execute 3 (.VariableValue ["f"]) 1 fieldsState ∧
    Execute 3 (.VariableValue ["f"]) 1 fieldsState = .ok (some (.Number 5), fieldsState) ∧
    Execute 3 (.VariableValue ["y", "f"]) 0 fieldsState =
      .raise (.runtime_error "y: unknown variable", fieldsState) ∧
    Execute 3 (.VariableValue ["x", "f"]) 0 fieldsState =
      .raise (.runtime_error "Undefined class field", fieldsState) :=
  ⟨(VariableValue_walk_rules 2 fieldsState 0 _ rfl).2.2.1 "obj" "f" [] 1 rfl,
    (VariableValue_walk_rules 2 fieldsState 1 _ rfl).1 "f" (some (.Number 5)) rfl,
    (VariableValue_walk_rules 2 fieldsState 0 _ rfl).2.2.2.2.1 "y" "f" [] (by decide) rfl,
    (VariableValue_walk_rules 2 fieldsState 0 _ rfl).2.2.2.2.2.1 "x" "f" []
      (some (.Number 1)) rfl rfl⟩

theorem Greater_of_Less_Equal (exec : Exec) (a b : ObjectHolder) (st : State) (lt eq : Bool)
    (hl : Less exec a b st = .ok (lt, st)) (he : Equal exec a b st = .ok (eq, st)) :
    Greater exec a b st = .ok (!lt && !eq, st) := by
  unfold Greater
  rw [hl]
  cases lt with
  | true => rfl
  | false =>
    show (Equal exec a b st).bind _ = _
    rw [he]
    rfl

theorem one_of_three {α : Type} [LinearOrder α] (l r : α) [Decidable (l < r)]
    [Decidable (l = r)] [Decidable (r < l)] :
    ((decide (l < r) = true ∧ decide (l = r) = false ∧ decide (r < l) = false) ∨
      (decide (l < r) = false ∧ decide (l = r) = true ∧ decide (r < l) = false) ∨
      (decide (l < r) = false ∧ decide (l = r) = false ∧ decide (r < l) = true)) ∧
    (!decide (l < r) && !decide (l = r)) = decide (r < l) := by
  rcases lt_trichotomy l r with h | h | h
  · have h1 : ¬ l = r := ne_of_lt h
    have h2 : ¬ r < l := not_lt_of_lt h
    simp [h, h1, h2]
  · subst h
    simp
  · have h1 : ¬ l = r := ne_of_gt h
    have h2 : ¬ l < r := not_lt_of_lt h
    simp [h, h1, h2]

/-- C30: on two `Number`s, two `String`s or two `Bool`s, `Less`, `Equal` and `Greater`
return without failing and without changing the state, exactly one of the three is true,
and `Greater(a, b)` is `Less(b, a)`; `Less` on `String`s is the lexicographic order of
their characters, and `Less` on `Bool`s puts false below true. -/
theorem primitives_totally_ordered (exec : Exec) (st : State) (a b : ObjectHolder)
    (h : samePrimitive a b = true) :
    (∃ lt eq gt : Bool, Less exec a b st = .ok (lt, st) ∧ Equal exec a b st = .ok (eq, st) ∧
      Greater exec a b st = .ok (gt, st) ∧ Less exec b a st = .ok (gt, st) ∧
      ((lt = true ∧ eq = false ∧ gt = false) ∨ (lt = false ∧ eq = true ∧ gt = false) ∨
        (lt = false ∧ eq = false ∧ gt = true))) ∧
    (∀ l r : String, Less exec (some (.String l)) (some (.String r)) st =
      .ok (decide (l.toList < r.toList), st)) ∧
    (∀ l r : Bool, Less exec (some (.Bool l)) (some (.Bool r)) st =
      .ok (!l && r, st)) := by
  refine ⟨?_, ?_, ?_⟩
  · match a, b, h with
    | some (.Number l), some (.Number r), _ =>
      refine ⟨decide (l < r), decide (l = r), decide (r < l), rfl, rfl, ?_, rfl,
        (one_of_three l r).1⟩
      rw [Greater_of_Less_Equal exec (some (.Number l)) (some (.Number r)) st (decide (l < r))
        (decide (l = r)) rfl rfl, (one_of_three l r).2]
    | some (.String l), some (.String r), _ =>
      refine ⟨decide (l < r), decide (l = r), decide (r < l), rfl, rfl, ?_, rfl,
        (one_of_three l r).1⟩
      rw [Greater_of_Less_Equal exec (some (.String l)) (some (.String r)) st (decide (l < r))
        (decide (l = r)) rfl rfl, (one_of_three l r).2]
    | some (.Bool l), some (.Bool r), _ =>
      refine ⟨decide (l < r), decide (l = r), decide (r < l), rfl, rfl, ?_, rfl,
        (one_of_three l r).1⟩
      rw [Greater_of_Less_Equal exec (some (.Bool l)) (some (.Bool r)) st (decide (l < r))
        (decide (l = r)) rfl rfl, (one_of_three l r).2]
  · intro l r
    have : decide (l < r) = decide (l.toList < r.toList) := by
      rw [decide_eq_decide]
      exact String.lt_iff_toList_lt
    rw [← this]
    rfl
  · intro l r
    cases l <;> cases r <;> rfl

theorem primitives_totally_ordered_witness :
    ∃ lt eq gt : Bool,
      Less (Execute 0) (some (.String "ab")) (some (.String "b")) (globalState []) =
        .ok (lt, globalState []) ∧
      Equal (Execute 0) (some (.String "ab")) (some (.String "b")) (globalState []) =
        .ok (eq, globalState []) ∧
      Greater (Execute 0) (some (.String "ab")) (some (.String "b")) (globalState []) =
        .ok (gt, globalState []) ∧
      Less (Execute 0) (some (.String "b")) (some (.String "ab")) (globalState []) =
        .ok (gt, globalState []) ∧
      ((lt = true ∧ eq = false ∧ gt = false) ∨ (lt = false ∧ eq = true ∧ gt = false) ∨
        (lt = false ∧ eq = false ∧ gt = true)) :=
  (primitives_totally_ordered (Execute 0) (globalState []) (some (.String "ab"))
    (some (.String "b")) rfl).1

end ast
end Mython
